import Mathlib

/-!
# LSB steganography codec: embedding of `encode.c` and `decode.c`

Conventions of the embedding.

* A byte is a `Nat` below 256 (`isBytes`); a `char` or `unsigned char` object is
  represented by its 8-bit pattern.
* `int` and `uint` are 32 bits wide, `long` and `size_t` are 64 bits wide (LP64); a
  signed object is represented by its two's-complement pattern, `long_val` gives
  the signed value of a `long` pattern.  Left-shifting into the sign bit of an
  `int` wraps, and converting `int` to `long` sign-extends.
* A stream opened for reading is a `FILE`: the content of the file and the read
  offset.  A stream opened with mode "wb" is the list of bytes written so far,
  which is also the content of the file it created or truncated.
* Opening the destination image for writing, writing to a stream, `fseek` and
  `ftell` do not fail, and the files of a run are distinct files.  Whether the
  reader can create its output file depends on the name, which the reader builds
  from decoded bytes: the state of a decoding run holds the outcome of
  `fopen (name, "wb")` for every name (`fopen_wb`).  Capacities of the fixed-size
  `char` arrays are not modelled: a string is the list of bytes before its
  terminator, an array is the list of its elements, and a store by
  `decode_data_from_image` past the end of the list lengthens the list.
* `MAGIC_STRING` is defined in `common.h`, which is missing; it is a parameter of
  every function that uses it.  `char` is a signed type, as on x86-64.
-/

namespace Stego

/-- Modelled from the spec: the result type `Status` is declared in `types.h`,
which is missing; operations return success or failure, named as `encode.c` and
`decode.c` name them. -/
inductive Status where
  | e_success
  | e_failure
deriving DecidableEq, Repr

/-- Input stream: file content and read offset. -/
structure FILE where
  data : List Nat
  pos : Nat
deriving DecidableEq, Repr

/-- Every element is an 8-bit value. -/
def isBytes (l : List Nat) : Bool := l.all (fun b => decide (b < 256))

/-- Bytes of a `char` array up to, and excluding, the first NUL. -/
def cstr (s : List Nat) : List Nat := s.takeWhile (fun b => decide (b ≠ 0))

/-- Length of the C string held in a `char` array. -/
def strlen (s : List Nat) : Nat := (cstr s).length

/-- Result of `strcat (dst, src)` as a C string. -/
def strcat (dst src : List Nat) : List Nat := cstr dst ++ cstr src

/-- Stream positioned at `offset` from the start (`SEEK_SET`). -/
def fseek (f : FILE) (offset : Nat) : FILE := { f with pos := offset }

/-- Bytes still to be read from a stream. -/
def FILE.rest (f : FILE) : List Nat := f.data.drop f.pos

/-- Read up to `n` bytes: the bytes obtained (fewer than `n` at end of file)
and the advanced stream. -/
def fread (n : Nat) (f : FILE) : List Nat × FILE :=
  let got := (f.data.drop f.pos).take n
  (got, { f with pos := f.pos + got.length })

/-- Promotion of a `char` to `int` (sign extension of the 8-bit pattern). -/
def char_to_int (c : Nat) : Nat :=
  if c % 256 < 128 then c % 256 else c % 256 + 4294967040

/-- Conversion of a `long` to `int`: the low 32 bits. -/
def long_to_int (x : Nat) : Nat := x % 4294967296

/-- Conversion of an `int` to `long`: sign extension to 64 bits. -/
def int_to_long (x : Nat) : Nat :=
  if x % 4294967296 < 2147483648 then x % 4294967296 else x % 4294967296 + 18446744069414584320

/-- Signed value of a 64-bit `long` pattern. -/
def long_val (x : Nat) : Int :=
  if x % 18446744073709551616 < 9223372036854775808 then (x % 18446744073709551616 : Nat)
  else ((x % 18446744073709551616 : Nat) : Int) - 18446744073709551616

/-- The constant `MAX_FILE_SUFFIX_` of `decode.h`. -/
def MAX_FILE_SUFFIX_ : Nat := 50

/-! ## Bit codec -/

/-- Function `encode_size_to_lsb (int data, char *buffer)`: bit `31 - i` of `data` replaces
the least significant bit of `buffer[i]`, for `i` from 0 to 31.  `~1` is the
`int` pattern `0xFFFFFFFE`; the store to a `char` keeps the low 8 bits. -/
def encode_size_to_lsb (data : Nat) (buffer : List Nat) : Status × List Nat :=
  (Status.e_success,
    (List.range 32).foldl
      (fun buf i => buf.set i (((buf.getD i 0 &&& 4294967294) ||| ((data >>> (31 - i)) &&& 1)) % 256))
      buffer)

/-- Function `encode_byte_to_lsb (int data, char *image_buffer)`: bit `7 - i` of `data`
replaces the least significant bit of `image_buffer[i]`, for `i` from 0 to 7. -/
def encode_byte_to_lsb (data : Nat) (image_buffer : List Nat) : Status × List Nat :=
  (Status.e_success,
    (List.range 8).foldl
      (fun buf i => buf.set i (((buf.getD i 0 &&& 4294967294) ||| ((data >>> (7 - i)) &&& 1)) % 256))
      image_buffer)

/-- Function `decode_byte_from_lsb (char *data, unsigned char *image_buffer)`: the status
and the byte stored through `data`. -/
def decode_byte_from_lsb (image_buffer : List Nat) : Status × Nat :=
  (Status.e_success,
    (List.range 8).foldl
      (fun data i => (data ||| ((image_buffer.getD i 0 &&& 1) <<< (7 - i))) % 256)
      0)

/-- Function `decode_size_from_lsb (long int *data, unsigned char *buffer)`: the status and
the 64-bit pattern stored through `data`.  The shifted bit is an `int`, converted
to `long` for the bitwise or. -/
def decode_size_from_lsb (buffer : List Nat) : Status × Nat :=
  (Status.e_success,
    (List.range 32).foldl
      (fun data i => data ||| int_to_long (((buffer.getD i 0 &&& 1) <<< (31 - i)) % 4294967296))
      0)

/-! ## Container writer -/

/-- Modelled from the spec: `EncodeInfo` is declared in `encode.h`, which is
missing.  The state of an encoding run holds the fields that `encode.c` reads and
writes, with the files that the three names refer to; `size_secret_file` holds the
`uint` returned by `get_file_size`. -/
structure EncodeInfo where
  /-- content of the file named `src_image_fname`, `none` when it cannot be opened -/
  src_image_file : Option (List Nat)
  fptr_src_image : FILE
  image_capacity : Nat
  /-- content of the file named `secret_fname`, `none` when it cannot be opened -/
  secret_file : Option (List Nat)
  fptr_secret : FILE
  extn_secret_file : List Nat
  size_secret_file : Nat
  /-- the destination file has been created or truncated by `fopen` -/
  stego_image_created : Bool
  /-- bytes written to the stream `fptr_stego_image` -/
  fptr_stego_image : List Nat
deriving DecidableEq, Repr

/-- One `fread (&x, sizeof (int), 1, f)` on a little-endian host; `none` when
fewer than four bytes are left, the object then keeps an indeterminate value. -/
def fread_uint (f : FILE) : Option Nat × FILE :=
  match fread 4 f with
  | ([b0, b1, b2, b3], g) => (some (b0 + 256 * b1 + 65536 * b2 + 16777216 * b3), g)
  | (_, g) => (none, g)

/-- Function `get_image_size_for_bmp`: `width * height * 3` in `uint` arithmetic, `none`
when `width` or `height` is indeterminate. -/
def get_image_size_for_bmp (fptr_image : FILE) : Option Nat × FILE :=
  match fread_uint (fseek fptr_image 18) with
  | (width, f1) =>
    match fread_uint f1 with
    | (height, f2) =>
      match width, height with
      | some w, some h => (some (w * h * 3 % 4294967296), f2)
      | _, _ => (none, f2)

/-- Function `get_file_size`: the end offset converted to `uint`; the stream is rewound. -/
def get_file_size (fptr : FILE) : Nat × FILE :=
  (fptr.data.length % 4294967296, fseek fptr 0)

/-- Function `open_files`: the two inputs are opened for reading, the destination for
writing (created or truncated). -/
def open_files (encInfo : EncodeInfo) : Status × EncodeInfo :=
  match encInfo.src_image_file with
  | none => (Status.e_failure, encInfo)
  | some img =>
    let encInfo := { encInfo with fptr_src_image := ⟨img, 0⟩ }
    match encInfo.secret_file with
    | none => (Status.e_failure, encInfo)
    | some sec =>
      (Status.e_success,
        { encInfo with fptr_secret := ⟨sec, 0⟩, stego_image_created := true, fptr_stego_image := [] })

/-- Function `check_capacity`; `none` when the image capacity is indeterminate.  The
right-hand side is computed in `size_t`. -/
def check_capacity (MAGIC_STRING : List Nat) (encInfo : EncodeInfo) : Option (Status × EncodeInfo) :=
  match get_image_size_for_bmp encInfo.fptr_src_image with
  | (none, _) => none
  | (some capacity, src) =>
    match get_file_size encInfo.fptr_secret with
    | (size, sec) =>
      let encInfo := { encInfo with
        image_capacity := capacity, fptr_src_image := src,
        size_secret_file := size, fptr_secret := sec }
      if encInfo.image_capacity <
          ((strlen MAGIC_STRING + 4 + strlen encInfo.extn_secret_file + 4 + encInfo.size_secret_file) * 8
            + 64) % 18446744073709551616 then
        some (Status.e_failure, encInfo)
      else some (Status.e_success, encInfo)

/-- Function `copy_bmp_header`. -/
def copy_bmp_header (fptr_src_image : FILE) (fptr_dest_image : List Nat) :
    Status × FILE × List Nat :=
  match fread 54 (fseek fptr_src_image 0) with
  | (buffer, src) =>
    if buffer.length ≠ 54 then (Status.e_failure, src, fptr_dest_image)
    else (Status.e_success, src, fptr_dest_image ++ buffer)

/-- Loop of `encode_data_to_image` over the bytes still to embed. -/
def encode_data_to_image_loop : List Nat → FILE → List Nat → Status × FILE × List Nat
  | [], src, dest => (Status.e_success, src, dest)
  | d :: ds, src, dest =>
    match fread 8 src with
    | (buffer, src1) =>
      if buffer.length ≠ 8 then (Status.e_failure, src1, dest)
      else
        match encode_byte_to_lsb (char_to_int d) buffer with
        | (Status.e_failure, _) => (Status.e_failure, src1, dest)
        | (Status.e_success, buffer1) => encode_data_to_image_loop ds src1 (dest ++ buffer1)

/-- Function `encode_data_to_image (data, size, fptr_src_image, fptr_stego_image)`: the
bytes `data[0 .. size - 1]` are embedded one after the other. -/
def encode_data_to_image (data : List Nat) (size : Nat) (fptr_src_image : FILE)
    (fptr_stego_image : List Nat) : Status × FILE × List Nat :=
  encode_data_to_image_loop (data.take size) fptr_src_image fptr_stego_image

/-- Function `encode_magic_string`. -/
def encode_magic_string (magic_string : List Nat) (encInfo : EncodeInfo) : Status × EncodeInfo :=
  match encode_data_to_image magic_string (strlen magic_string)
      encInfo.fptr_src_image encInfo.fptr_stego_image with
  | (st, src, dest) => (st, { encInfo with fptr_src_image := src, fptr_stego_image := dest })

/-- Function `encode_secret_file_extn_size (long file_size, encInfo)`. -/
def encode_secret_file_extn_size (file_size : Nat) (encInfo : EncodeInfo) : Status × EncodeInfo :=
  match fread 32 encInfo.fptr_src_image with
  | (buffer, src) =>
    if buffer.length ≠ 32 then (Status.e_failure, { encInfo with fptr_src_image := src })
    else
      match encode_size_to_lsb (long_to_int file_size) buffer with
      | (Status.e_failure, _) => (Status.e_failure, { encInfo with fptr_src_image := src })
      | (Status.e_success, buffer1) =>
        (Status.e_success,
          { encInfo with fptr_src_image := src, fptr_stego_image := encInfo.fptr_stego_image ++ buffer1 })

/-- Function `encode_secret_file_extn`. -/
def encode_secret_file_extn (file_extn : List Nat) (encInfo : EncodeInfo) : Status × EncodeInfo :=
  match encode_data_to_image file_extn (strlen file_extn)
      encInfo.fptr_src_image encInfo.fptr_stego_image with
  | (st, src, dest) => (st, { encInfo with fptr_src_image := src, fptr_stego_image := dest })

/-- Function `encode_secret_file_size (long file_size, encInfo)`. -/
def encode_secret_file_size (file_size : Nat) (encInfo : EncodeInfo) : Status × EncodeInfo :=
  match fread 32 encInfo.fptr_src_image with
  | (buffer, src) =>
    if buffer.length ≠ 32 then (Status.e_failure, { encInfo with fptr_src_image := src })
    else
      match encode_size_to_lsb (long_to_int file_size) buffer with
      | (Status.e_failure, _) => (Status.e_failure, { encInfo with fptr_src_image := src })
      | (Status.e_success, buffer1) =>
        (Status.e_success,
          { encInfo with fptr_src_image := src, fptr_stego_image := encInfo.fptr_stego_image ++ buffer1 })

/-- Loop of `encode_secret_file_data`, `n` iterations still to run. -/
def encode_secret_file_data_loop : Nat → FILE → FILE → List Nat → Status × FILE × FILE × List Nat
  | 0, secret, src, dest => (Status.e_success, secret, src, dest)
  | n + 1, secret, src, dest =>
    match fread 1 secret with
    | ([data_byte], secret1) =>
      match fread 8 src with
      | (buffer, src1) =>
        if buffer.length ≠ 8 then (Status.e_failure, secret1, src1, dest)
        else
          match encode_byte_to_lsb (char_to_int data_byte) buffer with
          | (Status.e_failure, _) => (Status.e_failure, secret1, src1, dest)
          | (Status.e_success, buffer1) =>
            encode_secret_file_data_loop n secret1 src1 (dest ++ buffer1)
    | (_, secret1) => (Status.e_failure, secret1, src, dest)

/-- Function `encode_secret_file_data`. -/
def encode_secret_file_data (encInfo : EncodeInfo) : Status × EncodeInfo :=
  match encode_secret_file_data_loop encInfo.size_secret_file (fseek encInfo.fptr_secret 0)
      encInfo.fptr_src_image encInfo.fptr_stego_image with
  | (st, secret, src, dest) =>
    (st, { encInfo with fptr_secret := secret, fptr_src_image := src, fptr_stego_image := dest })

/-- Loop of `copy_remaining_img_data`: blocks of up to 4096 bytes are copied
until a read returns nothing.  Every iteration that continues consumes at least
one byte, so `fuel` above the number of unread bytes is never used up. -/
def copy_remaining_img_data_loop : Nat → FILE → List Nat → Status × FILE × List Nat
  | 0, src, dest => (Status.e_failure, src, dest)
  | fuel + 1, src, dest =>
    match fread 4096 src with
    | (buffer, src1) =>
      if buffer.length > 0 then copy_remaining_img_data_loop fuel src1 (dest ++ buffer)
      else (Status.e_success, src1, dest)

/-- Function `copy_remaining_img_data`. -/
def copy_remaining_img_data (fptr_src : FILE) (fptr_dest : List Nat) : Status × FILE × List Nat :=
  copy_remaining_img_data_loop (fptr_src.rest.length + 1) fptr_src fptr_dest

/-- Function `do_encoding`; `none` when the capacity check reads an indeterminate
image size. -/
def do_encoding (MAGIC_STRING : List Nat) (encInfo : EncodeInfo) : Option (Status × EncodeInfo) :=
  match open_files encInfo with
  | (Status.e_failure, e1) => some (Status.e_failure, e1)
  | (Status.e_success, e1) =>
  match check_capacity MAGIC_STRING e1 with
  | none => none
  | some (Status.e_failure, e2) => some (Status.e_failure, e2)
  | some (Status.e_success, e2) =>
  match copy_bmp_header e2.fptr_src_image e2.fptr_stego_image with
  | (Status.e_failure, src, dest) =>
    some (Status.e_failure, { e2 with fptr_src_image := src, fptr_stego_image := dest })
  | (Status.e_success, src, dest) =>
  match encode_magic_string MAGIC_STRING { e2 with fptr_src_image := src, fptr_stego_image := dest } with
  | (Status.e_failure, e4) => some (Status.e_failure, e4)
  | (Status.e_success, e4) =>
  match encode_secret_file_extn_size (strlen e4.extn_secret_file) e4 with
  | (Status.e_failure, e5) => some (Status.e_failure, e5)
  | (Status.e_success, e5) =>
  match encode_secret_file_extn e5.extn_secret_file e5 with
  | (Status.e_failure, e6) => some (Status.e_failure, e6)
  | (Status.e_success, e6) =>
  match encode_secret_file_size e6.size_secret_file e6 with
  | (Status.e_failure, e7) => some (Status.e_failure, e7)
  | (Status.e_success, e7) =>
  match encode_secret_file_data e7 with
  | (Status.e_failure, e8) => some (Status.e_failure, e8)
  | (Status.e_success, e8) =>
  match copy_remaining_img_data e8.fptr_src_image e8.fptr_stego_image with
  | (st, src, dest) => some (st, { e8 with fptr_src_image := src, fptr_stego_image := dest })

/-! ## Container reader -/

/-- State of a decoding run (`DecodeInfo` of `decode.h`, with the file the stego
image name refers to and the outcome of opening a file for writing). -/
structure DecodeInfo where
  /-- content of the file named `stego_image_fname`, `none` when it cannot be opened -/
  stego_image_file : Option (List Nat)
  fptr_stego_image : FILE
  /-- the C string held in `secret_fname` -/
  secret_fname : List Nat
  /-- the output file has been created or truncated by `fopen` -/
  secret_created : Bool
  /-- bytes written to the stream `fptr_secret` -/
  fptr_secret : List Nat
  extn_secret_file : List Nat
  size_secret_file_extn : Nat
  size_secret_file : Nat
  /-- whether `fopen (name, "wb")` succeeds, for every file name `name` -/
  fopen_wb : List Nat → Bool

/-- Function `skip_bmp_header`: the stego image is opened and positioned at offset 54. -/
def skip_bmp_header (decInfo : DecodeInfo) : Status × DecodeInfo :=
  match decInfo.stego_image_file with
  | none => (Status.e_failure, decInfo)
  | some img => (Status.e_success, { decInfo with fptr_stego_image := fseek ⟨img, 0⟩ 54 })

/-- Loop of `decode_data_from_image`, `n` iterations still to run; `out` holds
the bytes stored so far. -/
def decode_data_from_image_loop : Nat → FILE → List Nat → Status × List Nat × FILE
  | 0, f, out => (Status.e_success, out, f)
  | n + 1, f, out =>
    match fread 8 f with
    | (img_buffer, f1) =>
      if img_buffer.length ≠ 8 then (Status.e_failure, out, f1)
      else
        match decode_byte_from_lsb img_buffer with
        | (Status.e_failure, _) => (Status.e_failure, out, f1)
        | (Status.e_success, ch) => decode_data_from_image_loop n f1 (out ++ [ch])

/-- Function `decode_data_from_image (output, size, fptr_src_image)` for a non-negative
`size`: the status, the array `output` after the call and the stream.  On
success `output[0 .. size - 1]` hold the decoded bytes and `output[size]` is NUL. -/
def decode_data_from_image (output : List Nat) (size : Nat) (fptr_src_image : FILE) :
    Status × List Nat × FILE :=
  match decode_data_from_image_loop size fptr_src_image [] with
  | (Status.e_failure, out, f) => (Status.e_failure, out ++ output.drop out.length, f)
  | (Status.e_success, out, f) => (Status.e_success, out ++ 0 :: output.drop (size + 1), f)

/-- Function `decode_magic_string`: `buffer` is the zero-initialised local array of 16
bytes, `strcmp` compares the two C strings. -/
def decode_magic_string (magic_string : List Nat) (decInfo : DecodeInfo) : Status × DecodeInfo :=
  match decode_data_from_image (List.replicate 16 0) (strlen magic_string)
      decInfo.fptr_stego_image with
  | (Status.e_failure, _, f) => (Status.e_failure, { decInfo with fptr_stego_image := f })
  | (Status.e_success, buffer, f) =>
    if cstr buffer ≠ cstr magic_string then
      (Status.e_failure, { decInfo with fptr_stego_image := f })
    else (Status.e_success, { decInfo with fptr_stego_image := f })

/-- Function `decode_secret_file_extn_size`. -/
def decode_secret_file_extn_size (decInfo : DecodeInfo) : Status × DecodeInfo :=
  match fread 32 decInfo.fptr_stego_image with
  | (buffer, f) =>
    if buffer.length ≠ 32 then (Status.e_failure, { decInfo with fptr_stego_image := f })
    else
      match decode_size_from_lsb buffer with
      | (Status.e_failure, _) => (Status.e_failure, { decInfo with fptr_stego_image := f })
      | (Status.e_success, size) =>
        let decInfo := { decInfo with fptr_stego_image := f, size_secret_file_extn := size }
        if long_val decInfo.size_secret_file_extn ≤ 0
            ∨ long_val decInfo.size_secret_file_extn ≥ (MAX_FILE_SUFFIX_ : Int) then
          (Status.e_failure, decInfo)
        else (Status.e_success, decInfo)

/-- Function `decode_secret_file_extn`: the extension is decoded into the cleared array,
appended to the output name, and the output file is opened for writing; the
function fails when the file cannot be opened. -/
def decode_secret_file_extn (decInfo : DecodeInfo) : Status × DecodeInfo :=
  match decode_data_from_image (List.replicate MAX_FILE_SUFFIX_ 0)
      (long_to_int decInfo.size_secret_file_extn) decInfo.fptr_stego_image with
  | (Status.e_failure, extn, f) =>
    (Status.e_failure, { decInfo with extn_secret_file := extn, fptr_stego_image := f })
  | (Status.e_success, extn, f) =>
    let extn := extn.set decInfo.size_secret_file_extn 0
    let decInfo := { decInfo with
      extn_secret_file := extn, fptr_stego_image := f,
      secret_fname := strcat decInfo.secret_fname extn }
    if decInfo.fopen_wb decInfo.secret_fname = true then
      (Status.e_success, { decInfo with secret_created := true, fptr_secret := [] })
    else (Status.e_failure, decInfo)

/-- Function `decode_secret_file_size`. -/
def decode_secret_file_size (decInfo : DecodeInfo) : Status × DecodeInfo :=
  match fread 32 decInfo.fptr_stego_image with
  | (buffer, f) =>
    if buffer.length ≠ 32 then (Status.e_failure, { decInfo with fptr_stego_image := f })
    else
      match decode_size_from_lsb buffer with
      | (Status.e_failure, _) => (Status.e_failure, { decInfo with fptr_stego_image := f })
      | (Status.e_success, size) =>
        let decInfo := { decInfo with fptr_stego_image := f, size_secret_file := size }
        if long_val decInfo.size_secret_file < 0 then (Status.e_failure, decInfo)
        else (Status.e_success, decInfo)

/-- Loop of `decode_secret_file_data`, `n` iterations still to run. -/
def decode_secret_file_data_loop : Nat → FILE → List Nat → Status × FILE × List Nat
  | 0, f, secret => (Status.e_success, f, secret)
  | n + 1, f, secret =>
    match fread 8 f with
    | (buffer, f1) =>
      if buffer.length ≠ 8 then (Status.e_failure, f1, secret)
      else
        match decode_byte_from_lsb buffer with
        | (Status.e_failure, _) => (Status.e_failure, f1, secret)
        | (Status.e_success, ch) => decode_secret_file_data_loop n f1 (secret ++ [ch])

/-- Function `decode_secret_file_data`: a size that is not positive is refused, otherwise
one byte is decoded and written per iteration. -/
def decode_secret_file_data (decInfo : DecodeInfo) : Status × DecodeInfo :=
  if long_val decInfo.size_secret_file ≤ 0 then (Status.e_failure, decInfo)
  else
    match decode_secret_file_data_loop (long_val decInfo.size_secret_file).toNat
        decInfo.fptr_stego_image decInfo.fptr_secret with
    | (st, f, secret) => (st, { decInfo with fptr_stego_image := f, fptr_secret := secret })

/-- Function `do_decoding`. -/
def do_decoding (MAGIC_STRING : List Nat) (decInfo : DecodeInfo) : Status × DecodeInfo :=
  match skip_bmp_header decInfo with
  | (Status.e_failure, d1) => (Status.e_failure, d1)
  | (Status.e_success, d1) =>
  match decode_magic_string MAGIC_STRING d1 with
  | (Status.e_failure, d2) => (Status.e_failure, d2)
  | (Status.e_success, d2) =>
  match decode_secret_file_extn_size d2 with
  | (Status.e_failure, d3) => (Status.e_failure, d3)
  | (Status.e_success, d3) =>
  match decode_secret_file_extn d3 with
  | (Status.e_failure, d4) => (Status.e_failure, d4)
  | (Status.e_success, d4) =>
  match decode_secret_file_size d4 with
  | (Status.e_failure, d5) => (Status.e_failure, d5)
  | (Status.e_success, d5) =>
  decode_secret_file_data d5

/-! ## Reference definitions used in the statements -/

/-- The byte `b` with its least significant bit replaced by `bit`. -/
def setLsb (b bit : Nat) : Nat := ((b &&& 4294967294) ||| bit) % 256

/-- Value of the first `k` bits `g 0, g 1, ...` read most significant bit first. -/
def msbValue (g : Nat → Nat) : Nat → Nat
  | 0 => 0
  | k + 1 => 2 * msbValue g k + g k

/-- The `w` low bits of `v`, most significant bit first. -/
def bitsMSB (w v : Nat) : List Nat := (List.range w).map (fun i => v / 2 ^ (w - 1 - i) % 2)

/-- Bits of the embedded record for marker `M`, extension `E` and payload `P`:
each byte of `M`, the 32-bit length of `E`, each byte of `E`, the 32-bit length
of `P`, each byte of `P`, every field most significant bit first. -/
def recordBits (M E P : List Nat) : List Nat :=
  M.flatMap (bitsMSB 8) ++ bitsMSB 32 E.length ++ E.flatMap (bitsMSB 8)
    ++ bitsMSB 32 P.length ++ P.flatMap (bitsMSB 8)

/-- Number of carrier bytes taken by a record with fields of these lengths. -/
def recordLength (m e p : Nat) : Nat := 8 * m + 32 + 8 * e + 32 + 8 * p

/-- Carrier bytes `cs` with the bytes `ds` embedded, eight carrier bytes per
byte, by `encode_byte_to_lsb`. -/
def embedBytes : List Nat → List Nat → List Nat
  | [], _ => []
  | d :: ds, cs => (encode_byte_to_lsb (char_to_int d) (cs.take 8)).2 ++ embedBytes ds (cs.drop 8)

/-- The 32 carrier bytes `cs` with the length `v` embedded by `encode_size_to_lsb`. -/
def embedSize (v : Nat) (cs : List Nat) : List Nat := (encode_size_to_lsb (long_to_int v) cs).2

/-- The `n` bytes found by `decode_byte_from_lsb` in the first `8 * n` bytes of `cs`. -/
def extractBytes : Nat → List Nat → List Nat
  | 0, _ => []
  | n + 1, cs => (decode_byte_from_lsb (cs.take 8)).2 :: extractBytes n (cs.drop 8)

/-- Pixel region `px` with the record of `M`, `E`, `P` embedded in its first
bytes and the remainder unchanged. -/
def embedRecord (M E P px : List Nat) : List Nat :=
  embedBytes M (px.take (8 * M.length))
    ++ embedSize E.length ((px.drop (8 * M.length)).take 32)
    ++ embedBytes E ((px.drop (8 * M.length + 32)).take (8 * E.length))
    ++ embedSize P.length ((px.drop (8 * M.length + 32 + 8 * E.length)).take 32)
    ++ embedBytes P ((px.drop (8 * M.length + 32 + 8 * E.length + 32)).take (8 * P.length))
    ++ px.drop (recordLength M.length E.length P.length)

/-- Stego image for carrier `img`: the 54-byte header followed by the pixel
region with the record embedded. -/
def stegoImage (M E P img : List Nat) : List Nat :=
  img.take 54 ++ embedRecord M E P (img.drop 54)

/-- Image capacity that `get_image_size_for_bmp` computes for a carrier with
content `img`, `none` when the carrier is too short to hold the two fields. -/
def bmp_capacity (img : List Nat) : Option Nat := (get_image_size_for_bmp ⟨img, 0⟩).1

/-- Right-hand side of the comparison in `check_capacity`, for a marker of `m`
bytes, an extension of `e` bytes and a payload size `size`. -/
def capacity_needed (m e size : Nat) : Nat :=
  ((m + 4 + e + 4 + size) * 8 + 64) % 18446744073709551616

/-- The 4-byte little-endian integer at offset `off` of `img`. -/
def le32 (img : List Nat) (off : Nat) : Nat :=
  img.getD off 0 + 256 * img.getD (off + 1) 0 + 65536 * img.getD (off + 2) 0
    + 16777216 * img.getD (off + 3) 0

/-- Width field of a bitmap header (offset 18). -/
def bmp_width (img : List Nat) : Nat := le32 img 18

/-- Height field of a bitmap header (offset 22). -/
def bmp_height (img : List Nat) : Nat := le32 img 22

/-! ## Sample inputs -/

/-- A carrier of 8 x 8 pixels: 54 header bytes and 192 pixel bytes. -/
def sampleCarrier : List Nat :=
  [66, 77] ++ List.replicate 16 0 ++ [8, 0, 0, 0, 8, 0, 0, 0] ++ List.replicate 28 0
    ++ (List.range 192).map (fun i => (i * 37 + 5) % 256)

/-- The marker "#*" with its terminator. -/
def sampleMagic : List Nat := [35, 42, 0]

/-- Encoding state for `sampleCarrier`, the extension ".txt" and the given payload. -/
def sampleEncodeInfo (payload : List Nat) : EncodeInfo :=
  { src_image_file := some sampleCarrier, fptr_src_image := ⟨[], 0⟩, image_capacity := 0,
    secret_file := some payload, fptr_secret := ⟨[], 0⟩,
    extn_secret_file := [46, 116, 120, 116], size_secret_file := 0,
    stego_image_created := false, fptr_stego_image := [] }

/-- State after `do_encoding` on the sample input. -/
def sampleEncoded (payload : List Nat) : EncodeInfo :=
  match do_encoding sampleMagic (sampleEncodeInfo payload) with
  | some (_, e1) => e1
  | none => sampleEncodeInfo payload

/-- A carrier of 16 x 12 pixels: 54 header bytes and 576 pixel bytes. -/
def sampleWideCarrier : List Nat :=
  [66, 77] ++ List.replicate 16 0 ++ [16, 0, 0, 0, 12, 0, 0, 0] ++ List.replicate 28 0
    ++ (List.range 576).map (fun i => (i * 37 + 5) % 256)

/-- Encoding state for `sampleWideCarrier`, a one-byte payload and an extension of
50 characters. -/
def sampleLongExtension : EncodeInfo :=
  { src_image_file := some sampleWideCarrier, fptr_src_image := ⟨[], 0⟩, image_capacity := 0,
    secret_file := some [65], fptr_secret := ⟨[], 0⟩,
    extn_secret_file := 46 :: List.replicate 49 97, size_secret_file := 0,
    stego_image_created := false, fptr_stego_image := [] }

/-- Encoding state for a carrier whose header announces 8 x 8 pixels while the
file holds 100 pixel bytes only. -/
def sampleTruncatedCarrier : EncodeInfo :=
  { src_image_file := some (sampleCarrier.take 154), fptr_src_image := ⟨[], 0⟩,
    image_capacity := 0, secret_file := some [200, 65], fptr_secret := ⟨[], 0⟩,
    extn_secret_file := [46, 116, 120, 116], size_secret_file := 0,
    stego_image_created := false, fptr_stego_image := [] }

/-- A writable directory without subdirectories: `fopen (name, "wb")` succeeds
exactly for the names without '/'. -/
def flatDirectory (name : List Nat) : Bool := !name.contains 47

/-- Decoding state for a stego image, with the base output name "out", run in a
writable directory without subdirectories. -/
def sampleDecodeInfo (stego : List Nat) : DecodeInfo :=
  { stego_image_file := some stego, fptr_stego_image := ⟨[], 0⟩,
    secret_fname := [111, 117, 116], secret_created := false, fptr_secret := [],
    extn_secret_file := [], size_secret_file_extn := 0, size_secret_file := 0,
    fopen_wb := flatDirectory }

/-- Least significant bit of the byte of `cs` at offset `off + i`, as a function
of `i`. -/
def lsbBits (cs : List Nat) (off : Nat) : Nat → Nat := fun i => cs.getD (off + i) 0 % 2

/-- The 32-bit value spelled, most significant bit first, by the least
significant bits of the 32 bytes of `cs` from offset `off`. -/
def lsbField (cs : List Nat) (off : Nat) : Nat := msbValue (lsbBits cs off) 32

/-- The `n` bytes spelled, most significant bit first, by the least significant
bits of the `8 * n` bytes of `cs` from offset `off`. -/
def lsbBytes (n : Nat) (cs : List Nat) (off : Nat) : List Nat :=
  (List.range n).map (fun k => msbValue (lsbBits cs (off + 8 * k)) 8)

/-- Extension length field of the pixel region `px`, after a marker of `m` bytes. -/
def extnLen (m : Nat) (px : List Nat) : Nat := lsbField px (8 * m)

/-- Extension bytes of the pixel region `px`, after a marker of `m` bytes. -/
def extnBytes (m : Nat) (px : List Nat) : List Nat := lsbBytes (extnLen m px) px (8 * m + 32)

/-- Payload length field of the pixel region `px`, after a marker of `m` bytes. -/
def payloadLen (m : Nat) (px : List Nat) : Nat := lsbField px (8 * m + 32 + 8 * extnLen m px)

/-- Payload bytes of the pixel region `px`, after a marker of `m` bytes. -/
def payloadBytes (m : Nat) (px : List Nat) : List Nat :=
  lsbBytes (payloadLen m px) px (8 * m + 32 + 8 * extnLen m px + 32)

/-- A 54-byte header announcing 65536 x 65536 pixels. -/
def sampleHugeHeader : List Nat :=
  [66, 77] ++ List.replicate 16 0 ++ [0, 0, 1, 0, 0, 0, 1, 0] ++ List.replicate 28 0

/-- A 54-byte header announcing 100 x 100 pixels. -/
def sampleHeader100 : List Nat :=
  [66, 77] ++ List.replicate 16 0 ++ [100, 0, 0, 0, 100, 0, 0, 0] ++ List.replicate 28 0

/-- Decoding state in front of an extension field of four bytes whose least
significant bits spell the bytes 46, 0, 120, 116; the base output name is "out". -/
def sampleNulExtension : DecodeInfo :=
  { stego_image_file := none,
    fptr_stego_image :=
      ⟨[0, 0, 1, 0, 1, 1, 1, 0, 0, 0, 0, 0, 0, 0, 0, 0,
        0, 1, 1, 1, 1, 0, 0, 0, 0, 1, 1, 1, 0, 1, 0, 0], 0⟩,
    secret_fname := [111, 117, 116], secret_created := false, fptr_secret := [],
    extn_secret_file := [], size_secret_file_extn := 4, size_secret_file := 0,
    fopen_wb := flatDirectory }

/-- A stego image whose least significant bits spell the marker "#*", the
extension length 4, the extension bytes 46, 0, 120, 116, the payload length 1
and the payload byte 65. -/
def sampleNulStego : List Nat :=
  List.replicate 54 0 ++ recordBits [35, 42] [46, 0, 120, 116] [65]

/-- The stego image of the sample run, cut 12 bytes before the end of its
record. -/
def sampleTruncatedStego : List Nat := (sampleEncoded [200, 65]).fptr_stego_image.take 170

/-- A stego image whose least significant bits spell the marker "#*", the
extension length 4, the extension ".txt" and the payload length 0. -/
def sampleZeroStego : List Nat :=
  List.replicate 54 0 ++ recordBits [35, 42] [46, 116, 120, 116] []

/-- Two streams at the same position whose unread bytes agree in their least
significant bits. -/
def lsbEq (f g : FILE) : Prop :=
  f.pos = g.pos ∧ f.rest.map (fun b => b % 2) = g.rest.map (fun b => b % 2)

instance (f g : FILE) : Decidable (lsbEq f g) := by
  unfold lsbEq
  infer_instance

/-- Two decoding states that agree in every field but the stego image (the
outcome of opening the output file included), whose
streams stand at the same position in front of bytes with the same least
significant bits. -/
def sameDecoding (d d1 : DecodeInfo) : Prop :=
  lsbEq d.fptr_stego_image d1.fptr_stego_image
    ∧ d.secret_fname = d1.secret_fname ∧ d.secret_created = d1.secret_created
    ∧ d.fptr_secret = d1.fptr_secret ∧ d.extn_secret_file = d1.extn_secret_file
    ∧ d.size_secret_file_extn = d1.size_secret_file_extn
    ∧ d.size_secret_file = d1.size_secret_file
    ∧ d.fopen_wb = d1.fopen_wb

/-- The sample stego image with another header and with the upper seven bits of
every pixel byte set: only the least significant bits of the pixel region are
those of the sample stego image. -/
def sampleLsbTwin : List Nat :=
  List.replicate 54 255
    ++ ((sampleEncoded [200, 65]).fptr_stego_image.drop 54).map (fun b => b % 2 + 254)

/-- State after `do_encoding` on `sampleLongExtension`. -/
def sampleLongEncoded : EncodeInfo :=
  match do_encoding sampleMagic sampleLongExtension with
  | some (_, e1) => e1
  | none => sampleLongExtension

/-- State after `open_files` and `check_capacity` on the sample input with the
payload of two bytes. -/
def sampleChecked : EncodeInfo :=
  match check_capacity sampleMagic (open_files (sampleEncodeInfo [200, 65])).2 with
  | some (_, e2) => e2
  | none => sampleEncodeInfo [200, 65]

/-- Decoding state in front of the extension length field of `sampleNulStego`:
the state after `skip_bmp_header` and `decode_magic_string`. -/
def sampleAfterMarker : DecodeInfo :=
  (decode_magic_string sampleMagic (skip_bmp_header (sampleDecodeInfo sampleNulStego)).2).2

/-- Encoding state for `sampleCarrier`, a payload of two bytes and the extension
".d/x", as the writer's command line takes it from a secret file name such as
"a.d/x". -/
def sampleSlashExtension : EncodeInfo :=
  { src_image_file := some sampleCarrier, fptr_src_image := ⟨[], 0⟩, image_capacity := 0,
    secret_file := some [200, 65], fptr_secret := ⟨[], 0⟩,
    extn_secret_file := [46, 100, 47, 120], size_secret_file := 0,
    stego_image_created := false, fptr_stego_image := [] }

/-- State after `do_encoding` on `sampleSlashExtension`. -/
def sampleSlashEncoded : EncodeInfo :=
  match do_encoding sampleMagic sampleSlashExtension with
  | some (_, e1) => e1
  | none => sampleSlashExtension

/-- A payload of `2^32 + 2` bytes. -/
def sampleOversizedPayload : List Nat := List.replicate 4294967298 65

/-! ## Lemmas on the bit codec -/

set_option maxRecDepth 1000000 in
theorem setLsb_spec :
    ∀ b < 256, ∀ k < 2, setLsb b k % 2 = k ∧ setLsb b k / 2 = b / 2 ∧ setLsb b k < 256 := by
  decide

set_option maxRecDepth 1000000 in
theorem setLsb_one : ∀ b < 256, setLsb b 1 = b ||| 1 := by
  decide

theorem setLsb_mod_two (b k : Nat) (hk : k < 2) : setLsb b k % 2 = k := by
  unfold setLsb
  have h1 : ∀ x : Nat, x % 256 % 2 = x % 2 := fun x => by omega
  rw [h1]
  have hor := @Nat.or_mod_two_eq_one (b &&& 4294967294) k
  have hand := @Nat.and_mod_two_eq_one b 4294967294
  have hm : 4294967294 % 2 = 0 := by decide
  rcases Nat.mod_two_eq_zero_or_one ((b &&& 4294967294) ||| k) with h | h
  · have hk0 : ¬ k % 2 = 1 := fun hk1 => by
      have := hor.mpr (Or.inr hk1)
      omega
    omega
  · rcases hor.mp h with h2 | h2
    · have := (hand.mp h2).2
      omega
    · omega

theorem setLsb_lt (b k : Nat) : setLsb b k < 256 := Nat.mod_lt _ (by decide)

theorem getElem?_range_of_not_lt {m j : Nat} (h : ¬ j < m) : (List.range m)[j]? = none :=
  List.getElem?_eq_none (by simp only [List.length_range]; omega)

/-- A loop that rewrites `buf[i]` from its own value, for `i` from 0 to `n - 1`. -/
theorem foldl_set_range (g : Nat → Nat → Nat) (n : Nat) (buf : List Nat) :
    (List.range n).foldl (fun b i => b.set i (g i (b.getD i 0))) buf
      = (List.range buf.length).map
          (fun j => if j < n then g j (buf.getD j 0) else buf.getD j 0) := by
  induction n with
  | zero =>
    simp only [List.range_zero, List.foldl_nil, Nat.not_lt_zero, if_false]
    apply List.ext_getElem?
    intro j
    simp only [List.getElem?_map, List.getD_eq_getElem?_getD]
    by_cases h : j < buf.length
    · simp [List.getElem?_range, h]
    · simp [getElem?_range_of_not_lt h, List.getElem?_eq_none (Nat.le_of_not_lt h)]
  | succ n ih =>
    rw [List.range_succ, List.foldl_append, ih]
    simp only [List.foldl_cons, List.foldl_nil]
    apply List.ext_getElem?
    intro j
    simp only [List.getElem?_set, List.getElem?_map, List.length_map, List.length_range,
      List.getD_eq_getElem?_getD]
    by_cases hj : j < buf.length
    · by_cases hn : n = j
      · subst hn
        simp [List.getElem?_range, hj]
      · have : (j < n + 1) = (j < n) := by
          apply propext; constructor <;> intro h <;> omega
        simp [List.getElem?_range, hj, hn, this]
    · by_cases hn : n = j
      · subst hn
        simp [getElem?_range_of_not_lt hj, hj]
      · simp [getElem?_range_of_not_lt hj, hn]

theorem encode_byte_to_lsb_eq (data : Nat) (c : List Nat) :
    encode_byte_to_lsb data c = (Status.e_success,
      (List.range c.length).map (fun j =>
        if j < 8 then setLsb (c.getD j 0) ((data >>> (7 - j)) &&& 1) else c.getD j 0)) := by
  unfold encode_byte_to_lsb
  rw [foldl_set_range (fun i b => ((b &&& 4294967294) ||| ((data >>> (7 - i)) &&& 1)) % 256) 8 c]
  rfl

theorem encode_size_to_lsb_eq (data : Nat) (c : List Nat) :
    encode_size_to_lsb data c = (Status.e_success,
      (List.range c.length).map (fun j =>
        if j < 32 then setLsb (c.getD j 0) ((data >>> (31 - j)) &&& 1) else c.getD j 0)) := by
  unfold encode_size_to_lsb
  rw [foldl_set_range (fun i b => ((b &&& 4294967294) ||| ((data >>> (31 - i)) &&& 1)) % 256) 32 c]
  rfl

theorem getD_map_range (f : Nat → Nat) (m j : Nat) (h : j < m) :
    ((List.range m).map f).getD j 0 = f j := by
  simp [List.getD_eq_getElem?_getD, List.getElem?_range, h]

theorem shiftRight_and_one (data k : Nat) : (data >>> k) &&& 1 = data / 2 ^ k % 2 := by
  rw [Nat.and_one_is_mod, Nat.shiftRight_eq_div_pow]

theorem msbValue_lt (g : Nat → Nat) (hg : ∀ i, g i < 2) (k : Nat) : msbValue g k < 2 ^ k := by
  induction k with
  | zero => simp [msbValue]
  | succ k ih =>
    have := hg k
    simp only [msbValue, pow_succ]
    omega

theorem msbValue_congr (g h : Nat → Nat) (k : Nat) (hgh : ∀ i < k, g i = h i) :
    msbValue g k = msbValue h k := by
  induction k with
  | zero => rfl
  | succ k ih =>
    simp only [msbValue]
    rw [ih (fun i hi => hgh i (Nat.lt_succ_of_lt hi)), hgh k (Nat.lt_succ_self k)]

/-- Reading back the top `k` of the `n` low bits of `v`. -/
theorem msbValue_bits (v n k : Nat) (hk : k ≤ n) :
    msbValue (fun i => v / 2 ^ (n - 1 - i) % 2) k = v / 2 ^ (n - k) % 2 ^ k := by
  induction k with
  | zero => simp [msbValue, Nat.mod_one]
  | succ k ih =>
    simp only [msbValue]
    rw [ih (Nat.le_of_succ_le hk)]
    have e1 : n - k = (n - (k + 1)) + 1 := by omega
    have e2 : n - 1 - k = n - (k + 1) := by omega
    rw [e1, e2, pow_succ, ← Nat.div_div_eq_div_mul]
    generalize v / 2 ^ (n - (k + 1)) = w
    rw [pow_succ, Nat.mul_comm (2 ^ k) 2, Nat.mod_mul]
    omega

/-- The top bit of an MSB-first value is its first bit. -/
theorem msbValue_top (g : Nat → Nat) (hg : ∀ i, g i < 2) (k : Nat) :
    g 0 * 2 ^ k ≤ msbValue g (k + 1) ∧ msbValue g (k + 1) < (g 0 + 1) * 2 ^ k := by
  induction k with
  | zero => simp [msbValue]
  | succ k ih =>
    have hk := hg (k + 1)
    have e : msbValue g (k + 1 + 1) = 2 * msbValue g (k + 1) + g (k + 1) := rfl
    rw [e, pow_succ]
    constructor
    · nlinarith [ih.1]
    · nlinarith [ih.2]

theorem fold_or_msb (g : Nat → Nat) (hg : ∀ i, g i < 2) (n k : Nat) (hk : k ≤ n) :
    (List.range k).foldl (fun d i => (d ||| (g i <<< (n - 1 - i))) % 2 ^ n) 0
      = 2 ^ (n - k) * msbValue g k := by
  induction k with
  | zero => simp [msbValue]
  | succ k ih =>
    rw [List.range_succ, List.foldl_append, ih (Nat.le_of_succ_le hk)]
    simp only [List.foldl_cons, List.foldl_nil, msbValue, Nat.shiftLeft_eq]
    have hb : g k * 2 ^ (n - 1 - k) < 2 ^ (n - k) := by
      have e : n - k = (n - 1 - k) + 1 := by omega
      have := hg k
      rw [e, pow_succ]
      have hp : 0 < 2 ^ (n - 1 - k) := Nat.two_pow_pos _
      nlinarith
    rw [← Nat.mul_add_lt_is_or hb]
    have e : n - k = (n - (k + 1)) + 1 := by omega
    have e2 : n - 1 - k = n - (k + 1) := by omega
    have hlt := msbValue_lt g hg (k + 1)
    simp only [msbValue] at hlt
    have hn : 2 ^ n = 2 ^ (n - (k + 1)) * 2 ^ (k + 1) := by
      rw [← pow_add]; congr 1; omega
    have hval : 2 ^ (n - k) * msbValue g k + g k * 2 ^ (n - 1 - k)
        = 2 ^ (n - (k + 1)) * (2 * msbValue g k + g k) := by
      rw [e, e2, pow_succ]; ring
    rw [hval]
    apply Nat.mod_eq_of_lt
    rw [hn]
    exact Nat.mul_lt_mul_of_pos_left hlt (Nat.two_pow_pos _)

theorem decode_byte_from_lsb_eq (c : List Nat) :
    decode_byte_from_lsb c = (Status.e_success, msbValue (fun i => c.getD i 0 % 2) 8) := by
  unfold decode_byte_from_lsb
  have h := fold_or_msb (fun i => c.getD i 0 % 2) (fun i => Nat.mod_lt _ (by decide)) 8 8
    (le_refl _)
  simp only [Nat.sub_self, pow_zero, one_mul] at h
  rw [← h]
  simp only [Nat.and_one_is_mod]
  rfl

/-- The sign-extending loop of `decode_size_from_lsb` after `k + 1` iterations. -/
theorem fold_or_sext (g : Nat → Nat) (hg : ∀ i, g i < 2) (k : Nat) (hk : k + 1 ≤ 32) :
    (List.range (k + 1)).foldl
        (fun d i => d ||| int_to_long ((g i <<< (31 - i)) % 4294967296)) 0
      = 2 ^ (31 - k) * (msbValue g (k + 1) + g 0 * 4294967295 * 2 ^ (k + 1)) := by
  induction k with
  | zero =>
    have h0 := hg 0
    have hc : g 0 = 0 ∨ g 0 = 1 := by omega
    have hr : List.range (0 + 1) = [0] := by decide
    rw [hr]
    simp only [List.foldl_cons, List.foldl_nil]
    have hm : msbValue g (0 + 1) = g 0 := by simp [msbValue]
    rw [hm]
    rcases hc with h | h
    · rw [h]; decide
    · rw [h]; decide
  | succ k ih =>
    rw [List.range_succ, List.foldl_append, ih (Nat.le_of_succ_le hk)]
    simp only [List.foldl_cons, List.foldl_nil, Nat.shiftLeft_eq]
    have hgk := hg (k + 1)
    have hp30 : 2 ^ (31 - (k + 1)) ≤ 2 ^ 30 :=
      Nat.pow_le_pow_right (by decide) (by omega)
    have hsmall : g (k + 1) * 2 ^ (31 - (k + 1)) < 2147483648 := by
      have : (2 : Nat) ^ 30 = 1073741824 := by norm_num
      nlinarith
    have hconv : int_to_long (g (k + 1) * 2 ^ (31 - (k + 1)) % 4294967296)
        = g (k + 1) * 2 ^ (31 - (k + 1)) := by
      unfold int_to_long
      have h1 : g (k + 1) * 2 ^ (31 - (k + 1)) % 4294967296 = g (k + 1) * 2 ^ (31 - (k + 1)) :=
        Nat.mod_eq_of_lt (by omega)
      rw [h1, h1, if_pos hsmall]
    rw [hconv]
    have e : 31 - k = (31 - (k + 1)) + 1 := by omega
    have hb : g (k + 1) * 2 ^ (31 - (k + 1)) < 2 ^ (31 - k) := by
      rw [e, pow_succ]
      have hp : 0 < 2 ^ (31 - (k + 1)) := Nat.two_pow_pos _
      nlinarith
    rw [← Nat.mul_add_lt_is_or hb]
    have em : msbValue g (k + 1 + 1) = 2 * msbValue g (k + 1) + g (k + 1) := rfl
    rw [em, e, pow_succ, pow_succ 2 (k + 1)]
    ring

theorem decode_size_from_lsb_eq (c : List Nat) :
    decode_size_from_lsb c
      = (Status.e_success, int_to_long (msbValue (fun i => c.getD i 0 % 2) 32)) := by
  unfold decode_size_from_lsb
  have hg : ∀ i, (fun i => c.getD i 0 % 2) i < 2 := fun i => Nat.mod_lt _ (by decide)
  have h := fold_or_sext (fun i => c.getD i 0 % 2) hg 31 (le_refl _)
  simp only [Nat.and_one_is_mod]
  simp only [Nat.sub_self, pow_zero, one_mul] at h
  rw [h]
  have ht := msbValue_top (fun i => c.getD i 0 % 2) hg 31
  have hl := msbValue_lt (fun i => c.getD i 0 % 2) hg 32
  generalize msbValue (fun i => c.getD i 0 % 2) 32 = m at ht hl ⊢
  have h0 := hg 0
  simp only at ht h0
  generalize c.getD 0 0 % 2 = b at ht h0 ⊢
  have hc : b = 0 ∨ b = 1 := by omega
  unfold int_to_long
  norm_num at ht hl ⊢
  rcases hc with h | h
  · subst h
    have hm : m % 4294967296 = m := Nat.mod_eq_of_lt hl
    rw [hm]
    simp only [zero_mul, add_zero, zero_add, one_mul] at ht ⊢
    rw [if_pos ht.2]
  · subst h
    have hm : m % 4294967296 = m := Nat.mod_eq_of_lt hl
    rw [hm]
    simp only [one_mul] at ht ⊢
    rw [if_neg (by omega)]

theorem getD_encode_byte (data : Nat) (c : List Nat) (i : Nat) (hi : i < 8) (hc : c.length = 8) :
    (encode_byte_to_lsb data c).2.getD i 0 = setLsb (c.getD i 0) (data / 2 ^ (7 - i) % 2) := by
  rw [encode_byte_to_lsb_eq]
  simp only
  rw [getD_map_range _ _ _ (by omega), if_pos hi, shiftRight_and_one]

theorem getD_encode_size (data : Nat) (c : List Nat) (i : Nat) (hi : i < 32)
    (hc : c.length = 32) :
    (encode_size_to_lsb data c).2.getD i 0 = setLsb (c.getD i 0) (data / 2 ^ (31 - i) % 2) := by
  rw [encode_size_to_lsb_eq]
  simp only
  rw [getD_map_range _ _ _ (by omega), if_pos hi, shiftRight_and_one]

theorem length_encode_byte (data : Nat) (c : List Nat) :
    (encode_byte_to_lsb data c).2.length = c.length := by
  rw [encode_byte_to_lsb_eq]
  simp

theorem length_encode_size (data : Nat) (c : List Nat) :
    (encode_size_to_lsb data c).2.length = c.length := by
  rw [encode_size_to_lsb_eq]
  simp

/-- Decoding an embedded byte gives the low 8 bits of the embedded `int`. -/
theorem decode_encode_byte (data : Nat) (c : List Nat) (hc : c.length = 8) :
    decode_byte_from_lsb (encode_byte_to_lsb data c).2 = (Status.e_success, data % 256) := by
  rw [decode_byte_from_lsb_eq]
  have hb := msbValue_bits data 8 8 (le_refl _)
  have hcg : msbValue (fun i => (encode_byte_to_lsb data c).2.getD i 0 % 2) 8
      = msbValue (fun i => data / 2 ^ (8 - 1 - i) % 2) 8 := by
    apply msbValue_congr
    intro i hi
    rw [getD_encode_byte data c i hi hc, setLsb_mod_two _ _ (Nat.mod_lt _ (by decide))]
  rw [hcg, hb]
  norm_num

/-- Decoding an embedded length gives the sign extension of the low 32 bits of
the embedded `int`. -/
theorem decode_encode_size (data : Nat) (c : List Nat) (hc : c.length = 32) :
    decode_size_from_lsb (encode_size_to_lsb data c).2
      = (Status.e_success, int_to_long (data % 4294967296)) := by
  rw [decode_size_from_lsb_eq]
  have hb := msbValue_bits data 32 32 (le_refl _)
  have hcg : msbValue (fun i => (encode_size_to_lsb data c).2.getD i 0 % 2) 32
      = msbValue (fun i => data / 2 ^ (32 - 1 - i) % 2) 32 := by
    apply msbValue_congr
    intro i hi
    rw [getD_encode_size data c i hi hc, setLsb_mod_two _ _ (Nat.mod_lt _ (by decide))]
  rw [hcg, hb]
  norm_num

/-! ## Claims on the bit codec -/

/-- C3: for every byte value `v` and every 8-byte carrier `c`, decoding the buffer
produced by `encode_byte_to_lsb (v, c)` with `decode_byte_from_lsb` succeeds and
yields `v`. -/
theorem byte_codec_roundtrip (v : Nat) (c : List Nat) (hv : v < 256) (hc : c.length = 8) :
    decode_byte_from_lsb (encode_byte_to_lsb v c).2 = (Status.e_success, v) := by
  rw [decode_encode_byte v c hc, Nat.mod_eq_of_lt hv]

theorem byte_codec_roundtrip_witness :
    decode_byte_from_lsb (encode_byte_to_lsb 200 [255, 0, 17, 18, 128, 127, 3, 4]).2
      = (Status.e_success, 200) :=
  byte_codec_roundtrip 200 [255, 0, 17, 18, 128, 127, 3, 4] (by decide) (by decide)

/-- C4: for every unsigned 32-bit value `v` and every 32-byte carrier `c`,
`decode_size_from_lsb` applied to the buffer produced by `encode_size_to_lsb (v, c)`
succeeds and yields `v` as an unsigned 32-bit integer: the 32 low bits of the
`long` it stores are `v`.  The `long` itself is the sign extension of `v`: its
value is `v` when `v < 2^31` and `v - 2^32` when `v >= 2^31`. -/
theorem size_codec_roundtrip (v : Nat) (c : List Nat) (hv : v < 4294967296)
    (hc : c.length = 32) :
    (decode_size_from_lsb (encode_size_to_lsb v c).2).1 = Status.e_success
      ∧ long_to_int (decode_size_from_lsb (encode_size_to_lsb v c).2).2 = v
      ∧ decode_size_from_lsb (encode_size_to_lsb v c).2 = (Status.e_success, int_to_long v)
      ∧ int_to_long v % 4294967296 = v
      ∧ (v < 2147483648 → long_val (int_to_long v) = (v : Int))
      ∧ (2147483648 ≤ v → long_val (int_to_long v) = (v : Int) - 4294967296) := by
  have hdec : decode_size_from_lsb (encode_size_to_lsb v c).2
      = (Status.e_success, int_to_long v) := by
    rw [decode_encode_size v c hc, Nat.mod_eq_of_lt hv]
  have hlow : int_to_long v % 4294967296 = v := by
    unfold int_to_long
    rw [Nat.mod_eq_of_lt hv]
    split <;> omega
  refine ⟨by rw [hdec], by rw [hdec]; exact hlow, hdec, hlow, ?_, ?_⟩
  · intro h
    have h1 : int_to_long v = v := by
      unfold int_to_long
      rw [Nat.mod_eq_of_lt hv, if_pos h]
    have h2 : v % 18446744073709551616 = v := Nat.mod_eq_of_lt (by omega)
    rw [h1]
    unfold long_val
    rw [h2, if_pos (by omega)]
  · intro h
    have h1 : int_to_long v = v + 18446744069414584320 := by
      unfold int_to_long
      rw [Nat.mod_eq_of_lt hv, if_neg (by omega)]
    have h2 : (v + 18446744069414584320) % 18446744073709551616 = v + 18446744069414584320 :=
      Nat.mod_eq_of_lt (by omega)
    rw [h1]
    unfold long_val
    rw [h2, if_neg (by omega)]
    push_cast
    ring

theorem size_codec_roundtrip_witness :
    (decode_size_from_lsb (encode_size_to_lsb 3000000000 (List.replicate 32 77)).2).1
        = Status.e_success
      ∧ long_to_int (decode_size_from_lsb
          (encode_size_to_lsb 3000000000 (List.replicate 32 77)).2).2 = 3000000000
      ∧ decode_size_from_lsb (encode_size_to_lsb 3000000000 (List.replicate 32 77)).2
        = (Status.e_success, int_to_long 3000000000)
      ∧ int_to_long 3000000000 % 4294967296 = 3000000000
      ∧ (3000000000 < 2147483648 → long_val (int_to_long 3000000000) = ((3000000000 : Nat) : Int))
      ∧ (2147483648 ≤ 3000000000 →
          long_val (int_to_long 3000000000) = ((3000000000 : Nat) : Int) - 4294967296) :=
  size_codec_roundtrip 3000000000 (List.replicate 32 77) (by decide) (by decide)

/-- For `v = 2^31` and a carrier of 32 zero bytes the value stored by
`decode_size_from_lsb` is the `long` `-2^31`, with the 64-bit pattern
`0xFFFFFFFF80000000`, whose 32 low bits are `2^31`. -/
theorem top_bit_size_decodes_negative :
    (decode_size_from_lsb (encode_size_to_lsb 2147483648 (List.replicate 32 0)).2).2
        ≠ 2147483648
      ∧ long_to_int (decode_size_from_lsb
          (encode_size_to_lsb 2147483648 (List.replicate 32 0)).2).2 = 2147483648
      ∧ (decode_size_from_lsb (encode_size_to_lsb 2147483648 (List.replicate 32 0)).2).2
        = 18446744071562067968
      ∧ long_val (decode_size_from_lsb (encode_size_to_lsb 2147483648 (List.replicate 32 0)).2).2
        = -2147483648 := by
  decide

/-- C5: for every byte value `v`, every 8-byte carrier `c` and every `i` in 0..7,
byte `i` of the output of `encode_byte_to_lsb (v, c)` has its least significant
bit equal to bit `7 - i` of `v` and its other seven bits equal to those of `c[i]`;
for `v = 0xFF` it equals `c[i] | 1`.  The call succeeds and keeps the length. -/
theorem encode_byte_bit_isolation (v : Nat) (c : List Nat) (i : Nat) (_hv : v < 256)
    (hc : c.length = 8) (hb : isBytes c = true) (hi : i < 8) :
    (encode_byte_to_lsb v c).1 = Status.e_success
      ∧ (encode_byte_to_lsb v c).2.length = 8
      ∧ (encode_byte_to_lsb v c).2.getD i 0 % 2 = v / 2 ^ (7 - i) % 2
      ∧ (encode_byte_to_lsb v c).2.getD i 0 / 2 = c.getD i 0 / 2
      ∧ (v = 255 → (encode_byte_to_lsb v c).2.getD i 0 = c.getD i 0 ||| 1) := by
  have hci : c.getD i 0 < 256 := by
    have hmem : c.getD i 0 ∈ c := by
      rw [List.getD_eq_getElem _ _ (by omega)]
      exact List.getElem_mem _
    simp only [isBytes, List.all_eq_true, decide_eq_true_eq] at hb
    exact hb _ hmem
  have hbit : v / 2 ^ (7 - i) % 2 < 2 := Nat.mod_lt _ (by decide)
  have hs := setLsb_spec (c.getD i 0) hci (v / 2 ^ (7 - i) % 2) hbit
  refine ⟨rfl, ?_, ?_, ?_, ?_⟩
  · rw [length_encode_byte, hc]
  · rw [getD_encode_byte v c i hi hc]; exact hs.1
  · rw [getD_encode_byte v c i hi hc]; exact hs.2.1
  · intro h255
    rw [getD_encode_byte v c i hi hc]
    have h1 : v / 2 ^ (7 - i) % 2 = 1 := by
      subst h255
      have : i = 0 ∨ i = 1 ∨ i = 2 ∨ i = 3 ∨ i = 4 ∨ i = 5 ∨ i = 6 ∨ i = 7 := by omega
      rcases this with h | h | h | h | h | h | h | h <;> subst h <;> decide
    rw [h1]
    exact setLsb_one _ hci

theorem encode_byte_bit_isolation_witness :
    (encode_byte_to_lsb 255 [254, 0, 17, 18, 128, 127, 3, 4]).1 = Status.e_success
      ∧ (encode_byte_to_lsb 255 [254, 0, 17, 18, 128, 127, 3, 4]).2.length = 8
      ∧ (encode_byte_to_lsb 255 [254, 0, 17, 18, 128, 127, 3, 4]).2.getD 3 0 % 2
          = 255 / 2 ^ (7 - 3) % 2
      ∧ (encode_byte_to_lsb 255 [254, 0, 17, 18, 128, 127, 3, 4]).2.getD 3 0 / 2
          = [254, 0, 17, 18, 128, 127, 3, 4].getD 3 0 / 2
      ∧ (255 = 255 → (encode_byte_to_lsb 255 [254, 0, 17, 18, 128, 127, 3, 4]).2.getD 3 0
          = [254, 0, 17, 18, 128, 127, 3, 4].getD 3 0 ||| 1) :=
  encode_byte_bit_isolation 255 [254, 0, 17, 18, 128, 127, 3, 4] 3 (by decide) (by decide)
    (by decide) (by decide)

/-- C6: for every 32-bit value `v`, every 32-byte carrier `c` and every `i` in
0..31, byte `i` of the output of `encode_size_to_lsb (v, c)` has its least
significant bit equal to bit `31 - i` of `v` and its other seven bits equal to
those of `c[i]`.  The call succeeds and keeps the length. -/
theorem encode_size_bit_placement (v : Nat) (c : List Nat) (i : Nat) (_hv : v < 4294967296)
    (hc : c.length = 32) (hb : isBytes c = true) (hi : i < 32) :
    (encode_size_to_lsb v c).1 = Status.e_success
      ∧ (encode_size_to_lsb v c).2.length = 32
      ∧ (encode_size_to_lsb v c).2.getD i 0 % 2 = v / 2 ^ (31 - i) % 2
      ∧ (encode_size_to_lsb v c).2.getD i 0 / 2 = c.getD i 0 / 2 := by
  have hci : c.getD i 0 < 256 := by
    have hmem : c.getD i 0 ∈ c := by
      rw [List.getD_eq_getElem _ _ (by omega)]
      exact List.getElem_mem _
    simp only [isBytes, List.all_eq_true, decide_eq_true_eq] at hb
    exact hb _ hmem
  have hbit : v / 2 ^ (31 - i) % 2 < 2 := Nat.mod_lt _ (by decide)
  have hs := setLsb_spec (c.getD i 0) hci (v / 2 ^ (31 - i) % 2) hbit
  refine ⟨rfl, ?_, ?_, ?_⟩
  · rw [length_encode_size, hc]
  · rw [getD_encode_size v c i hi hc]; exact hs.1
  · rw [getD_encode_size v c i hi hc]; exact hs.2.1

theorem encode_size_bit_placement_witness :
    (encode_size_to_lsb 2147483653 (List.replicate 32 254)).1 = Status.e_success
      ∧ (encode_size_to_lsb 2147483653 (List.replicate 32 254)).2.length = 32
      ∧ (encode_size_to_lsb 2147483653 (List.replicate 32 254)).2.getD 29 0 % 2
          = 2147483653 / 2 ^ (31 - 29) % 2
      ∧ (encode_size_to_lsb 2147483653 (List.replicate 32 254)).2.getD 29 0 / 2
          = (List.replicate 32 254).getD 29 0 / 2 :=
  encode_size_bit_placement 2147483653 (List.replicate 32 254) 29 (by decide) (by decide)
    (by decide) (by decide)

/-- C7: for every 8-byte buffer `c`, `decode_byte_from_lsb` returns success and the
byte whose value is the sum over `i` in 0..7 of `(c[i] mod 2) * 2^(7 - i)`. -/
theorem decode_byte_reference (c : List Nat) (_hc : c.length = 8) :
    decode_byte_from_lsb c = (Status.e_success,
      ∑ i in Finset.range 8, (c.getD i 0 % 2) * 2 ^ (7 - i))
      ∧ (decode_byte_from_lsb c).2 < 256 := by
  rw [decode_byte_from_lsb_eq]
  have hlt := msbValue_lt (fun i => c.getD i 0 % 2) (fun i => Nat.mod_lt _ (by decide)) 8
  refine ⟨?_, hlt⟩
  simp only [Finset.sum_range_succ, Finset.sum_range_zero, msbValue]
  norm_num
  ring

theorem decode_byte_reference_witness :
    decode_byte_from_lsb [255, 0, 17, 18, 128, 127, 3, 4] = (Status.e_success,
      ∑ i in Finset.range 8, ([255, 0, 17, 18, 128, 127, 3, 4].getD i 0 % 2) * 2 ^ (7 - i))
      ∧ (decode_byte_from_lsb [255, 0, 17, 18, 128, 127, 3, 4]).2 < 256 :=
  decode_byte_reference [255, 0, 17, 18, 128, 127, 3, 4] (by decide)

/-! ## Lemmas on streams -/

theorem fread_eq (n : Nat) (f : FILE) :
    fread n f = (f.rest.take n, ⟨f.data, f.pos + (f.rest.take n).length⟩) := rfl

theorem fread_of_le (n : Nat) (f : FILE) (h : n ≤ f.rest.length) :
    fread n f = (f.rest.take n, ⟨f.data, f.pos + n⟩) := by
  rw [fread_eq, List.length_take, Nat.min_eq_left h]

theorem rest_advance (f : FILE) (n : Nat) : (⟨f.data, f.pos + n⟩ : FILE).rest = f.rest.drop n := by
  simp only [FILE.rest, List.drop_drop]

theorem fread_of_append (f : FILE) (X more : List Nat) (h : f.rest = X ++ more) :
    fread X.length f = (X, ⟨f.data, f.pos + X.length⟩) := by
  rw [fread_of_le _ _ (by rw [h, List.length_append]; omega), h, List.take_left' rfl]

theorem rest_of_append (f : FILE) (X more : List Nat) (h : f.rest = X ++ more) :
    (⟨f.data, f.pos + X.length⟩ : FILE).rest = more := by
  rw [rest_advance, h, List.drop_left' rfl]

theorem fread_length_of_lt (n : Nat) (f : FILE) (h : f.rest.length < n) :
    (fread n f).1.length ≠ n := by
  rw [fread_eq]
  simp only [List.length_take]
  omega

theorem encode_byte_to_lsb_fst (data : Nat) (c : List Nat) :
    encode_byte_to_lsb data c = (Status.e_success, (encode_byte_to_lsb data c).2) := by
  unfold encode_byte_to_lsb
  simp only

theorem encode_size_to_lsb_fst (data : Nat) (c : List Nat) :
    encode_size_to_lsb data c = (Status.e_success, (encode_size_to_lsb data c).2) := by
  unfold encode_size_to_lsb
  simp only

theorem decode_byte_from_lsb_fst (c : List Nat) :
    decode_byte_from_lsb c = (Status.e_success, (decode_byte_from_lsb c).2) := by
  unfold decode_byte_from_lsb
  simp only

theorem decode_size_from_lsb_fst (c : List Nat) :
    decode_size_from_lsb c = (Status.e_success, (decode_size_from_lsb c).2) := by
  unfold decode_size_from_lsb
  simp only

/-! ## Lemmas on the container writer -/

theorem encode_data_to_image_loop_ok (ds : List Nat) :
    ∀ (src : FILE) (dest C more : List Nat), src.rest = C ++ more → C.length = 8 * ds.length →
      encode_data_to_image_loop ds src dest
        = (Status.e_success, ⟨src.data, src.pos + 8 * ds.length⟩, dest ++ embedBytes ds C) := by
  induction ds with
  | nil =>
    intro src dest C more _ _
    simp [encode_data_to_image_loop, embedBytes]
  | cons d ds ih =>
    intro src dest C more hrest hlen
    simp only [List.length_cons] at hlen
    have hC : C = C.take 8 ++ C.drop 8 := (List.take_append_drop 8 C).symm
    have h8 : (C.take 8).length = 8 := by rw [List.length_take]; omega
    have hrest2 : src.rest = C.take 8 ++ (C.drop 8 ++ more) := by
      rw [← List.append_assoc, ← hC, hrest]
    have hfr := fread_of_append src (C.take 8) (C.drop 8 ++ more) hrest2
    rw [h8] at hfr
    have hr1 := rest_of_append src (C.take 8) (C.drop 8 ++ more) hrest2
    rw [h8] at hr1
    unfold encode_data_to_image_loop
    rw [hfr]
    simp only [h8, ne_eq, not_true_eq_false, if_false]
    rw [encode_byte_to_lsb_fst]
    simp only
    rw [ih ⟨src.data, src.pos + 8⟩ _ (C.drop 8) more hr1 (by rw [List.length_drop]; omega)]
    simp only [embedBytes, List.append_assoc, Prod.mk.injEq, true_and, and_true, List.length_cons]
    congr 1
    omega

theorem encode_data_to_image_loop_fail (ds : List Nat) :
    ∀ (src : FILE) (dest : List Nat), src.rest.length < 8 * ds.length →
      (encode_data_to_image_loop ds src dest).1 = Status.e_failure := by
  induction ds with
  | nil => intro src dest h; simp at h
  | cons d ds ih =>
    intro src dest h
    simp only [List.length_cons] at h
    unfold encode_data_to_image_loop
    by_cases h8 : 8 ≤ src.rest.length
    · rw [fread_of_le 8 src h8]
      have hl : (src.rest.take 8).length = 8 := by rw [List.length_take]; omega
      simp only [hl, ne_eq, not_true_eq_false, if_false]
      rw [encode_byte_to_lsb_fst]
      simp only
      apply ih
      rw [rest_advance, List.length_drop]
      omega
    · have hne := fread_length_of_lt 8 src (by omega)
      generalize fread 8 src = r at hne
      obtain ⟨b, g⟩ := r
      simp only at hne
      simp only [ne_eq, hne, not_false_eq_true, if_true]

theorem encode_secret_file_data_loop_ok (n : Nat) :
    ∀ (secret src : FILE) (dest P moreP C more : List Nat),
      secret.rest = P ++ moreP → P.length = n → src.rest = C ++ more → C.length = 8 * n →
      encode_secret_file_data_loop n secret src dest
        = (Status.e_success, ⟨secret.data, secret.pos + n⟩, ⟨src.data, src.pos + 8 * n⟩,
            dest ++ embedBytes P C) := by
  induction n with
  | zero =>
    intro secret src dest P moreP C more _ hP _ _
    have : P = [] := List.length_eq_zero.mp hP
    subst this
    simp [encode_secret_file_data_loop, embedBytes]
  | succ n ih =>
    intro secret src dest P moreP C more hsec hP hrest hlen
    obtain ⟨p, P1, rfl⟩ : ∃ p P1, P = p :: P1 := by
      cases P with
      | nil => simp at hP
      | cons p P1 => exact ⟨p, P1, rfl⟩
    simp only [List.length_cons, Nat.add_right_cancel_iff] at hP
    have hsec2 : secret.rest = [p] ++ (P1 ++ moreP) := by rw [hsec]; rfl
    have hfs := fread_of_append secret [p] (P1 ++ moreP) hsec2
    have hrs := rest_of_append secret [p] (P1 ++ moreP) hsec2
    simp only [List.length_singleton] at hfs hrs
    have hC : C = C.take 8 ++ C.drop 8 := (List.take_append_drop 8 C).symm
    have h8 : (C.take 8).length = 8 := by rw [List.length_take]; omega
    have hrest2 : src.rest = C.take 8 ++ (C.drop 8 ++ more) := by
      rw [← List.append_assoc, ← hC, hrest]
    have hfr := fread_of_append src (C.take 8) (C.drop 8 ++ more) hrest2
    rw [h8] at hfr
    have hr1 := rest_of_append src (C.take 8) (C.drop 8 ++ more) hrest2
    rw [h8] at hr1
    unfold encode_secret_file_data_loop
    rw [hfs]
    simp only
    rw [hfr]
    simp only [h8, ne_eq, not_true_eq_false, if_false]
    rw [encode_byte_to_lsb_fst]
    simp only
    rw [ih ⟨secret.data, secret.pos + 1⟩ ⟨src.data, src.pos + 8⟩ _ P1 moreP (C.drop 8) more hrs hP
      hr1 (by rw [List.length_drop]; omega)]
    simp only [embedBytes, List.append_assoc, Prod.mk.injEq, true_and, and_true, FILE.mk.injEq]
    omega

theorem encode_secret_file_data_loop_fail (n : Nat) :
    ∀ (secret src : FILE) (dest : List Nat), src.rest.length < 8 * n →
      (encode_secret_file_data_loop n secret src dest).1 = Status.e_failure := by
  induction n with
  | zero => intro secret src dest h; simp at h
  | succ n ih =>
    intro secret src dest h
    unfold encode_secret_file_data_loop
    split
    · by_cases h8 : 8 ≤ src.rest.length
      · rw [fread_of_le 8 src h8]
        have hl : (src.rest.take 8).length = 8 := by rw [List.length_take]; omega
        simp only [hl, ne_eq, not_true_eq_false, if_false]
        rw [encode_byte_to_lsb_fst]
        simp only
        apply ih
        rw [rest_advance, List.length_drop]
        omega
      · have hne := fread_length_of_lt 8 src (by omega)
        generalize fread 8 src = r at hne
        obtain ⟨b, g⟩ := r
        simp only at hne
        simp only [ne_eq, hne, not_false_eq_true, if_true]
    · rfl

theorem copy_remaining_img_data_loop_eq (fuel : Nat) :
    ∀ (src : FILE) (dest : List Nat), src.rest.length < fuel →
      copy_remaining_img_data_loop fuel src dest
        = (Status.e_success, ⟨src.data, src.pos + src.rest.length⟩, dest ++ src.rest) := by
  induction fuel with
  | zero => intro src dest h; simp at h
  | succ fuel ih =>
    intro src dest h
    unfold copy_remaining_img_data_loop
    rw [fread_eq]
    simp only
    by_cases h0 : (src.rest.take 4096).length > 0
    · rw [if_pos h0]
      have hk : (src.rest.take 4096).length ≤ src.rest.length := by
        rw [List.length_take]; exact Nat.min_le_right _ _
      rw [ih _ _ (by rw [rest_advance, List.length_drop]; omega)]
      rw [rest_advance]
      simp only [List.length_drop, List.append_assoc, Prod.mk.injEq, true_and, FILE.mk.injEq]
      refine ⟨by omega, ?_⟩
      congr 1
      by_cases hbig : 4096 ≤ src.rest.length
      · have : (src.rest.take 4096).length = 4096 := by rw [List.length_take]; omega
        rw [this, List.take_append_drop]
      · have : (src.rest.take 4096).length = src.rest.length := by rw [List.length_take]; omega
        rw [this, List.take_of_length_le (by omega), List.drop_length, List.append_nil]
    · rw [if_neg h0]
      have hlen : (src.rest.take 4096).length = 0 := by omega
      have hnil : src.rest = [] := by
        rw [List.length_take] at hlen
        have : src.rest.length = 0 := by omega
        exact List.length_eq_zero.mp this
      simp [hnil]

theorem copy_remaining_img_data_eq (src : FILE) (dest : List Nat) :
    copy_remaining_img_data src dest
      = (Status.e_success, ⟨src.data, src.pos + src.rest.length⟩, dest ++ src.rest) :=
  copy_remaining_img_data_loop_eq _ src dest (Nat.lt_succ_self _)

theorem copy_bmp_header_ok (src : FILE) (dest : List Nat) (h : 54 ≤ src.data.length) :
    copy_bmp_header src dest = (Status.e_success, ⟨src.data, 54⟩, dest ++ src.data.take 54) := by
  unfold copy_bmp_header
  have hr : (fseek src 0).rest = src.data := rfl
  rw [fread_of_le 54 (fseek src 0) (by rw [hr]; exact h), hr]
  have hl : (src.data.take 54).length = 54 := by rw [List.length_take]; omega
  simp only [hl, ne_eq, not_true_eq_false, if_false, fseek, Nat.zero_add]

theorem copy_bmp_header_fail (src : FILE) (dest : List Nat) (h : src.data.length < 54) :
    (copy_bmp_header src dest).1 = Status.e_failure := by
  unfold copy_bmp_header
  have hr : (fseek src 0).rest = src.data := rfl
  have hne := fread_length_of_lt 54 (fseek src 0) (by rw [hr]; exact h)
  generalize fread 54 (fseek src 0) = r at hne
  obtain ⟨b, g⟩ := r
  simp only at hne
  simp only [ne_eq, hne, not_false_eq_true, if_true]

theorem take_length_takeWhile (p : Nat → Bool) (s : List Nat) :
    s.take (s.takeWhile p).length = s.takeWhile p := by
  induction s with
  | nil => rfl
  | cons a s ih =>
    cases h : p a
    · simp [List.takeWhile_cons, h]
    · simp [List.takeWhile_cons, h, ih]

theorem take_strlen (s : List Nat) : s.take (strlen s) = cstr s :=
  take_length_takeWhile _ s

theorem cstr_of_no_nul (s : List Nat) (h : ∀ b ∈ s, b ≠ 0) : cstr s = s := by
  unfold cstr
  rw [List.takeWhile_eq_self_iff]
  intro x hx
  simpa using h x hx

theorem cstr_no_nul (s : List Nat) : ∀ b ∈ cstr s, b ≠ 0 := by
  intro b hb
  have := List.mem_takeWhile_imp hb
  simpa using this

theorem cstr_cstr (s : List Nat) : cstr (cstr s) = cstr s :=
  cstr_of_no_nul _ (cstr_no_nul s)

theorem fread_uint_data (f : FILE) : (fread_uint f).2.data = f.data := by
  unfold fread_uint
  split
  · next b0 b1 b2 b3 g h =>
    have := congrArg (fun r => r.2.data) h
    simpa [fread] using this.symm
  · next g h1 h2 =>
    have := congrArg (fun r => r.2.data) h2
    simpa [fread] using this.symm

theorem get_image_size_for_bmp_fst (f : FILE) :
    (get_image_size_for_bmp f).1 = bmp_capacity f.data := rfl

theorem get_image_size_for_bmp_data (f : FILE) : (get_image_size_for_bmp f).2.data = f.data := by
  unfold get_image_size_for_bmp
  have h1 := fread_uint_data (fseek f 18)
  have h2 := fread_uint_data (fread_uint (fseek f 18)).2
  generalize fread_uint (fseek f 18) = r1 at h1 h2
  obtain ⟨w, f1⟩ := r1
  simp only at h1 h2 ⊢
  generalize fread_uint f1 = r2 at h2
  obtain ⟨h, f2⟩ := r2
  simp only at h2 ⊢
  have hd : f2.data = f.data := by rw [h2, h1]; rfl
  cases w <;> cases h <;> simp [hd]

theorem check_capacity_eq (M : List Nat) (e : EncodeInfo) (cap : Nat)
    (hcap : bmp_capacity e.fptr_src_image.data = some cap) :
    ∃ g : FILE, g.data = e.fptr_src_image.data ∧
      check_capacity M e =
        some (if cap < capacity_needed (strlen M) (strlen e.extn_secret_file)
                  (e.fptr_secret.data.length % 4294967296)
              then Status.e_failure else Status.e_success,
          { e with image_capacity := cap, fptr_src_image := g,
                   size_secret_file := e.fptr_secret.data.length % 4294967296,
                   fptr_secret := fseek e.fptr_secret 0 }) := by
  have h1 := get_image_size_for_bmp_fst e.fptr_src_image
  have h2 := get_image_size_for_bmp_data e.fptr_src_image
  unfold check_capacity
  generalize get_image_size_for_bmp e.fptr_src_image = r at h1 h2
  obtain ⟨c, g⟩ := r
  simp only at h1 h2
  rw [hcap] at h1
  subst h1
  refine ⟨g, h2, ?_⟩
  simp only [get_file_size, capacity_needed]
  split <;> rfl

theorem encode_data_to_image_ok (data : List Nat) (src : FILE) (dest : List Nat)
    (h : 8 * strlen data ≤ src.rest.length) :
    encode_data_to_image data (strlen data) src dest
      = (Status.e_success, ⟨src.data, src.pos + 8 * strlen data⟩,
          dest ++ embedBytes (cstr data) (src.rest.take (8 * strlen data))) := by
  unfold encode_data_to_image
  rw [take_strlen]
  exact encode_data_to_image_loop_ok (cstr data) src dest (src.rest.take (8 * strlen data))
    (src.rest.drop (8 * strlen data)) (List.take_append_drop _ _).symm
    (by rw [List.length_take]; unfold strlen at h ⊢; omega)

theorem encode_data_to_image_fail (data : List Nat) (src : FILE) (dest : List Nat)
    (h : src.rest.length < 8 * strlen data) :
    (encode_data_to_image data (strlen data) src dest).1 = Status.e_failure := by
  unfold encode_data_to_image
  rw [take_strlen]
  exact encode_data_to_image_loop_fail (cstr data) src dest h

theorem encode_magic_string_ok (M : List Nat) (e : EncodeInfo)
    (h : 8 * strlen M ≤ e.fptr_src_image.rest.length) :
    encode_magic_string M e = (Status.e_success,
      { e with
        fptr_src_image := ⟨e.fptr_src_image.data, e.fptr_src_image.pos + 8 * strlen M⟩,
        fptr_stego_image := e.fptr_stego_image
          ++ embedBytes (cstr M) (e.fptr_src_image.rest.take (8 * strlen M)) }) := by
  unfold encode_magic_string
  rw [encode_data_to_image_ok M _ _ h]

theorem encode_magic_string_fail (M : List Nat) (e : EncodeInfo)
    (h : e.fptr_src_image.rest.length < 8 * strlen M) :
    (encode_magic_string M e).1 = Status.e_failure := by
  unfold encode_magic_string
  have := encode_data_to_image_fail M e.fptr_src_image e.fptr_stego_image h
  generalize encode_data_to_image M (strlen M) e.fptr_src_image e.fptr_stego_image = r at this
  obtain ⟨st, src, dest⟩ := r
  exact this

theorem encode_secret_file_extn_ok (E : List Nat) (e : EncodeInfo)
    (h : 8 * strlen E ≤ e.fptr_src_image.rest.length) :
    encode_secret_file_extn E e = (Status.e_success,
      { e with
        fptr_src_image := ⟨e.fptr_src_image.data, e.fptr_src_image.pos + 8 * strlen E⟩,
        fptr_stego_image := e.fptr_stego_image
          ++ embedBytes (cstr E) (e.fptr_src_image.rest.take (8 * strlen E)) }) := by
  unfold encode_secret_file_extn
  rw [encode_data_to_image_ok E _ _ h]

theorem encode_secret_file_extn_fail (E : List Nat) (e : EncodeInfo)
    (h : e.fptr_src_image.rest.length < 8 * strlen E) :
    (encode_secret_file_extn E e).1 = Status.e_failure := by
  unfold encode_secret_file_extn
  have := encode_data_to_image_fail E e.fptr_src_image e.fptr_stego_image h
  generalize encode_data_to_image E (strlen E) e.fptr_src_image e.fptr_stego_image = r at this
  obtain ⟨st, src, dest⟩ := r
  exact this

theorem encode_secret_file_extn_size_ok (v : Nat) (e : EncodeInfo)
    (h : 32 ≤ e.fptr_src_image.rest.length) :
    encode_secret_file_extn_size v e = (Status.e_success,
      { e with
        fptr_src_image := ⟨e.fptr_src_image.data, e.fptr_src_image.pos + 32⟩,
        fptr_stego_image := e.fptr_stego_image
          ++ embedSize v (e.fptr_src_image.rest.take 32) }) := by
  unfold encode_secret_file_extn_size
  rw [fread_of_le 32 _ h]
  have hl : (e.fptr_src_image.rest.take 32).length = 32 := by rw [List.length_take]; omega
  simp only [hl, ne_eq, not_true_eq_false, if_false]
  rw [encode_size_to_lsb_fst]
  rfl

theorem encode_secret_file_extn_size_fail (v : Nat) (e : EncodeInfo)
    (h : e.fptr_src_image.rest.length < 32) :
    (encode_secret_file_extn_size v e).1 = Status.e_failure := by
  unfold encode_secret_file_extn_size
  have hne := fread_length_of_lt 32 e.fptr_src_image h
  generalize fread 32 e.fptr_src_image = r at hne
  obtain ⟨b, g⟩ := r
  simp only at hne
  simp only [ne_eq, hne, not_false_eq_true, if_true]

theorem encode_secret_file_size_ok (v : Nat) (e : EncodeInfo)
    (h : 32 ≤ e.fptr_src_image.rest.length) :
    encode_secret_file_size v e = (Status.e_success,
      { e with
        fptr_src_image := ⟨e.fptr_src_image.data, e.fptr_src_image.pos + 32⟩,
        fptr_stego_image := e.fptr_stego_image
          ++ embedSize v (e.fptr_src_image.rest.take 32) }) := by
  unfold encode_secret_file_size
  rw [fread_of_le 32 _ h]
  have hl : (e.fptr_src_image.rest.take 32).length = 32 := by rw [List.length_take]; omega
  simp only [hl, ne_eq, not_true_eq_false, if_false]
  rw [encode_size_to_lsb_fst]
  rfl

theorem encode_secret_file_size_fail (v : Nat) (e : EncodeInfo)
    (h : e.fptr_src_image.rest.length < 32) :
    (encode_secret_file_size v e).1 = Status.e_failure := by
  unfold encode_secret_file_size
  have hne := fread_length_of_lt 32 e.fptr_src_image h
  generalize fread 32 e.fptr_src_image = r at hne
  obtain ⟨b, g⟩ := r
  simp only at hne
  simp only [ne_eq, hne, not_false_eq_true, if_true]

theorem encode_secret_file_data_ok (e : EncodeInfo)
    (hs : e.size_secret_file ≤ e.fptr_secret.data.length)
    (h : 8 * e.size_secret_file ≤ e.fptr_src_image.rest.length) :
    encode_secret_file_data e = (Status.e_success,
      { e with
        fptr_secret := ⟨e.fptr_secret.data, e.size_secret_file⟩,
        fptr_src_image :=
          ⟨e.fptr_src_image.data, e.fptr_src_image.pos + 8 * e.size_secret_file⟩,
        fptr_stego_image := e.fptr_stego_image
          ++ embedBytes (e.fptr_secret.data.take e.size_secret_file)
              (e.fptr_src_image.rest.take (8 * e.size_secret_file)) }) := by
  unfold encode_secret_file_data
  have hr : (fseek e.fptr_secret 0).rest = e.fptr_secret.data := rfl
  rw [encode_secret_file_data_loop_ok e.size_secret_file (fseek e.fptr_secret 0) e.fptr_src_image
    e.fptr_stego_image (e.fptr_secret.data.take e.size_secret_file)
    (e.fptr_secret.data.drop e.size_secret_file)
    (e.fptr_src_image.rest.take (8 * e.size_secret_file))
    (e.fptr_src_image.rest.drop (8 * e.size_secret_file))
    (by rw [hr, List.take_append_drop]) (by rw [List.length_take]; omega)
    (List.take_append_drop _ _).symm (by rw [List.length_take]; omega)]
  simp only [fseek, Nat.zero_add]

theorem encode_secret_file_data_fail (e : EncodeInfo)
    (h : e.fptr_src_image.rest.length < 8 * e.size_secret_file) :
    (encode_secret_file_data e).1 = Status.e_failure := by
  unfold encode_secret_file_data
  have := encode_secret_file_data_loop_fail e.size_secret_file (fseek e.fptr_secret 0)
    e.fptr_src_image e.fptr_stego_image h
  generalize encode_secret_file_data_loop e.size_secret_file (fseek e.fptr_secret 0)
    e.fptr_src_image e.fptr_stego_image = r at this
  obtain ⟨st, a, b, c⟩ := r
  exact this

theorem open_files_ok (e : EncodeInfo) (img sec : List Nat)
    (hsrc : e.src_image_file = some img) (hsec : e.secret_file = some sec) :
    open_files e = (Status.e_success,
      { e with fptr_src_image := ⟨img, 0⟩, fptr_secret := ⟨sec, 0⟩,
               stego_image_created := true, fptr_stego_image := [] }) := by
  simp [open_files, hsrc, hsec]

theorem do_encoding_ok (M : List Nat) (e : EncodeInfo) (img sec : List Nat) (cap : Nat)
    (hsrc : e.src_image_file = some img) (hsec : e.secret_file = some sec)
    (hcap : bmp_capacity img = some cap)
    (hfit : ¬ cap < capacity_needed (strlen M) (strlen e.extn_secret_file)
      (sec.length % 4294967296))
    (hlen : 54 + recordLength (strlen M) (strlen e.extn_secret_file) (sec.length % 4294967296)
      ≤ img.length) :
    ∃ e1, do_encoding M e = some (Status.e_success, e1)
      ∧ e1.fptr_stego_image = stegoImage (cstr M) (cstr e.extn_secret_file)
          (sec.take (sec.length % 4294967296)) img
      ∧ e1.stego_image_created = true
      ∧ e1.image_capacity = cap
      ∧ e1.size_secret_file = sec.length % 4294967296 := by
  unfold recordLength at hlen
  have hsz : sec.length % 4294967296 ≤ sec.length := Nat.mod_le _ _
  obtain ⟨g, hg, hcc⟩ := check_capacity_eq M
    { e with fptr_src_image := ⟨img, 0⟩, fptr_secret := ⟨sec, 0⟩,
             stego_image_created := true, fptr_stego_image := [] } cap hcap
  simp only [if_neg hfit] at hcc
  simp only at hg
  unfold do_encoding
  rw [open_files_ok e img sec hsrc hsec]
  simp only
  rw [hcc]
  simp only
  rw [copy_bmp_header_ok g [] (by rw [hg]; omega)]
  simp only [hg, List.nil_append]
  rw [encode_magic_string_ok]
  simp only
  rw [encode_secret_file_extn_size_ok]
  simp only
  rw [encode_secret_file_extn_ok]
  simp only
  rw [encode_secret_file_size_ok]
  simp only
  rw [encode_secret_file_data_ok]
  simp only
  rw [copy_remaining_img_data_eq]
  simp only
  refine ⟨_, rfl, ?_, rfl, rfl, rfl⟩
  · simp only [stegoImage, embedRecord, recordLength, FILE.rest, List.drop_drop, fseek, strlen,
      List.append_assoc, List.length_take, Nat.min_eq_left hsz, Nat.add_assoc]
  all_goals (simp only [FILE.rest, List.length_drop, fseek]; omega)

theorem do_encoding_no_files (M : List Nat) (e : EncodeInfo)
    (h : e.src_image_file = none ∨ e.secret_file = none) :
    ∃ e1, do_encoding M e = some (Status.e_failure, e1) := by
  unfold do_encoding open_files
  rcases h with h | h
  · rw [h]; exact ⟨_, rfl⟩
  · cases hs : e.src_image_file with
    | none => exact ⟨_, rfl⟩
    | some img => simp only [h]; exact ⟨_, rfl⟩

theorem do_encoding_indeterminate (M : List Nat) (e : EncodeInfo) (img sec : List Nat)
    (hsrc : e.src_image_file = some img) (hsec : e.secret_file = some sec)
    (hcap : bmp_capacity img = none) :
    do_encoding M e = none := by
  unfold do_encoding
  rw [open_files_ok e img sec hsrc hsec]
  simp only
  unfold check_capacity
  have h1 := get_image_size_for_bmp_fst (⟨img, 0⟩ : FILE)
  simp only at h1 ⊢
  rw [hcap] at h1
  generalize get_image_size_for_bmp ⟨img, 0⟩ = r at h1
  obtain ⟨c, g⟩ := r
  simp only at h1
  subst h1
  rfl

theorem do_encoding_no_capacity (M : List Nat) (e : EncodeInfo) (img sec : List Nat) (cap : Nat)
    (hsrc : e.src_image_file = some img) (hsec : e.secret_file = some sec)
    (hcap : bmp_capacity img = some cap)
    (hfit : cap < capacity_needed (strlen M) (strlen e.extn_secret_file)
      (sec.length % 4294967296)) :
    ∃ e1, do_encoding M e = some (Status.e_failure, e1)
      ∧ e1.fptr_stego_image = [] ∧ e1.stego_image_created = true := by
  obtain ⟨g, hg, hcc⟩ := check_capacity_eq M
    { e with fptr_src_image := ⟨img, 0⟩, fptr_secret := ⟨sec, 0⟩,
             stego_image_created := true, fptr_stego_image := [] } cap hcap
  simp only [if_pos hfit] at hcc
  unfold do_encoding
  rw [open_files_ok e img sec hsrc hsec]
  simp only
  rw [hcc]
  exact ⟨_, rfl, rfl, rfl⟩

theorem match_failure (r : Status × EncodeInfo) (h : r.1 = Status.e_failure)
    (k : EncodeInfo → Option (Status × EncodeInfo)) :
    ∃ e1, (match r with
      | (Status.e_failure, e4) => some (Status.e_failure, e4)
      | (Status.e_success, e4) => k e4) = some (Status.e_failure, e1) := by
  obtain ⟨st, e4⟩ := r
  simp only at h
  subst h
  exact ⟨_, rfl⟩

theorem do_encoding_short (M : List Nat) (e : EncodeInfo) (img sec : List Nat) (cap : Nat)
    (hsrc : e.src_image_file = some img) (hsec : e.secret_file = some sec)
    (hcap : bmp_capacity img = some cap)
    (hfit : ¬ cap < capacity_needed (strlen M) (strlen e.extn_secret_file)
      (sec.length % 4294967296))
    (hlen : img.length
      < 54 + recordLength (strlen M) (strlen e.extn_secret_file) (sec.length % 4294967296)) :
    ∃ e1, do_encoding M e = some (Status.e_failure, e1) := by
  unfold recordLength at hlen
  have hsz : sec.length % 4294967296 ≤ sec.length := Nat.mod_le _ _
  obtain ⟨g, hg, hcc⟩ := check_capacity_eq M
    { e with fptr_src_image := ⟨img, 0⟩, fptr_secret := ⟨sec, 0⟩,
             stego_image_created := true, fptr_stego_image := [] } cap hcap
  simp only [if_neg hfit] at hcc
  simp only at hg
  unfold do_encoding
  rw [open_files_ok e img sec hsrc hsec]
  simp only
  rw [hcc]
  simp only
  by_cases h0 : img.length < 54
  · have hf := copy_bmp_header_fail g [] (by rw [hg]; exact h0)
    generalize copy_bmp_header g [] = r at hf
    obtain ⟨st, a, b⟩ := r
    simp only at hf
    subst hf
    exact ⟨_, rfl⟩
  rw [copy_bmp_header_ok g [] (by rw [hg]; omega)]
  simp only [hg, List.nil_append]
  by_cases h1 : img.length < 54 + 8 * strlen M
  · apply match_failure
    apply encode_magic_string_fail
    simp only [FILE.rest, List.length_drop]; omega
  rw [encode_magic_string_ok _ _ (by simp only [FILE.rest, List.length_drop]; omega)]
  simp only
  by_cases h2 : img.length < 54 + 8 * strlen M + 32
  · apply match_failure
    apply encode_secret_file_extn_size_fail
    simp only [FILE.rest, List.length_drop]; omega
  rw [encode_secret_file_extn_size_ok _ _ (by simp only [FILE.rest, List.length_drop]; omega)]
  simp only
  by_cases h3 : img.length < 54 + 8 * strlen M + 32 + 8 * strlen e.extn_secret_file
  · apply match_failure
    apply encode_secret_file_extn_fail
    simp only [FILE.rest, List.length_drop]; omega
  rw [encode_secret_file_extn_ok _ _ (by simp only [FILE.rest, List.length_drop]; omega)]
  simp only
  by_cases h4 : img.length < 54 + 8 * strlen M + 32 + 8 * strlen e.extn_secret_file + 32
  · apply match_failure
    apply encode_secret_file_size_fail
    simp only [FILE.rest, List.length_drop]; omega
  rw [encode_secret_file_size_ok _ _ (by simp only [FILE.rest, List.length_drop]; omega)]
  simp only
  apply match_failure
  apply encode_secret_file_data_fail
  simp only [FILE.rest, List.length_drop]; omega

/-! ## Lemmas on the embedded record -/

theorem char_to_int_bit (d k : Nat) (hk : k < 8) :
    char_to_int d / 2 ^ k % 2 = d / 2 ^ k % 2 := by
  unfold char_to_int
  split <;> interval_cases k <;> omega

theorem char_to_int_mod (d : Nat) : char_to_int d % 256 = d % 256 := by
  unfold char_to_int
  split <;> omega

theorem long_to_int_bit (v k : Nat) (hk : k < 32) :
    long_to_int v / 2 ^ k % 2 = v / 2 ^ k % 2 := by
  unfold long_to_int
  have h := Nat.testBit_mod_two_pow v 32 k
  simp only [Nat.testBit_to_div_mod, hk, decide_True, Bool.true_and] at h
  have h1 : (v % 4294967296) / 2 ^ k % 2 < 2 := Nat.mod_lt _ (by decide)
  have h2 : v / 2 ^ k % 2 < 2 := Nat.mod_lt _ (by decide)
  have e : (2 : Nat) ^ 32 = 4294967296 := by norm_num
  rw [e] at h
  by_cases hc : v / 2 ^ k % 2 = 1
  · simp only [hc, decide_True, decide_eq_true_eq] at h
    omega
  · simp only [hc, decide_False, decide_eq_false_iff_not] at h
    omega

theorem map_mod_of_isBytes (l : List Nat) (h : isBytes l = true) : l.map (fun b => b % 256) = l := by
  simp only [isBytes, List.all_eq_true, decide_eq_true_eq] at h
  conv_rhs => rw [← List.map_id l]
  apply List.map_congr_left
  intro b hb
  exact Nat.mod_eq_of_lt (h b hb)

theorem length_embedBytes (ds : List Nat) :
    ∀ cs : List Nat, 8 * ds.length ≤ cs.length → (embedBytes ds cs).length = 8 * ds.length := by
  induction ds with
  | nil => intro cs _; rfl
  | cons d ds ih =>
    intro cs h
    simp only [List.length_cons] at h
    simp only [embedBytes, List.length_append, length_encode_byte, List.length_take,
      List.length_cons]
    rw [ih (cs.drop 8) (by rw [List.length_drop]; omega)]
    omega

theorem length_embedSize (v : Nat) (cs : List Nat) : (embedSize v cs).length = cs.length :=
  length_encode_size _ _

theorem map_mod_two_encode_byte (d : Nat) (c : List Nat) (hc : c.length = 8) :
    (encode_byte_to_lsb (char_to_int d) c).2.map (fun b => b % 2) = bitsMSB 8 d := by
  rw [encode_byte_to_lsb_eq]
  simp only [List.map_map, hc, bitsMSB]
  apply List.map_congr_left
  intro j hj
  have hj8 : j < 8 := List.mem_range.mp hj
  simp only [Function.comp, if_pos hj8, shiftRight_and_one]
  rw [setLsb_mod_two _ _ (Nat.mod_lt _ (by decide)), char_to_int_bit d (7 - j) (by omega)]

theorem map_mod_two_embedSize (v : Nat) (c : List Nat) (hc : c.length = 32) :
    (embedSize v c).map (fun b => b % 2) = bitsMSB 32 v := by
  unfold embedSize
  rw [encode_size_to_lsb_eq]
  simp only [List.map_map, hc, bitsMSB]
  apply List.map_congr_left
  intro j hj
  have hj8 : j < 32 := List.mem_range.mp hj
  simp only [Function.comp, if_pos hj8, shiftRight_and_one]
  rw [setLsb_mod_two _ _ (Nat.mod_lt _ (by decide)), long_to_int_bit v (31 - j) (by omega)]

theorem map_mod_two_embedBytes (ds : List Nat) :
    ∀ cs : List Nat, 8 * ds.length ≤ cs.length →
      (embedBytes ds cs).map (fun b => b % 2) = ds.flatMap (bitsMSB 8) := by
  induction ds with
  | nil => intro cs _; rfl
  | cons d ds ih =>
    intro cs h
    simp only [List.length_cons] at h
    simp only [embedBytes, List.map_append, List.flatMap_cons]
    rw [map_mod_two_encode_byte d _ (by rw [List.length_take]; omega),
      ih (cs.drop 8) (by rw [List.length_drop]; omega)]

theorem extractBytes_embedBytes (ds : List Nat) :
    ∀ cs tail : List Nat, 8 * ds.length ≤ cs.length →
      extractBytes ds.length (embedBytes ds cs ++ tail) = ds.map (fun b => b % 256) := by
  induction ds with
  | nil => intro cs tail _; rfl
  | cons d ds ih =>
    intro cs tail h
    simp only [List.length_cons] at h
    have h8 : (cs.take 8).length = 8 := by rw [List.length_take]; omega
    have hl : (encode_byte_to_lsb (char_to_int d) (cs.take 8)).2.length = 8 := by
      rw [length_encode_byte, h8]
    simp only [embedBytes, List.length_cons, extractBytes, List.map_cons, List.append_assoc]
    rw [List.take_left' hl, List.drop_left' hl, decode_encode_byte _ _ h8,
      ih (cs.drop 8) tail (by rw [List.length_drop]; omega), char_to_int_mod]

theorem length_embedRecord (M E P px : List Nat)
    (h : recordLength M.length E.length P.length ≤ px.length) :
    (embedRecord M E P px).length = px.length := by
  unfold recordLength at h
  unfold embedRecord recordLength
  simp only [List.length_append, length_embedSize, List.length_take, List.length_drop]
  rw [length_embedBytes M _ (by rw [List.length_take]; omega),
    length_embedBytes E _ (by rw [List.length_take, List.length_drop]; omega),
    length_embedBytes P _ (by rw [List.length_take, List.length_drop]; omega)]
  omega

theorem length_stegoImage (M E P img : List Nat)
    (h : 54 + recordLength M.length E.length P.length ≤ img.length) :
    (stegoImage M E P img).length = img.length := by
  unfold stegoImage
  rw [List.length_append, length_embedRecord M E P _ (by rw [List.length_drop]; omega),
    List.length_take, List.length_drop]
  omega

theorem take_stegoImage (M E P img : List Nat) (h : 54 ≤ img.length) :
    (stegoImage M E P img).take 54 = img.take 54 := by
  unfold stegoImage
  rw [List.take_left' (by rw [List.length_take]; omega)]

theorem drop_stegoImage (M E P img : List Nat) (h : 54 ≤ img.length) :
    (stegoImage M E P img).drop 54 = embedRecord M E P (img.drop 54) := by
  unfold stegoImage
  rw [List.drop_left' (by rw [List.length_take]; omega)]

theorem length_bitsMSB (w v : Nat) : (bitsMSB w v).length = w := by
  simp [bitsMSB]

theorem length_flatMap_bitsMSB (l : List Nat) : (l.flatMap (bitsMSB 8)).length = 8 * l.length := by
  induction l with
  | nil => rfl
  | cons a l ih =>
    simp only [List.flatMap_cons, List.length_append, length_bitsMSB, ih, List.length_cons]
    omega

theorem length_recordBits (M E P : List Nat) :
    (recordBits M E P).length = recordLength M.length E.length P.length := by
  unfold recordBits recordLength
  simp only [List.length_append, length_flatMap_bitsMSB, length_bitsMSB]

/-- The least significant bits of the record region spell the record. -/
theorem lsb_embedRecord (M E P px : List Nat)
    (h : recordLength M.length E.length P.length ≤ px.length) :
    ((embedRecord M E P px).take (recordLength M.length E.length P.length)).map (fun b => b % 2)
      = recordBits M E P := by
  have hlen : (embedBytes M (px.take (8 * M.length))
      ++ embedSize E.length ((px.drop (8 * M.length)).take 32)
      ++ embedBytes E ((px.drop (8 * M.length + 32)).take (8 * E.length))
      ++ embedSize P.length ((px.drop (8 * M.length + 32 + 8 * E.length)).take 32)
      ++ embedBytes P ((px.drop (8 * M.length + 32 + 8 * E.length + 32)).take (8 * P.length))).length
      = recordLength M.length E.length P.length := by
    unfold recordLength at h ⊢
    simp only [List.length_append, length_embedSize, List.length_take, List.length_drop]
    rw [length_embedBytes M _ (by rw [List.length_take]; omega),
      length_embedBytes E _ (by rw [List.length_take, List.length_drop]; omega),
      length_embedBytes P _ (by rw [List.length_take, List.length_drop]; omega)]
    omega
  unfold embedRecord
  rw [List.take_left' hlen]
  unfold recordLength at h
  unfold recordBits
  simp only [List.map_append]
  rw [map_mod_two_embedBytes M _ (by rw [List.length_take]; omega),
    map_mod_two_embedBytes E _ (by rw [List.length_take, List.length_drop]; omega),
    map_mod_two_embedBytes P _ (by rw [List.length_take, List.length_drop]; omega),
    map_mod_two_embedSize _ _ (by rw [List.length_take, List.length_drop]; omega),
    map_mod_two_embedSize _ _ (by rw [List.length_take, List.length_drop]; omega)]

/-- What a successful run of `do_encoding` implies: both inputs could be opened,
the capacity check passed, the carrier holds the header and the whole record,
and the destination holds the stego image. -/
theorem do_encoding_success (M : List Nat) (e e1 : EncodeInfo)
    (h : do_encoding M e = some (Status.e_success, e1)) :
    ∃ img sec cap, e.src_image_file = some img ∧ e.secret_file = some sec
      ∧ bmp_capacity img = some cap
      ∧ ¬ cap < capacity_needed (strlen M) (strlen e.extn_secret_file) (sec.length % 4294967296)
      ∧ 54 + recordLength (strlen M) (strlen e.extn_secret_file) (sec.length % 4294967296)
          ≤ img.length
      ∧ e1.fptr_stego_image = stegoImage (cstr M) (cstr e.extn_secret_file)
          (sec.take (sec.length % 4294967296)) img := by
  cases hsrc : e.src_image_file with
  | none =>
    obtain ⟨e2, h2⟩ := do_encoding_no_files M e (Or.inl hsrc)
    rw [h2] at h
    simp at h
  | some img =>
    cases hsec : e.secret_file with
    | none =>
      obtain ⟨e2, h2⟩ := do_encoding_no_files M e (Or.inr hsec)
      rw [h2] at h
      simp at h
    | some sec =>
      cases hcap : bmp_capacity img with
      | none =>
        rw [do_encoding_indeterminate M e img sec hsrc hsec hcap] at h
        simp at h
      | some cap =>
        by_cases hfit : cap < capacity_needed (strlen M) (strlen e.extn_secret_file)
            (sec.length % 4294967296)
        · obtain ⟨e2, h2, _⟩ := do_encoding_no_capacity M e img sec cap hsrc hsec hcap hfit
          rw [h2] at h
          simp at h
        · by_cases hlen : 54 + recordLength (strlen M) (strlen e.extn_secret_file)
              (sec.length % 4294967296) ≤ img.length
          · obtain ⟨e2, h2, hout, _⟩ := do_encoding_ok M e img sec cap hsrc hsec hcap hfit hlen
            rw [h2] at h
            simp only [Option.some.injEq, Prod.mk.injEq, true_and] at h
            subst h
            exact ⟨img, sec, cap, rfl, rfl, hcap, hfit, hlen, hout⟩
          · obtain ⟨e2, h2⟩ := do_encoding_short M e img sec cap hsrc hsec hcap hfit
              (by omega)
            rw [h2] at h
            simp at h

theorem length_take_mod (sec : List Nat) :
    (sec.take (sec.length % 4294967296)).length = sec.length % 4294967296 := by
  rw [List.length_take]
  exact Nat.min_eq_left (Nat.mod_le _ _)

/-! ## Claims on the container writer -/

/-- C8: for every carrier and payload on which `do_encoding` succeeds, the first
54 bytes of the output image equal the first 54 bytes of the carrier image (and
the carrier holds at least 54 bytes). -/
theorem header_preservation (M : List Nat) (e e1 : EncodeInfo) (img : List Nat)
    (hsrc : e.src_image_file = some img)
    (h : do_encoding M e = some (Status.e_success, e1)) :
    e1.fptr_stego_image.take 54 = img.take 54 ∧ (img.take 54).length = 54 := by
  obtain ⟨img1, sec, cap, h1, _, _, _, hlen, hout⟩ := do_encoding_success M e e1 h
  rw [hsrc] at h1
  simp only [Option.some.injEq] at h1
  subst h1
  rw [hout, take_stegoImage _ _ _ _ (by omega), List.length_take]
  exact ⟨rfl, by omega⟩

/-- C9: for every carrier and payload on which `do_encoding` succeeds, the total
byte length of the output image equals the total byte length of the carrier. -/
theorem size_preservation (M : List Nat) (e e1 : EncodeInfo) (img : List Nat)
    (hsrc : e.src_image_file = some img)
    (h : do_encoding M e = some (Status.e_success, e1)) :
    e1.fptr_stego_image.length = img.length := by
  obtain ⟨img1, sec, cap, h1, _, _, _, hlen, hout⟩ := do_encoding_success M e e1 h
  rw [hsrc] at h1
  simp only [Option.some.injEq] at h1
  subst h1
  rw [hout]
  apply length_stegoImage
  simpa only [strlen, length_take_mod] using hlen

/-! ## Lemmas on the container reader -/

theorem decode_data_from_image_loop_ok (n : Nat) :
    ∀ (f : FILE) (out X more : List Nat), f.rest = X ++ more → X.length = 8 * n →
      decode_data_from_image_loop n f out
        = (Status.e_success, out ++ extractBytes n X, ⟨f.data, f.pos + 8 * n⟩) := by
  induction n with
  | zero =>
    intro f out X more _ _
    simp [decode_data_from_image_loop, extractBytes]
  | succ n ih =>
    intro f out X more hrest hlen
    have hX : X = X.take 8 ++ X.drop 8 := (List.take_append_drop 8 X).symm
    have h8 : (X.take 8).length = 8 := by rw [List.length_take]; omega
    have hrest2 : f.rest = X.take 8 ++ (X.drop 8 ++ more) := by
      rw [← List.append_assoc, ← hX, hrest]
    have hfr := fread_of_append f (X.take 8) (X.drop 8 ++ more) hrest2
    rw [h8] at hfr
    have hr1 := rest_of_append f (X.take 8) (X.drop 8 ++ more) hrest2
    rw [h8] at hr1
    unfold decode_data_from_image_loop
    rw [hfr]
    simp only [h8, ne_eq, not_true_eq_false, if_false]
    rw [decode_byte_from_lsb_fst]
    simp only
    rw [ih ⟨f.data, f.pos + 8⟩ _ (X.drop 8) more hr1 (by rw [List.length_drop]; omega)]
    simp only [extractBytes, List.append_assoc, List.singleton_append, Prod.mk.injEq, true_and,
      FILE.mk.injEq]
    omega

theorem decode_secret_file_data_loop_ok (n : Nat) :
    ∀ (f : FILE) (secret X more : List Nat), f.rest = X ++ more → X.length = 8 * n →
      decode_secret_file_data_loop n f secret
        = (Status.e_success, ⟨f.data, f.pos + 8 * n⟩, secret ++ extractBytes n X) := by
  induction n with
  | zero =>
    intro f out X more _ _
    simp [decode_secret_file_data_loop, extractBytes]
  | succ n ih =>
    intro f out X more hrest hlen
    have hX : X = X.take 8 ++ X.drop 8 := (List.take_append_drop 8 X).symm
    have h8 : (X.take 8).length = 8 := by rw [List.length_take]; omega
    have hrest2 : f.rest = X.take 8 ++ (X.drop 8 ++ more) := by
      rw [← List.append_assoc, ← hX, hrest]
    have hfr := fread_of_append f (X.take 8) (X.drop 8 ++ more) hrest2
    rw [h8] at hfr
    have hr1 := rest_of_append f (X.take 8) (X.drop 8 ++ more) hrest2
    rw [h8] at hr1
    unfold decode_secret_file_data_loop
    rw [hfr]
    simp only [h8, ne_eq, not_true_eq_false, if_false]
    rw [decode_byte_from_lsb_fst]
    simp only
    rw [ih ⟨f.data, f.pos + 8⟩ _ (X.drop 8) more hr1 (by rw [List.length_drop]; omega)]
    simp only [extractBytes, List.append_assoc, List.singleton_append, Prod.mk.injEq, true_and,
      FILE.mk.injEq, and_true]
    omega

theorem length_extractBytes (n : Nat) : ∀ X : List Nat, (extractBytes n X).length = n := by
  induction n with
  | zero => intro X; rfl
  | succ n ih => intro X; simp [extractBytes, ih]

theorem decode_data_from_image_ok (output : List Nat) (size : Nat) (f : FILE)
    (X more : List Nat) (h : f.rest = X ++ more) (hX : X.length = 8 * size) :
    decode_data_from_image output size f
      = (Status.e_success, extractBytes size X ++ 0 :: output.drop (size + 1),
          ⟨f.data, f.pos + 8 * size⟩) := by
  unfold decode_data_from_image
  rw [decode_data_from_image_loop_ok size f [] X more h hX]
  simp

theorem cstr_append_nul (A B : List Nat) (hA : ∀ b ∈ A, b ≠ 0) : cstr (A ++ 0 :: B) = A := by
  induction A with
  | nil => simp [cstr]
  | cons a A ih =>
    have ha : a ≠ 0 := hA a (List.mem_cons_self _ _)
    have ih2 := ih (fun b hb => hA b (List.mem_cons_of_mem _ hb))
    unfold cstr at ih2 ⊢
    simp only [List.cons_append, List.takeWhile_cons, ha, ne_eq, not_false_eq_true, decide_True,
      if_true, ih2]

theorem set_append_nul (A B : List Nat) : (A ++ 0 :: B).set A.length 0 = A ++ 0 :: B := by
  induction A with
  | nil => rfl
  | cons a A ih => simp only [List.cons_append, List.length_cons, List.set_cons_succ, ih]

theorem long_val_small (v : Nat) (h : v < 9223372036854775808) : long_val v = (v : Int) := by
  unfold long_val
  have h2 : v % 18446744073709551616 = v := Nat.mod_eq_of_lt (by omega)
  rw [h2, if_pos h]

theorem int_to_long_small (v : Nat) (h : v < 2147483648) : int_to_long v = v := by
  unfold int_to_long
  have h2 : v % 4294967296 = v := Nat.mod_eq_of_lt (by omega)
  rw [h2, if_pos h]

theorem decode_size_embedSize (v : Nat) (c : List Nat) (hc : c.length = 32)
    (hv : v < 2147483648) : decode_size_from_lsb (embedSize v c) = (Status.e_success, v) := by
  unfold embedSize
  rw [decode_encode_size _ _ hc]
  unfold long_to_int
  rw [Nat.mod_mod, Nat.mod_eq_of_lt (by omega : v < 4294967296), int_to_long_small v hv]

theorem decode_magic_string_ok (M : List Nat) (d : DecodeInfo) (X more : List Nat)
    (h : d.fptr_stego_image.rest = X ++ more) (hX : X.length = 8 * strlen M)
    (hx : extractBytes (strlen M) X = cstr M) :
    decode_magic_string M d = (Status.e_success,
      { d with fptr_stego_image :=
          ⟨d.fptr_stego_image.data, d.fptr_stego_image.pos + 8 * strlen M⟩ }) := by
  unfold decode_magic_string
  rw [decode_data_from_image_ok _ _ _ X more h hX, hx]
  simp only [cstr_append_nul _ _ (cstr_no_nul M), ne_eq, not_true_eq_false, if_false]

theorem decode_secret_file_extn_size_ok (d : DecodeInfo) (X more : List Nat) (v : Nat)
    (h : d.fptr_stego_image.rest = X ++ more) (hX : X.length = 32)
    (hv : decode_size_from_lsb X = (Status.e_success, v)) (h1 : 1 ≤ v) (h2 : v < 50) :
    decode_secret_file_extn_size d = (Status.e_success,
      { d with
        fptr_stego_image := ⟨d.fptr_stego_image.data, d.fptr_stego_image.pos + 32⟩,
        size_secret_file_extn := v }) := by
  unfold decode_secret_file_extn_size
  have hfr := fread_of_append d.fptr_stego_image X more h
  rw [hX] at hfr
  rw [hfr]
  simp only [hX, ne_eq, not_true_eq_false, if_false, hv]
  rw [long_val_small v (by omega)]
  have hn : ¬ ((v : Int) ≤ 0 ∨ (v : Int) ≥ (MAX_FILE_SUFFIX_ : Int)) := by
    unfold MAX_FILE_SUFFIX_
    omega
  rw [if_neg hn]

theorem decode_secret_file_extn_ok (d : DecodeInfo) (X more E : List Nat)
    (h : d.fptr_stego_image.rest = X ++ more)
    (hs : d.size_secret_file_extn = E.length) (hE49 : E.length < 50)
    (hX : X.length = 8 * E.length)
    (hx : extractBytes E.length X = E) (hE : ∀ b ∈ E, b ≠ 0)
    (hopen : d.fopen_wb (cstr d.secret_fname ++ E) = true) :
    decode_secret_file_extn d = (Status.e_success,
      { d with
        extn_secret_file := E ++ 0 :: (List.replicate MAX_FILE_SUFFIX_ 0).drop (E.length + 1),
        fptr_stego_image := ⟨d.fptr_stego_image.data, d.fptr_stego_image.pos + 8 * E.length⟩,
        secret_fname := cstr d.secret_fname ++ E,
        secret_created := true, fptr_secret := [] }) := by
  unfold decode_secret_file_extn
  have hli : long_to_int d.size_secret_file_extn = E.length := by
    rw [hs]; unfold long_to_int; exact Nat.mod_eq_of_lt (by omega)
  rw [hli, decode_data_from_image_ok _ _ _ X more h hX, hx]
  simp only [hs, set_append_nul, strcat, cstr_append_nul _ _ hE, hopen, if_true]

theorem decode_secret_file_size_ok (d : DecodeInfo) (X more : List Nat) (v : Nat)
    (h : d.fptr_stego_image.rest = X ++ more) (hX : X.length = 32)
    (hv : decode_size_from_lsb X = (Status.e_success, v)) (h2 : v < 2147483648) :
    decode_secret_file_size d = (Status.e_success,
      { d with
        fptr_stego_image := ⟨d.fptr_stego_image.data, d.fptr_stego_image.pos + 32⟩,
        size_secret_file := v }) := by
  unfold decode_secret_file_size
  have hfr := fread_of_append d.fptr_stego_image X more h
  rw [hX] at hfr
  rw [hfr]
  simp only [hX, ne_eq, not_true_eq_false, if_false, hv]
  rw [long_val_small v (by omega)]
  have hn : ¬ ((v : Int) < 0) := by omega
  rw [if_neg hn]

theorem decode_secret_file_data_ok (d : DecodeInfo) (X more : List Nat)
    (h : d.fptr_stego_image.rest = X ++ more) (h1 : 1 ≤ d.size_secret_file)
    (h2 : d.size_secret_file < 2147483648) (hX : X.length = 8 * d.size_secret_file) :
    decode_secret_file_data d = (Status.e_success,
      { d with
        fptr_stego_image :=
          ⟨d.fptr_stego_image.data, d.fptr_stego_image.pos + 8 * d.size_secret_file⟩,
        fptr_secret := d.fptr_secret ++ extractBytes d.size_secret_file X }) := by
  unfold decode_secret_file_data
  rw [long_val_small _ (by omega)]
  have hn : ¬ ((d.size_secret_file : Int) ≤ 0) := by omega
  rw [if_neg hn]
  simp only [Int.toNat_ofNat]
  rw [decode_secret_file_data_loop_ok _ _ _ X more h hX]

theorem extractBytes_embedBytes_self (ds cs : List Nat) (h : 8 * ds.length ≤ cs.length)
    (hb : isBytes ds = true) : extractBytes ds.length (embedBytes ds cs) = ds := by
  have := extractBytes_embedBytes ds cs [] h
  rw [List.append_nil, map_mod_of_isBytes ds hb] at this
  exact this

/-- Decoding a stego image whose record holds a marker equal to `MAGIC_STRING`, an
extension of 1 to 49 non-NUL bytes and a payload of 1 to `2^31 - 1` bytes, when
the output file can be created. -/
theorem do_decoding_stegoImage (M : List Nat) (d : DecodeInfo) (E P img : List Nat)
    (hd : d.stego_image_file = some (stegoImage (cstr M) E P img))
    (hlen : 54 + recordLength (strlen M) E.length P.length ≤ img.length)
    (hMb : isBytes (cstr M) = true) (hEb : isBytes E = true) (hPb : isBytes P = true)
    (hE0 : ∀ b ∈ E, b ≠ 0) (hE1 : 1 ≤ E.length) (hE2 : E.length < 50)
    (hP1 : 1 ≤ P.length) (hP2 : P.length < 2147483648)
    (hopen : d.fopen_wb (cstr d.secret_fname ++ E) = true) :
    ∃ d1, do_decoding M d = (Status.e_success, d1)
      ∧ d1.fptr_secret = P
      ∧ d1.secret_fname = cstr d.secret_fname ++ E
      ∧ cstr d1.extn_secret_file = E
      ∧ d1.secret_created = true := by
  unfold recordLength at hlen
  have hm : (cstr M).length = strlen M := rfl
  have hL1 : (embedBytes (cstr M) ((img.drop 54).take (8 * (cstr M).length))).length
      = 8 * strlen M :=
    length_embedBytes _ _ (by rw [List.length_take, List.length_drop]; omega)
  have hL2 : (embedSize E.length (((img.drop 54).drop (8 * (cstr M).length)).take 32)).length
      = 32 := by
    rw [length_embedSize, List.length_take, List.length_drop, List.length_drop]; omega
  have hL3 : (embedBytes E
      (((img.drop 54).drop (8 * (cstr M).length + 32)).take (8 * E.length))).length
      = 8 * E.length :=
    length_embedBytes _ _ (by rw [List.length_take, List.length_drop, List.length_drop]; omega)
  have hL4 : (embedSize P.length
      (((img.drop 54).drop (8 * (cstr M).length + 32 + 8 * E.length)).take 32)).length = 32 := by
    rw [length_embedSize, List.length_take, List.length_drop, List.length_drop]; omega
  have hL5 : (embedBytes P
      (((img.drop 54).drop (8 * (cstr M).length + 32 + 8 * E.length + 32)).take
        (8 * P.length))).length = 8 * P.length :=
    length_embedBytes _ _ (by rw [List.length_take, List.length_drop, List.length_drop]; omega)
  have hx1 := extractBytes_embedBytes_self (cstr M) ((img.drop 54).take (8 * (cstr M).length))
    (by rw [List.length_take, List.length_drop]; omega) hMb
  have hx3 := extractBytes_embedBytes_self E
    (((img.drop 54).drop (8 * (cstr M).length + 32)).take (8 * E.length))
    (by rw [List.length_take, List.length_drop, List.length_drop]; omega) hEb
  have hx5 := extractBytes_embedBytes_self P
    (((img.drop 54).drop (8 * (cstr M).length + 32 + 8 * E.length + 32)).take (8 * P.length))
    (by rw [List.length_take, List.length_drop, List.length_drop]; omega) hPb
  have hv2 := decode_size_embedSize E.length
    (((img.drop 54).drop (8 * (cstr M).length)).take 32)
    (by rw [List.length_take, List.length_drop, List.length_drop]; omega) (by omega)
  have hv4 := decode_size_embedSize P.length
    (((img.drop 54).drop (8 * (cstr M).length + 32 + 8 * E.length)).take 32)
    (by rw [List.length_take, List.length_drop, List.length_drop]; omega) hP2
  have hr0 : (⟨stegoImage (cstr M) E P img, 54⟩ : FILE).rest
      = embedRecord (cstr M) E P (img.drop 54) :=
    drop_stegoImage _ _ _ _ (by omega)
  unfold embedRecord at hr0
  simp only [List.append_assoc] at hr0
  generalize embedBytes (cstr M) ((img.drop 54).take (8 * (cstr M).length)) = X1
    at hr0 hL1 hx1
  generalize embedSize E.length (((img.drop 54).drop (8 * (cstr M).length)).take 32) = X2
    at hr0 hL2 hv2
  generalize embedBytes E
    (((img.drop 54).drop (8 * (cstr M).length + 32)).take (8 * E.length)) = X3 at hr0 hL3 hx3
  generalize embedSize P.length
    (((img.drop 54).drop (8 * (cstr M).length + 32 + 8 * E.length)).take 32) = X4
    at hr0 hL4 hv4
  generalize embedBytes P
    (((img.drop 54).drop (8 * (cstr M).length + 32 + 8 * E.length + 32)).take (8 * P.length))
    = X5 at hr0 hL5 hx5
  generalize (img.drop 54).drop (recordLength (cstr M).length E.length P.length) = tail at hr0
  generalize stegoImage (cstr M) E P img = S at hd hr0
  have hr1 := rest_of_append _ _ _ hr0
  rw [hL1] at hr1
  have hr2 := rest_of_append _ _ _ hr1
  rw [hL2] at hr2
  have hr3 := rest_of_append _ _ _ hr2
  rw [hL3] at hr3
  have hr4 := rest_of_append _ _ _ hr3
  rw [hL4] at hr4
  simp only at hr1 hr2 hr3 hr4
  rw [hm] at hx1
  unfold do_decoding skip_bmp_header
  rw [hd]
  simp only [fseek]
  rw [decode_magic_string_ok M _ X1 _ hr0 hL1 hx1]
  simp only
  rw [decode_secret_file_extn_size_ok _ X2 _ E.length hr1 hL2 hv2 hE1 hE2]
  simp only
  rw [decode_secret_file_extn_ok _ X3 _ E hr2 rfl hE2 hL3 hx3 hE0 (by exact hopen)]
  simp only
  rw [decode_secret_file_size_ok _ X4 _ P.length hr3 hL4 hv4 hP2]
  simp only
  rw [decode_secret_file_data_ok _ X5 _ hr4 hP1 hP2 hL5]
  simp only [hx5, List.nil_append]
  exact ⟨_, rfl, rfl, rfl, cstr_append_nul _ _ hE0, rfl⟩

/-! ## Lemmas on the image capacity -/

theorem take_four (l : List Nat) (h : 4 ≤ l.length) :
    l.take 4 = [l.getD 0 0, l.getD 1 0, l.getD 2 0, l.getD 3 0] := by
  match l, h with
  | a :: b :: c :: d :: _, _ => rfl

theorem getD_drop (l : List Nat) (n k : Nat) : (l.drop n).getD k 0 = l.getD (n + k) 0 := by
  simp only [List.getD_eq_getElem?_getD, List.getElem?_drop]

theorem fread_uint_eq (f : FILE) (h : 4 ≤ f.rest.length) :
    fread_uint f = (some (le32 f.data f.pos), ⟨f.data, f.pos + 4⟩) := by
  unfold fread_uint
  rw [fread_of_le 4 f h, take_four _ h]
  simp only [FILE.rest, getD_drop, le32, Nat.add_zero]

theorem bmp_capacity_eq (img : List Nat) (h : 26 ≤ img.length) :
    bmp_capacity img = some (bmp_width img * bmp_height img * 3 % 4294967296) := by
  unfold bmp_capacity get_image_size_for_bmp
  rw [fread_uint_eq (fseek ⟨img, 0⟩ 18) (by simp only [FILE.rest, fseek, List.length_drop]; omega)]
  simp only [fseek]
  rw [fread_uint_eq ⟨img, 18 + 4⟩ (by simp only [FILE.rest, List.length_drop]; omega)]
  rfl

theorem isBytes_cstr (s : List Nat) (h : isBytes s = true) : isBytes (cstr s) = true := by
  simp only [isBytes, List.all_eq_true, decide_eq_true_eq] at h ⊢
  intro b hb
  exact h b ((List.takeWhile_prefix _).subset hb)

theorem take_mod_of_lt (sec : List Nat) (h : sec.length < 4294967296) :
    sec.take (sec.length % 4294967296) = sec := by
  rw [Nat.mod_eq_of_lt h, List.take_length]

/-! ## Claims on the whole pipeline -/

/-- C1 (as amended): for every payload `P` of 1 to `2^31 - 1` bytes, every
extension string of 1 to 49 characters and every carrier image on which
`do_encoding` succeeds, `do_decoding` on the image produced, run where the output
file base ++ extension can be created, succeeds, the reconstructed payload file
equals `P` byte for byte, and the decoded extension equals the extension that was
encoded (so the output is named base ++ extension). -/
theorem full_roundtrip (M : List Nat) (e e1 : EncodeInfo) (d : DecodeInfo) (P : List Nat)
    (hsec : e.secret_file = some P)
    (h : do_encoding M e = some (Status.e_success, e1))
    (hd : d.stego_image_file = some e1.fptr_stego_image)
    (hMb : isBytes (cstr M) = true) (hEb : isBytes (cstr e.extn_secret_file) = true)
    (hPb : isBytes P = true)
    (hP1 : 1 ≤ P.length) (hP2 : P.length < 2147483648)
    (hE1 : 1 ≤ strlen e.extn_secret_file) (hE2 : strlen e.extn_secret_file ≤ 49)
    (hopen : d.fopen_wb (cstr d.secret_fname ++ cstr e.extn_secret_file) = true) :
    ∃ d1, do_decoding M d = (Status.e_success, d1)
      ∧ d1.fptr_secret = P
      ∧ cstr d1.extn_secret_file = cstr e.extn_secret_file
      ∧ d1.secret_fname = cstr d.secret_fname ++ cstr e.extn_secret_file
      ∧ d1.secret_created = true := by
  obtain ⟨img, sec, cap, _, h2, _, _, hlen, hout⟩ := do_encoding_success M e e1 h
  rw [hsec] at h2
  simp only [Option.some.injEq] at h2
  subst h2
  have hmod : P.length % 4294967296 = P.length := Nat.mod_eq_of_lt (by omega)
  rw [hmod] at hlen
  rw [take_mod_of_lt P (by omega)] at hout
  rw [hout] at hd
  obtain ⟨d1, hd1, hs, hn, hx, hc⟩ := do_decoding_stegoImage M d (cstr e.extn_secret_file) P img
    hd hlen hMb hEb hPb (cstr_no_nul _) hE1 (by unfold strlen at hE2; omega) hP1 hP2 hopen
  exact ⟨d1, hd1, hs, hx, hn, hc⟩

set_option maxRecDepth 100000 in
theorem full_roundtrip_witness :
    ∃ d1, do_decoding sampleMagic (sampleDecodeInfo (sampleEncoded [200, 65]).fptr_stego_image)
        = (Status.e_success, d1)
      ∧ d1.fptr_secret = [200, 65]
      ∧ cstr d1.extn_secret_file = cstr (sampleEncodeInfo [200, 65]).extn_secret_file
      ∧ d1.secret_fname
        = cstr (sampleDecodeInfo (sampleEncoded [200, 65]).fptr_stego_image).secret_fname
          ++ cstr (sampleEncodeInfo [200, 65]).extn_secret_file
      ∧ d1.secret_created = true :=
  full_roundtrip sampleMagic (sampleEncodeInfo [200, 65]) (sampleEncoded [200, 65])
    (sampleDecodeInfo (sampleEncoded [200, 65]).fptr_stego_image) [200, 65] rfl (by decide) rfl
    (by decide) (by decide) (by decide) (by decide) (by decide) (by decide) (by decide)
    (by decide)

set_option maxRecDepth 100000 in
/-- C1 (counterexample): with the empty payload and the 8 x 8 sample carrier,
`check_capacity` and `do_encoding` succeed, and `do_decoding` on the image
produced fails, because `decode_secret_file_data` refuses a size that is not
positive. -/
theorem empty_payload_is_not_decoded :
    (check_capacity sampleMagic (open_files (sampleEncodeInfo [])).2).map Prod.fst
        = some Status.e_success
      ∧ (do_encoding sampleMagic (sampleEncodeInfo [])).map Prod.fst = some Status.e_success
      ∧ (do_decoding sampleMagic (sampleDecodeInfo (sampleEncoded []).fptr_stego_image)).1
        = Status.e_failure := by
  decide

set_option maxRecDepth 100000 in
/-- With an extension of 50 characters `do_encoding` succeeds and `do_decoding` on
its output fails: the reader accepts extension lengths 1 to 49 only. -/
theorem long_extension_is_not_decoded :
    (do_encoding sampleMagic sampleLongExtension).map Prod.fst = some Status.e_success
      ∧ (do_decoding sampleMagic (sampleDecodeInfo
          ((do_encoding sampleMagic sampleLongExtension).getD
            (Status.e_failure, sampleLongExtension)).2.fptr_stego_image)).1
        = Status.e_failure := by
  decide

set_option maxRecDepth 100000 in
/-- With a carrier shorter than its header announces `check_capacity` succeeds
and `do_encoding` fails at a short read. -/
theorem truncated_carrier_is_not_encoded :
    (check_capacity sampleMagic (open_files sampleTruncatedCarrier).2).map Prod.fst
        = some Status.e_success
      ∧ (do_encoding sampleMagic sampleTruncatedCarrier).map Prod.fst
        = some Status.e_failure := by
  decide

/-- C2 (as amended): for every carrier that really holds `54 + width * height * 3`
bytes and passes `check_capacity`, every payload `P` with `1 <= length P < 2^31`
and every extension `E` of 1 to 49 bytes without NUL, `do_encoding` succeeds, and
`do_decoding` on its output, run where the file base ++ `E` can be created,
succeeds, writes exactly the bytes of `P` and names the output file base ++ `E`.
The marker is a string of fewer than 16 characters, as the 16-byte buffer of
`decode_magic_string` requires. -/
theorem conditioned_roundtrip (M : List Nat) (e : EncodeInfo) (img P : List Nat)
    (hM : strlen M < 16) (hMb : isBytes M = true)
    (hsrc : e.src_image_file = some img) (hsec : e.secret_file = some P)
    (himg : img.length = 54 + bmp_width img * bmp_height img * 3)
    (hcheck : (check_capacity M (open_files e).2).map Prod.fst = some Status.e_success)
    (hP1 : 1 ≤ P.length) (hP2 : P.length < 2147483648) (hPb : isBytes P = true)
    (hE1 : 1 ≤ e.extn_secret_file.length) (hE2 : e.extn_secret_file.length ≤ 49)
    (hE0 : ∀ b ∈ e.extn_secret_file, b ≠ 0) (hEb : isBytes e.extn_secret_file = true) :
    ∃ e1, do_encoding M e = some (Status.e_success, e1)
      ∧ ∀ d : DecodeInfo, d.stego_image_file = some e1.fptr_stego_image →
          d.fopen_wb (cstr d.secret_fname ++ e.extn_secret_file) = true →
          ∃ d1, do_decoding M d = (Status.e_success, d1)
            ∧ d1.fptr_secret = P
            ∧ d1.secret_fname = cstr d.secret_fname ++ e.extn_secret_file
            ∧ d1.secret_created = true := by
  have hcs : cstr e.extn_secret_file = e.extn_secret_file := cstr_of_no_nul _ hE0
  have hsl : strlen e.extn_secret_file = e.extn_secret_file.length := by
    unfold strlen; rw [hcs]
  have hmod : P.length % 4294967296 = P.length := Nat.mod_eq_of_lt (by omega)
  have hcap := bmp_capacity_eq img (by omega)
  obtain ⟨g, _, hcc⟩ := check_capacity_eq M
    { e with fptr_src_image := ⟨img, 0⟩, fptr_secret := ⟨P, 0⟩,
             stego_image_created := true, fptr_stego_image := [] }
    (bmp_width img * bmp_height img * 3 % 4294967296) hcap
  rw [open_files_ok e img P hsrc hsec] at hcheck
  simp only at hcheck hcc
  rw [hcc] at hcheck
  have hfit : ¬ bmp_width img * bmp_height img * 3 % 4294967296
      < capacity_needed (strlen M) (strlen e.extn_secret_file) (P.length % 4294967296) := by
    intro hlt
    rw [if_pos hlt] at hcheck
    simp at hcheck
  have hneed : capacity_needed (strlen M) (strlen e.extn_secret_file) (P.length % 4294967296)
      = (strlen M + 4 + e.extn_secret_file.length + 4 + P.length) * 8 + 64 := by
    unfold capacity_needed
    rw [hmod, hsl]
    exact Nat.mod_eq_of_lt (by omega)
  have hle : bmp_width img * bmp_height img * 3 % 4294967296
      ≤ bmp_width img * bmp_height img * 3 := Nat.mod_le _ _
  have hlen : 54 + recordLength (strlen M) (strlen e.extn_secret_file)
      (P.length % 4294967296) ≤ img.length := by
    unfold recordLength
    rw [hmod, hsl]
    rw [hneed] at hfit
    omega
  obtain ⟨e1, he1, hout, _⟩ := do_encoding_ok M e img P _ hsrc hsec hcap hfit hlen
  refine ⟨e1, he1, ?_⟩
  intro d hd hopen
  rw [hout, take_mod_of_lt P (by omega), hcs] at hd
  rw [hmod, hsl] at hlen
  obtain ⟨d1, hd1, hs, hn, _, hc⟩ := do_decoding_stegoImage M d e.extn_secret_file P img hd
    hlen (isBytes_cstr M hMb) hEb hPb hE0 hE1 (by omega) hP1 hP2 hopen
  exact ⟨d1, hd1, hs, hn, hc⟩

set_option maxRecDepth 100000 in
theorem conditioned_roundtrip_witness :
    ∃ e1, do_encoding sampleMagic (sampleEncodeInfo [200, 65]) = some (Status.e_success, e1)
      ∧ ∀ d : DecodeInfo, d.stego_image_file = some e1.fptr_stego_image →
          d.fopen_wb (cstr d.secret_fname ++ (sampleEncodeInfo [200, 65]).extn_secret_file)
            = true →
          ∃ d1, do_decoding sampleMagic d = (Status.e_success, d1)
            ∧ d1.fptr_secret = [200, 65]
            ∧ d1.secret_fname
              = cstr d.secret_fname ++ (sampleEncodeInfo [200, 65]).extn_secret_file
            ∧ d1.secret_created = true :=
  conditioned_roundtrip sampleMagic (sampleEncodeInfo [200, 65]) sampleCarrier [200, 65]
    (by decide) (by decide) rfl rfl (by decide) (by decide) (by decide)
    (by decide) (by decide) (by decide) (by decide) (by decide) (by decide)

set_option maxRecDepth 100000 in
/-- C2 (counterexample): the 8 x 8 sample carrier holds `54 + 8 * 8 * 3` bytes and
passes `check_capacity` with a payload of two bytes and the extension ".d/x" of
four bytes without NUL; `do_encoding` succeeds, and `do_decoding` on its output,
run with the base name "out" in a directory without a subdirectory "out.d",
fails in `decode_secret_file_extn`, because the file "out.d/x" cannot be
created; no output file exists. -/
theorem slash_in_extension_is_not_decoded :
    sampleCarrier.length = 54 + bmp_width sampleCarrier * bmp_height sampleCarrier * 3
      ∧ (check_capacity sampleMagic (open_files sampleSlashExtension).2).map Prod.fst
        = some Status.e_success
      ∧ sampleSlashExtension.secret_file = some [200, 65]
      ∧ sampleSlashExtension.extn_secret_file = [46, 100, 47, 120]
      ∧ (∀ b ∈ sampleSlashExtension.extn_secret_file, b ≠ 0)
      ∧ (do_encoding sampleMagic sampleSlashExtension).map Prod.fst = some Status.e_success
      ∧ (sampleDecodeInfo sampleSlashEncoded.fptr_stego_image).fopen_wb
          ([111, 117, 116] ++ [46, 100, 47, 120]) = false
      ∧ (decode_secret_file_extn (decode_secret_file_extn_size (decode_magic_string sampleMagic
          (skip_bmp_header (sampleDecodeInfo sampleSlashEncoded.fptr_stego_image)).2).2).2).1
        = Status.e_failure
      ∧ (do_decoding sampleMagic (sampleDecodeInfo sampleSlashEncoded.fptr_stego_image)).1
        = Status.e_failure
      ∧ (do_decoding sampleMagic
          (sampleDecodeInfo sampleSlashEncoded.fptr_stego_image)).2.secret_created = false
      ∧ (do_decoding sampleMagic
          (sampleDecodeInfo sampleSlashEncoded.fptr_stego_image)).2.secret_fname
        = [111, 117, 116, 46, 100, 47, 120] := by
  decide

set_option maxRecDepth 100000 in
theorem header_preservation_witness :
    (sampleEncoded [200, 65]).fptr_stego_image.take 54 = sampleCarrier.take 54
      ∧ (sampleCarrier.take 54).length = 54 :=
  header_preservation sampleMagic (sampleEncodeInfo [200, 65]) (sampleEncoded [200, 65])
    sampleCarrier rfl (by decide)

set_option maxRecDepth 100000 in
theorem size_preservation_witness :
    (sampleEncoded [200, 65]).fptr_stego_image.length = sampleCarrier.length :=
  size_preservation sampleMagic (sampleEncodeInfo [200, 65]) (sampleEncoded [200, 65])
    sampleCarrier rfl (by decide)

/-- C10 (as amended): for every successful `do_encoding` with marker `M`,
extension `E` and payload `P`, with `n = length P mod 2^32` the payload size that
`get_file_size` returns as a `uint`, the least significant bits of the output
bytes from offset 54 on spell, in this order and without padding, the bits (most
significant first) of each byte of `M`, the 32-bit value `length E`, each byte of
`E`, the 32-bit value `n` and each of the first `n` bytes of `P`; the record
takes exactly `8 * length M + 32 + 8 * length E + 32 + 8 * n` output bytes, and
`n` is the size kept in `size_secret_file`.  When `length P < 2^32` the payload
part is the whole of `P` and the record takes `8 * length M + 32 + 8 * length E +
32 + 8 * length P` bytes. -/
theorem container_layout (M : List Nat) (e e1 : EncodeInfo) (P : List Nat)
    (hsec : e.secret_file = some P)
    (h : do_encoding M e = some (Status.e_success, e1)) :
    ((e1.fptr_stego_image.drop 54).take
        (8 * (cstr M).length + 32 + 8 * (cstr e.extn_secret_file).length + 32
          + 8 * (P.length % 4294967296))).map (fun b => b % 2)
      = recordBits (cstr M) (cstr e.extn_secret_file) (P.take (P.length % 4294967296))
    ∧ (recordBits (cstr M) (cstr e.extn_secret_file) (P.take (P.length % 4294967296))).length
      = 8 * (cstr M).length + 32 + 8 * (cstr e.extn_secret_file).length + 32
          + 8 * (P.length % 4294967296)
    ∧ 54 + (8 * (cstr M).length + 32 + 8 * (cstr e.extn_secret_file).length + 32
          + 8 * (P.length % 4294967296))
      ≤ e1.fptr_stego_image.length
    ∧ (P.take (P.length % 4294967296)).length = P.length % 4294967296
    ∧ e1.size_secret_file = P.length % 4294967296
    ∧ (P.length < 4294967296 →
        ((e1.fptr_stego_image.drop 54).take
            (8 * (cstr M).length + 32 + 8 * (cstr e.extn_secret_file).length + 32
              + 8 * P.length)).map (fun b => b % 2)
          = recordBits (cstr M) (cstr e.extn_secret_file) P
        ∧ (recordBits (cstr M) (cstr e.extn_secret_file) P).length
          = 8 * (cstr M).length + 32 + 8 * (cstr e.extn_secret_file).length + 32 + 8 * P.length
        ∧ 54 + (8 * (cstr M).length + 32 + 8 * (cstr e.extn_secret_file).length + 32
              + 8 * P.length)
          ≤ e1.fptr_stego_image.length) := by
  obtain ⟨img, sec, cap, hsrc, h2, hcap, hfit, hlen, hout⟩ := do_encoding_success M e e1 h
  have h2b := h2
  rw [hsec] at h2
  simp only [Option.some.injEq] at h2
  subst h2
  have hsize : e1.size_secret_file = P.length % 4294967296 := by
    obtain ⟨e2, he2, _, _, _, hs⟩ := do_encoding_ok M e img P cap hsrc h2b hcap hfit hlen
    rw [h] at he2
    simp only [Option.some.injEq, Prod.mk.injEq, true_and] at he2
    rw [he2]
    exact hs
  have htl : (P.take (P.length % 4294967296)).length = P.length % 4294967296 :=
    length_take_mod P
  have hlen2 : 54 + recordLength (cstr M).length (cstr e.extn_secret_file).length
      (P.take (P.length % 4294967296)).length ≤ img.length := by
    rw [htl]
    exact hlen
  have hl := length_stegoImage (cstr M) (cstr e.extn_secret_file)
    (P.take (P.length % 4294967296)) img hlen2
  have hrb := length_recordBits (cstr M) (cstr e.extn_secret_file)
    (P.take (P.length % 4294967296))
  have hlsb := lsb_embedRecord (cstr M) (cstr e.extn_secret_file)
    (P.take (P.length % 4294967296)) (img.drop 54) (by rw [List.length_drop]; omega)
  unfold recordLength at hlen2 hrb hlsb
  rw [htl] at hlen2 hrb hlsb
  rw [hout, drop_stegoImage _ _ _ _ (by omega)]
  refine ⟨hlsb, hrb, by rw [hl]; exact hlen2, htl, hsize, ?_⟩
  intro hP
  have hmod : P.length % 4294967296 = P.length := Nat.mod_eq_of_lt hP
  rw [hmod] at hlsb hrb hlen2 hl ⊢
  rw [List.take_length] at hlsb hrb hl ⊢
  exact ⟨hlsb, hrb, by rw [hl]; exact hlen2⟩

set_option maxRecDepth 100000 in
theorem container_layout_witness :
    (((sampleEncoded [200, 65]).fptr_stego_image.drop 54).take
        (8 * (cstr sampleMagic).length + 32
          + 8 * (cstr (sampleEncodeInfo [200, 65]).extn_secret_file).length + 32
          + 8 * ([200, 65].length % 4294967296))).map (fun b => b % 2)
      = recordBits (cstr sampleMagic) (cstr (sampleEncodeInfo [200, 65]).extn_secret_file)
          ([200, 65].take ([200, 65].length % 4294967296))
    ∧ (recordBits (cstr sampleMagic) (cstr (sampleEncodeInfo [200, 65]).extn_secret_file)
          ([200, 65].take ([200, 65].length % 4294967296))).length
      = 8 * (cstr sampleMagic).length + 32
          + 8 * (cstr (sampleEncodeInfo [200, 65]).extn_secret_file).length + 32
          + 8 * ([200, 65].length % 4294967296)
    ∧ 54 + (8 * (cstr sampleMagic).length + 32
          + 8 * (cstr (sampleEncodeInfo [200, 65]).extn_secret_file).length + 32
          + 8 * ([200, 65].length % 4294967296))
      ≤ (sampleEncoded [200, 65]).fptr_stego_image.length
    ∧ ([200, 65].take ([200, 65].length % 4294967296)).length = [200, 65].length % 4294967296
    ∧ (sampleEncoded [200, 65]).size_secret_file = [200, 65].length % 4294967296
    ∧ ([200, 65].length < 4294967296 →
        (((sampleEncoded [200, 65]).fptr_stego_image.drop 54).take
            (8 * (cstr sampleMagic).length + 32
              + 8 * (cstr (sampleEncodeInfo [200, 65]).extn_secret_file).length + 32
              + 8 * [200, 65].length)).map (fun b => b % 2)
          = recordBits (cstr sampleMagic) (cstr (sampleEncodeInfo [200, 65]).extn_secret_file)
              [200, 65]
        ∧ (recordBits (cstr sampleMagic) (cstr (sampleEncodeInfo [200, 65]).extn_secret_file)
              [200, 65]).length
          = 8 * (cstr sampleMagic).length + 32
              + 8 * (cstr (sampleEncodeInfo [200, 65]).extn_secret_file).length + 32
              + 8 * [200, 65].length
        ∧ 54 + (8 * (cstr sampleMagic).length + 32
              + 8 * (cstr (sampleEncodeInfo [200, 65]).extn_secret_file).length + 32
              + 8 * [200, 65].length)
          ≤ (sampleEncoded [200, 65]).fptr_stego_image.length) :=
  container_layout sampleMagic (sampleEncodeInfo [200, 65]) (sampleEncoded [200, 65]) [200, 65]
    rfl (by decide)

set_option maxRecDepth 100000 in
/-- On the 8 x 8 sample carrier and with the extension ".txt", every payload whose
length is 2 modulo `2^32` is encoded with success as a payload of two bytes: the
size kept is 2 and the output has the 246 bytes of the carrier. -/
theorem do_encoding_length_two_mod (P : List Nat) (hP : P.length % 4294967296 = 2) :
    ∃ e1, do_encoding sampleMagic (sampleEncodeInfo P) = some (Status.e_success, e1)
      ∧ e1.size_secret_file = 2 ∧ e1.fptr_stego_image.length = 246 := by
  have hcap : bmp_capacity sampleCarrier = some 192 := by decide
  have hfit : ¬ 192 < capacity_needed (strlen sampleMagic)
      (strlen (sampleEncodeInfo P).extn_secret_file) (P.length % 4294967296) := by
    rw [hP]
    show ¬ 192 < capacity_needed (strlen sampleMagic) (strlen [46, 116, 120, 116]) 2
    decide
  have hlen : 54 + recordLength (strlen sampleMagic)
      (strlen (sampleEncodeInfo P).extn_secret_file) (P.length % 4294967296)
      ≤ sampleCarrier.length := by
    rw [hP]
    show 54 + recordLength (strlen sampleMagic) (strlen [46, 116, 120, 116]) 2
      ≤ sampleCarrier.length
    decide
  obtain ⟨e1, h1, hout, _, _, hs⟩ := do_encoding_ok sampleMagic (sampleEncodeInfo P)
    sampleCarrier P 192 rfl rfl hcap hfit hlen
  refine ⟨e1, h1, by rw [hs, hP], ?_⟩
  rw [hout]
  have hl := length_stegoImage (cstr sampleMagic) (cstr (sampleEncodeInfo P).extn_secret_file)
    (P.take (P.length % 4294967296)) sampleCarrier (by rw [length_take_mod]; exact hlen)
  rw [hl]
  decide

/-- C10 (counterexample): with the 8 x 8 sample carrier, the extension ".txt" and
a payload `P` of `2^32 + 2` bytes, `do_encoding` succeeds with the payload size 2
and an output of 246 bytes, while 54 bytes and a record of `8 * length M + 32 +
8 * length E + 32 + 8 * length P` bytes do not fit into 246 bytes: the least
significant bits of the output do not spell the bits of each byte of `P`. -/
theorem oversized_payload_is_cut :
    ∃ e1, do_encoding sampleMagic (sampleEncodeInfo sampleOversizedPayload)
        = some (Status.e_success, e1)
      ∧ (sampleEncodeInfo sampleOversizedPayload).secret_file = some sampleOversizedPayload
      ∧ sampleOversizedPayload.length = 4294967298
      ∧ e1.size_secret_file = 2
      ∧ e1.fptr_stego_image.length = 246
      ∧ ¬ (54 + (8 * (cstr sampleMagic).length + 32
              + 8 * (cstr (sampleEncodeInfo sampleOversizedPayload).extn_secret_file).length
              + 32 + 8 * sampleOversizedPayload.length)
            ≤ e1.fptr_stego_image.length)
      ∧ ((e1.fptr_stego_image.drop 54).take
            (8 * (cstr sampleMagic).length + 32
              + 8 * (cstr (sampleEncodeInfo sampleOversizedPayload).extn_secret_file).length
              + 32 + 8 * sampleOversizedPayload.length)).map (fun b => b % 2)
          ≠ recordBits (cstr sampleMagic)
              (cstr (sampleEncodeInfo sampleOversizedPayload).extn_secret_file)
              sampleOversizedPayload := by
  have hl : sampleOversizedPayload.length = 4294967298 := List.length_replicate _ _
  obtain ⟨e1, h1, hs, hout⟩ := do_encoding_length_two_mod sampleOversizedPayload
    (by rw [hl])
  refine ⟨e1, h1, rfl, hl, hs, hout, ?_, ?_⟩
  · rw [hout, hl]
    omega
  · intro heq
    have h2 := congrArg List.length heq
    rw [List.length_map, List.length_take, List.length_drop, length_recordBits, hout, hl] at h2
    unfold recordLength at h2
    omega

/-! ## Lemmas on the least significant bits read by the reader -/

theorem getD_take (l : List Nat) (n i : Nat) (h : i < n) : (l.take n).getD i 0 = l.getD i 0 := by
  simp only [List.getD_eq_getElem?_getD, List.getElem?_take_of_lt h]

theorem lsbBits_drop (cs : List Nat) (a off : Nat) :
    lsbBits (cs.drop a) off = lsbBits cs (a + off) := by
  funext i
  simp only [lsbBits, getD_drop, Nat.add_assoc]

theorem lsbField_drop (cs : List Nat) (a off : Nat) :
    lsbField (cs.drop a) off = lsbField cs (a + off) := by
  simp only [lsbField, lsbBits_drop]

theorem lsbBytes_drop (n : Nat) (cs : List Nat) (a off : Nat) :
    lsbBytes n (cs.drop a) off = lsbBytes n cs (a + off) := by
  simp only [lsbBytes, lsbBits_drop, Nat.add_assoc]

theorem lsbField_lt (cs : List Nat) (off : Nat) : lsbField cs off < 4294967296 := by
  have h := msbValue_lt (lsbBits cs off) (fun i => Nat.mod_lt _ (by decide)) 32
  have e : (2 : Nat) ^ 32 = 4294967296 := by norm_num
  rw [e] at h
  exact h

theorem length_lsbBytes (n : Nat) (cs : List Nat) (off : Nat) : (lsbBytes n cs off).length = n := by
  simp [lsbBytes]

theorem decode_byte_from_lsb_take (cs : List Nat) :
    decode_byte_from_lsb (cs.take 8) = (Status.e_success, msbValue (lsbBits cs 0) 8) := by
  rw [decode_byte_from_lsb_eq]
  congr 1
  apply msbValue_congr
  intro i hi
  simp only [lsbBits, Nat.zero_add, getD_take _ _ _ hi]

theorem decode_size_from_lsb_take (cs : List Nat) :
    decode_size_from_lsb (cs.take 32) = (Status.e_success, int_to_long (lsbField cs 0)) := by
  rw [decode_size_from_lsb_eq]
  congr 2
  apply msbValue_congr
  intro i hi
  simp only [lsbBits, Nat.zero_add, getD_take _ _ _ hi]

theorem extractBytes_eq_lsbBytes (n : Nat) :
    ∀ cs : List Nat, extractBytes n cs = lsbBytes n cs 0 := by
  induction n with
  | zero => intro cs; rfl
  | succ n ih =>
    intro cs
    have h1 : lsbBytes (n + 1) cs 0
        = msbValue (lsbBits cs 0) 8 :: lsbBytes n (cs.drop 8) 0 := by
      rw [lsbBytes_drop]
      simp only [lsbBytes, List.range_succ_eq_map, List.map_cons, List.map_map, Nat.mul_zero,
        Nat.add_zero, Nat.zero_add]
      congr 1
      apply List.map_congr_left
      intro k _
      simp only [Function.comp, Nat.succ_eq_add_one]
      have e : 8 * (k + 1) = 8 + 8 * k := by omega
      rw [e]
    rw [h1, ← ih (cs.drop 8)]
    simp only [extractBytes, decode_byte_from_lsb_take]

theorem lsbBytes_take (n : Nat) (cs : List Nat) :
    lsbBytes n (cs.take (8 * n)) 0 = lsbBytes n cs 0 := by
  unfold lsbBytes
  apply List.map_congr_left
  intro k hk
  have hk2 : k < n := List.mem_range.mp hk
  apply msbValue_congr
  intro i hi
  simp only [lsbBits]
  rw [getD_take _ _ _ (by omega)]

theorem long_val_int_to_long (v : Nat) (hv : v < 4294967296) :
    long_val (int_to_long v)
      = if v < 2147483648 then (v : Int) else (v : Int) - 4294967296 := by
  by_cases h : v < 2147483648
  · rw [if_pos h, int_to_long_small v h, long_val_small v (by omega)]
  · have h1 : int_to_long v = v + 18446744069414584320 := by
      unfold int_to_long
      rw [Nat.mod_eq_of_lt hv, if_neg h]
    have h2 : (v + 18446744069414584320) % 18446744073709551616 = v + 18446744069414584320 :=
      Nat.mod_eq_of_lt (by omega)
    rw [if_neg h, h1]
    unfold long_val
    rw [h2, if_neg (by omega)]
    push_cast
    ring

theorem cstr_append_nul_left (A B : List Nat) : cstr (A ++ 0 :: B) = cstr A := by
  induction A with
  | nil => simp [cstr]
  | cons a A ih =>
    unfold cstr at ih ⊢
    by_cases ha : a = 0
    · simp [List.takeWhile_cons, ha]
    · simp only [List.cons_append, List.takeWhile_cons, ha, ne_eq, not_false_eq_true,
        decide_True, if_true, ih]

theorem cstr_eq_of_length (A : List Nat) (h : (cstr A).length = A.length) : cstr A = A :=
  List.IsPrefix.eq_of_length (List.takeWhile_prefix _) h

/-- Comparing a decoded buffer with the marker: `strcmp` finds the two strings
equal exactly when the decoded bytes are the marker. -/
theorem cstr_buffer_eq_iff (A B M : List Nat) (hA : A.length = strlen M) :
    cstr (A ++ 0 :: B) = cstr M ↔ A = cstr M := by
  rw [cstr_append_nul_left]
  constructor
  · intro h
    have hl : (cstr A).length = A.length := by rw [h, hA]; rfl
    rw [← cstr_eq_of_length A hl]
    exact h
  · intro h
    rw [h, cstr_cstr]

/-! ## Failing paths of the reader -/

theorem decode_data_from_image_loop_fail (n : Nat) :
    ∀ (f : FILE) (out : List Nat), f.rest.length < 8 * n →
      (decode_data_from_image_loop n f out).1 = Status.e_failure := by
  induction n with
  | zero => intro f out h; simp at h
  | succ n ih =>
    intro f out h
    unfold decode_data_from_image_loop
    by_cases h8 : 8 ≤ f.rest.length
    · rw [fread_of_le 8 f h8]
      have hl : (f.rest.take 8).length = 8 := by rw [List.length_take]; omega
      simp only [hl, ne_eq, not_true_eq_false, if_false]
      rw [decode_byte_from_lsb_fst]
      simp only
      apply ih
      rw [rest_advance, List.length_drop]
      omega
    · have hne := fread_length_of_lt 8 f (by omega)
      generalize fread 8 f = r at hne
      obtain ⟨b, g⟩ := r
      simp only at hne
      simp only [ne_eq, hne, not_false_eq_true, if_true]

theorem decode_secret_file_data_loop_fail (n : Nat) :
    ∀ (f : FILE) (secret : List Nat), f.rest.length < 8 * n →
      (decode_secret_file_data_loop n f secret).1 = Status.e_failure := by
  induction n with
  | zero => intro f out h; simp at h
  | succ n ih =>
    intro f out h
    unfold decode_secret_file_data_loop
    by_cases h8 : 8 ≤ f.rest.length
    · rw [fread_of_le 8 f h8]
      have hl : (f.rest.take 8).length = 8 := by rw [List.length_take]; omega
      simp only [hl, ne_eq, not_true_eq_false, if_false]
      rw [decode_byte_from_lsb_fst]
      simp only
      apply ih
      rw [rest_advance, List.length_drop]
      omega
    · have hne := fread_length_of_lt 8 f (by omega)
      generalize fread 8 f = r at hne
      obtain ⟨b, g⟩ := r
      simp only at hne
      simp only [ne_eq, hne, not_false_eq_true, if_true]

theorem decode_data_from_image_fail (output : List Nat) (size : Nat) (f : FILE)
    (h : f.rest.length < 8 * size) :
    (decode_data_from_image output size f).1 = Status.e_failure := by
  unfold decode_data_from_image
  have := decode_data_from_image_loop_fail size f [] h
  generalize decode_data_from_image_loop size f [] = r at this
  obtain ⟨st, out, g⟩ := r
  simp only at this
  subst this
  rfl

/-- Closed form of `decode_data_from_image` when enough bytes are left. -/
theorem decode_data_from_image_rest (output : List Nat) (size : Nat) (f : FILE)
    (h : 8 * size ≤ f.rest.length) :
    decode_data_from_image output size f
      = (Status.e_success, lsbBytes size f.rest 0 ++ 0 :: output.drop (size + 1),
          ⟨f.data, f.pos + 8 * size⟩) := by
  rw [decode_data_from_image_ok output size f (f.rest.take (8 * size))
    (f.rest.drop (8 * size)) (List.take_append_drop _ _).symm
    (by rw [List.length_take]; omega)]
  rw [extractBytes_eq_lsbBytes, lsbBytes_take]


/-! ## Steps of the reader in closed form -/

theorem decode_magic_string_short (M : List Nat) (d : DecodeInfo)
    (h : d.fptr_stego_image.rest.length < 8 * strlen M) :
    (decode_magic_string M d).1 = Status.e_failure := by
  unfold decode_magic_string
  have := decode_data_from_image_fail (List.replicate 16 0) (strlen M) d.fptr_stego_image h
  generalize decode_data_from_image (List.replicate 16 0) (strlen M) d.fptr_stego_image = r
    at this
  obtain ⟨st, out, g⟩ := r
  simp only at this
  subst this
  rfl

theorem decode_magic_string_match (M : List Nat) (d : DecodeInfo)
    (h1 : 8 * strlen M ≤ d.fptr_stego_image.rest.length)
    (h2 : lsbBytes (strlen M) d.fptr_stego_image.rest 0 = cstr M) :
    decode_magic_string M d = (Status.e_success,
      { d with fptr_stego_image :=
          ⟨d.fptr_stego_image.data, d.fptr_stego_image.pos + 8 * strlen M⟩ }) := by
  unfold decode_magic_string
  rw [decode_data_from_image_rest _ _ _ h1]
  simp only
  rw [if_neg (by
    rw [ne_eq, not_not]
    exact (cstr_buffer_eq_iff _ _ M (length_lsbBytes _ _ _)).mpr h2)]

theorem decode_magic_string_mismatch (M : List Nat) (d : DecodeInfo)
    (h1 : 8 * strlen M ≤ d.fptr_stego_image.rest.length)
    (h2 : lsbBytes (strlen M) d.fptr_stego_image.rest 0 ≠ cstr M) :
    (decode_magic_string M d).1 = Status.e_failure := by
  unfold decode_magic_string
  rw [decode_data_from_image_rest _ _ _ h1]
  simp only
  rw [if_pos (by
    intro h
    exact h2 ((cstr_buffer_eq_iff _ _ M (length_lsbBytes _ _ _)).mp h))]

theorem decode_secret_file_extn_size_short (d : DecodeInfo)
    (h : d.fptr_stego_image.rest.length < 32) :
    (decode_secret_file_extn_size d).1 = Status.e_failure := by
  unfold decode_secret_file_extn_size
  have hne := fread_length_of_lt 32 d.fptr_stego_image h
  generalize fread 32 d.fptr_stego_image = r at hne
  obtain ⟨b, g⟩ := r
  simp only at hne
  simp only [ne_eq, hne, not_false_eq_true, if_true]

/-- After a full read `decode_secret_file_extn_size` stores the sign extension of
the field and accepts it when the field is between 1 and 49. -/
theorem decode_secret_file_extn_size_rest (d : DecodeInfo)
    (h : 32 ≤ d.fptr_stego_image.rest.length) :
    decode_secret_file_extn_size d
      = (if 1 ≤ lsbField d.fptr_stego_image.rest 0 ∧ lsbField d.fptr_stego_image.rest 0 ≤ 49
          then Status.e_success else Status.e_failure,
        { d with
          fptr_stego_image := ⟨d.fptr_stego_image.data, d.fptr_stego_image.pos + 32⟩,
          size_secret_file_extn := int_to_long (lsbField d.fptr_stego_image.rest 0) }) := by
  unfold decode_secret_file_extn_size
  rw [fread_of_le 32 _ h]
  have hl : (d.fptr_stego_image.rest.take 32).length = 32 := by rw [List.length_take]; omega
  simp only [hl, ne_eq, not_true_eq_false, if_false, decode_size_from_lsb_take]
  have hlt := lsbField_lt d.fptr_stego_image.rest 0
  rw [long_val_int_to_long _ hlt]
  generalize lsbField d.fptr_stego_image.rest 0 = v at hlt ⊢
  unfold MAX_FILE_SUFFIX_
  by_cases hv : v < 2147483648
  · rw [if_pos hv]
    by_cases hr : 1 ≤ v ∧ v ≤ 49
    · rw [if_neg (by omega), if_pos hr]
    · rw [if_pos (by omega), if_neg hr]
  · rw [if_neg hv, if_pos (by omega), if_neg (by omega)]

theorem decode_secret_file_extn_short (d : DecodeInfo)
    (h : d.fptr_stego_image.rest.length < 8 * long_to_int d.size_secret_file_extn) :
    (decode_secret_file_extn d).1 = Status.e_failure := by
  unfold decode_secret_file_extn
  have := decode_data_from_image_fail (List.replicate MAX_FILE_SUFFIX_ 0)
    (long_to_int d.size_secret_file_extn) d.fptr_stego_image h
  generalize decode_data_from_image (List.replicate MAX_FILE_SUFFIX_ 0)
    (long_to_int d.size_secret_file_extn) d.fptr_stego_image = r at this
  obtain ⟨st, out, g⟩ := r
  simp only at this
  subst this
  rfl

/-- With an extension size below 50 and enough bytes left, `decode_secret_file_extn`
appends to the output name the decoded bytes up to their first NUL and fails when
the file of this name cannot be opened for writing. -/
theorem decode_secret_file_extn_not_created (d : DecodeInfo)
    (hs : d.size_secret_file_extn < 50)
    (h : 8 * d.size_secret_file_extn ≤ d.fptr_stego_image.rest.length)
    (hopen : ¬ d.fopen_wb (cstr d.secret_fname
      ++ cstr (lsbBytes d.size_secret_file_extn d.fptr_stego_image.rest 0)) = true) :
    decode_secret_file_extn d = (Status.e_failure,
      { d with
        extn_secret_file := lsbBytes d.size_secret_file_extn d.fptr_stego_image.rest 0
          ++ 0 :: (List.replicate MAX_FILE_SUFFIX_ 0).drop (d.size_secret_file_extn + 1),
        fptr_stego_image :=
          ⟨d.fptr_stego_image.data, d.fptr_stego_image.pos + 8 * d.size_secret_file_extn⟩,
        secret_fname := cstr d.secret_fname
          ++ cstr (lsbBytes d.size_secret_file_extn d.fptr_stego_image.rest 0) }) := by
  unfold decode_secret_file_extn
  have hli : long_to_int d.size_secret_file_extn = d.size_secret_file_extn := by
    unfold long_to_int; exact Nat.mod_eq_of_lt (by omega)
  rw [hli, decode_data_from_image_rest _ _ _ h]
  simp only
  have hset : (lsbBytes d.size_secret_file_extn d.fptr_stego_image.rest 0
      ++ 0 :: (List.replicate MAX_FILE_SUFFIX_ 0).drop (d.size_secret_file_extn + 1)).set
        d.size_secret_file_extn 0
      = lsbBytes d.size_secret_file_extn d.fptr_stego_image.rest 0
        ++ 0 :: (List.replicate MAX_FILE_SUFFIX_ 0).drop (d.size_secret_file_extn + 1) := by
    have := set_append_nul (lsbBytes d.size_secret_file_extn d.fptr_stego_image.rest 0)
      ((List.replicate MAX_FILE_SUFFIX_ 0).drop (d.size_secret_file_extn + 1))
    rw [length_lsbBytes] at this
    exact this
  rw [hset]
  simp only [strcat, cstr_append_nul_left]
  rw [if_neg hopen]

/-- With an extension size below 50 and enough bytes left, `decode_secret_file_extn`
appends to the output name the decoded bytes up to their first NUL and opens the
output file, when the file of this name can be opened for writing. -/
theorem decode_secret_file_extn_rest (d : DecodeInfo)
    (hs : d.size_secret_file_extn < 50)
    (h : 8 * d.size_secret_file_extn ≤ d.fptr_stego_image.rest.length)
    (hopen : d.fopen_wb (cstr d.secret_fname
      ++ cstr (lsbBytes d.size_secret_file_extn d.fptr_stego_image.rest 0)) = true) :
    decode_secret_file_extn d = (Status.e_success,
      { d with
        extn_secret_file := lsbBytes d.size_secret_file_extn d.fptr_stego_image.rest 0
          ++ 0 :: (List.replicate MAX_FILE_SUFFIX_ 0).drop (d.size_secret_file_extn + 1),
        fptr_stego_image :=
          ⟨d.fptr_stego_image.data, d.fptr_stego_image.pos + 8 * d.size_secret_file_extn⟩,
        secret_fname := cstr d.secret_fname
          ++ cstr (lsbBytes d.size_secret_file_extn d.fptr_stego_image.rest 0),
        secret_created := true, fptr_secret := [] }) := by
  unfold decode_secret_file_extn
  have hli : long_to_int d.size_secret_file_extn = d.size_secret_file_extn := by
    unfold long_to_int; exact Nat.mod_eq_of_lt (by omega)
  rw [hli, decode_data_from_image_rest _ _ _ h]
  simp only
  have hset : (lsbBytes d.size_secret_file_extn d.fptr_stego_image.rest 0
      ++ 0 :: (List.replicate MAX_FILE_SUFFIX_ 0).drop (d.size_secret_file_extn + 1)).set
        d.size_secret_file_extn 0
      = lsbBytes d.size_secret_file_extn d.fptr_stego_image.rest 0
        ++ 0 :: (List.replicate MAX_FILE_SUFFIX_ 0).drop (d.size_secret_file_extn + 1) := by
    have := set_append_nul (lsbBytes d.size_secret_file_extn d.fptr_stego_image.rest 0)
      ((List.replicate MAX_FILE_SUFFIX_ 0).drop (d.size_secret_file_extn + 1))
    rw [length_lsbBytes] at this
    exact this
  rw [hset]
  simp only [strcat, cstr_append_nul_left]
  rw [if_pos hopen]

theorem decode_secret_file_size_short (d : DecodeInfo)
    (h : d.fptr_stego_image.rest.length < 32) :
    (decode_secret_file_size d).1 = Status.e_failure := by
  unfold decode_secret_file_size
  have hne := fread_length_of_lt 32 d.fptr_stego_image h
  generalize fread 32 d.fptr_stego_image = r at hne
  obtain ⟨b, g⟩ := r
  simp only at hne
  simp only [ne_eq, hne, not_false_eq_true, if_true]

/-- After a full read `decode_secret_file_size` stores the sign extension of the
field and accepts it when its top bit is clear. -/
theorem decode_secret_file_size_rest (d : DecodeInfo)
    (h : 32 ≤ d.fptr_stego_image.rest.length) :
    decode_secret_file_size d
      = (if lsbField d.fptr_stego_image.rest 0 < 2147483648
          then Status.e_success else Status.e_failure,
        { d with
          fptr_stego_image := ⟨d.fptr_stego_image.data, d.fptr_stego_image.pos + 32⟩,
          size_secret_file := int_to_long (lsbField d.fptr_stego_image.rest 0) }) := by
  unfold decode_secret_file_size
  rw [fread_of_le 32 _ h]
  have hl : (d.fptr_stego_image.rest.take 32).length = 32 := by rw [List.length_take]; omega
  simp only [hl, ne_eq, not_true_eq_false, if_false, decode_size_from_lsb_take]
  have hlt := lsbField_lt d.fptr_stego_image.rest 0
  rw [long_val_int_to_long _ hlt]
  generalize lsbField d.fptr_stego_image.rest 0 = v at hlt ⊢
  by_cases hv : v < 2147483648
  · rw [if_pos hv, if_neg (by omega), if_pos hv]
  · rw [if_neg hv, if_pos (by omega), if_neg hv]

theorem decode_secret_file_data_not_positive (d : DecodeInfo)
    (h : long_val d.size_secret_file ≤ 0) :
    decode_secret_file_data d = (Status.e_failure, d) := by
  unfold decode_secret_file_data
  rw [if_pos h]

theorem decode_secret_file_data_short (d : DecodeInfo)
    (h2 : d.size_secret_file < 2147483648)
    (h : d.fptr_stego_image.rest.length < 8 * d.size_secret_file) :
    (decode_secret_file_data d).1 = Status.e_failure := by
  unfold decode_secret_file_data
  rw [long_val_small _ (by omega)]
  by_cases h0 : (d.size_secret_file : Int) ≤ 0
  · rw [if_pos h0]
  · rw [if_neg h0]
    simp only [Int.toNat_ofNat]
    have := decode_secret_file_data_loop_fail d.size_secret_file d.fptr_stego_image
      d.fptr_secret h
    generalize decode_secret_file_data_loop d.size_secret_file d.fptr_stego_image
      d.fptr_secret = r at this
    obtain ⟨st, g, out⟩ := r
    exact this

theorem decode_secret_file_data_rest (d : DecodeInfo)
    (h1 : 1 ≤ d.size_secret_file) (h2 : d.size_secret_file < 2147483648)
    (h : 8 * d.size_secret_file ≤ d.fptr_stego_image.rest.length) :
    decode_secret_file_data d = (Status.e_success,
      { d with
        fptr_stego_image :=
          ⟨d.fptr_stego_image.data, d.fptr_stego_image.pos + 8 * d.size_secret_file⟩,
        fptr_secret := d.fptr_secret ++ lsbBytes d.size_secret_file d.fptr_stego_image.rest 0 })
    := by
  rw [decode_secret_file_data_ok d (d.fptr_stego_image.rest.take (8 * d.size_secret_file))
    (d.fptr_stego_image.rest.drop (8 * d.size_secret_file)) (List.take_append_drop _ _).symm
    h1 h2 (by rw [List.length_take]; omega)]
  rw [extractBytes_eq_lsbBytes, lsbBytes_take]


/-! ## The reader on a whole image -/

theorem rest_mk (img : List Nat) (p : Nat) : (⟨img, p⟩ : FILE).rest = img.drop p := rfl

theorem do_decoding_no_file (M : List Nat) (d : DecodeInfo) (hd : d.stego_image_file = none) :
    do_decoding M d = (Status.e_failure, d) := by
  unfold do_decoding skip_bmp_header
  rw [hd]

/-- Decoding an image whose pixel region holds the marker, an extension length
of 1 to 49, a payload length of 1 to `2^31 - 1` and all the bytes these announce,
when the output file can be created. -/
theorem do_decoding_valid (M : List Nat) (d : DecodeInfo) (img : List Nat)
    (hd : d.stego_image_file = some img)
    (hmark : lsbBytes (strlen M) (img.drop 54) 0 = cstr M)
    (he1 : 1 ≤ extnLen (strlen M) (img.drop 54)) (he2 : extnLen (strlen M) (img.drop 54) ≤ 49)
    (hp1 : 1 ≤ payloadLen (strlen M) (img.drop 54))
    (hp2 : payloadLen (strlen M) (img.drop 54) < 2147483648)
    (hlen : 8 * strlen M + 32 + 8 * extnLen (strlen M) (img.drop 54) + 32
      + 8 * payloadLen (strlen M) (img.drop 54) ≤ (img.drop 54).length)
    (hopen : d.fopen_wb (cstr d.secret_fname ++ cstr (extnBytes (strlen M) (img.drop 54)))
      = true) :
    ∃ d1, do_decoding M d = (Status.e_success, d1)
      ∧ d1.fptr_secret = payloadBytes (strlen M) (img.drop 54)
      ∧ d1.secret_fname = cstr d.secret_fname ++ cstr (extnBytes (strlen M) (img.drop 54))
      ∧ d1.secret_created = true
      ∧ d1.size_secret_file_extn = extnLen (strlen M) (img.drop 54)
      ∧ d1.size_secret_file = payloadLen (strlen M) (img.drop 54) := by
  rw [List.length_drop] at hlen
  have hve : lsbField (⟨img, 54 + 8 * strlen M⟩ : FILE).rest 0
      = extnLen (strlen M) (img.drop 54) := by
    simp only [rest_mk, extnLen, lsbField_drop, Nat.add_zero]
  generalize hvedef : extnLen (strlen M) (img.drop 54) = ve at *
  have hn : lsbField (⟨img, 54 + 8 * strlen M + 32 + 8 * ve⟩ : FILE).rest 0
      = payloadLen (strlen M) (img.drop 54) := by
    simp only [rest_mk, payloadLen, lsbField_drop, Nat.add_zero, hvedef, Nat.add_assoc]
  have hx : lsbBytes ve (⟨img, 54 + 8 * strlen M + 32⟩ : FILE).rest 0
      = extnBytes (strlen M) (img.drop 54) := by
    simp only [rest_mk, extnBytes, lsbBytes_drop, Nat.add_zero, hvedef, Nat.add_assoc]
  have hy : ∀ n, lsbBytes n (⟨img, 54 + 8 * strlen M + 32 + 8 * ve + 32⟩ : FILE).rest 0
      = lsbBytes n (img.drop 54) (8 * strlen M + 32 + 8 * ve + 32) := by
    intro n
    simp only [rest_mk, lsbBytes_drop, Nat.add_zero, Nat.add_assoc]
  have hpb : payloadBytes (strlen M) (img.drop 54)
      = lsbBytes (payloadLen (strlen M) (img.drop 54)) (img.drop 54)
          (8 * strlen M + 32 + 8 * ve + 32) := by
    simp only [payloadBytes, hvedef]
  generalize payloadLen (strlen M) (img.drop 54) = n at *
  unfold do_decoding skip_bmp_header
  rw [hd]
  simp only [fseek]
  rw [decode_magic_string_match M _ (by simp only [rest_mk, List.length_drop]; omega)
    (by exact hmark)]
  simp only
  rw [decode_secret_file_extn_size_rest _ (by simp only [rest_mk, List.length_drop]; omega)]
  simp only [hve, int_to_long_small ve (by omega)]
  rw [if_pos ⟨he1, he2⟩]
  simp only
  rw [decode_secret_file_extn_rest _ (by simp only; omega)
    (by simp only [rest_mk, List.length_drop]; omega)
    (by simp only [hx]; exact hopen)]
  simp only [hx]
  rw [decode_secret_file_size_rest _ (by simp only [rest_mk, List.length_drop]; omega)]
  simp only [hn, int_to_long_small n hp2]
  rw [if_pos hp2]
  simp only
  rw [decode_secret_file_data_rest _ (by exact hp1) (by exact hp2)
    (by simp only [rest_mk, List.length_drop]; omega)]
  simp only [hy, List.nil_append]
  exact ⟨_, rfl, by rw [hpb], rfl, rfl, rfl, rfl⟩

theorem match_failure_decode (r : Status × DecodeInfo) (h : r.1 = Status.e_failure)
    (k : DecodeInfo → Status × DecodeInfo) :
    (match r with
      | (Status.e_failure, d2) => (Status.e_failure, d2)
      | (Status.e_success, d2) => k d2).1 = Status.e_failure := by
  obtain ⟨st, d2⟩ := r
  simp only at h
  subst h
  rfl

/-- The reader fails on every run that misses one of the conditions of
`do_decoding_valid`. -/
theorem do_decoding_invalid (M : List Nat) (d : DecodeInfo) (img : List Nat)
    (hd : d.stego_image_file = some img)
    (h : ¬ (8 * strlen M + 32 + 8 * extnLen (strlen M) (img.drop 54) + 32
          + 8 * payloadLen (strlen M) (img.drop 54) ≤ (img.drop 54).length
        ∧ lsbBytes (strlen M) (img.drop 54) 0 = cstr M
        ∧ 1 ≤ extnLen (strlen M) (img.drop 54) ∧ extnLen (strlen M) (img.drop 54) ≤ 49
        ∧ 1 ≤ payloadLen (strlen M) (img.drop 54)
        ∧ payloadLen (strlen M) (img.drop 54) < 2147483648
        ∧ d.fopen_wb (cstr d.secret_fname ++ cstr (extnBytes (strlen M) (img.drop 54)))
          = true)) :
    (do_decoding M d).1 = Status.e_failure := by
  rw [List.length_drop] at h
  have hx : lsbBytes (extnLen (strlen M) (img.drop 54))
      (⟨img, 54 + 8 * strlen M + 32⟩ : FILE).rest 0
      = extnBytes (strlen M) (img.drop 54) := by
    simp only [rest_mk, extnBytes, lsbBytes_drop, Nat.add_zero, Nat.add_assoc]
  have hve : lsbField (⟨img, 54 + 8 * strlen M⟩ : FILE).rest 0
      = extnLen (strlen M) (img.drop 54) := by
    simp only [rest_mk, extnLen, lsbField_drop, Nat.add_zero]
  generalize hvedef : extnLen (strlen M) (img.drop 54) = ve at *
  have hn : lsbField (⟨img, 54 + 8 * strlen M + 32 + 8 * ve⟩ : FILE).rest 0
      = payloadLen (strlen M) (img.drop 54) := by
    simp only [rest_mk, payloadLen, lsbField_drop, Nat.add_zero, hvedef, Nat.add_assoc]
  generalize payloadLen (strlen M) (img.drop 54) = n at *
  unfold do_decoding skip_bmp_header
  rw [hd]
  simp only [fseek]
  by_cases c1 : 8 * strlen M ≤ img.length - 54
  swap
  · apply match_failure_decode
    apply decode_magic_string_short
    simp only [rest_mk, List.length_drop]; omega
  by_cases c2 : lsbBytes (strlen M) (img.drop 54) 0 = cstr M
  swap
  · apply match_failure_decode
    apply decode_magic_string_mismatch
    · simp only [rest_mk, List.length_drop]; omega
    · exact c2
  rw [decode_magic_string_match M _ (by simp only [rest_mk, List.length_drop]; omega)
    (by exact c2)]
  simp only
  by_cases c3 : 8 * strlen M + 32 ≤ img.length - 54
  swap
  · apply match_failure_decode
    apply decode_secret_file_extn_size_short
    simp only [rest_mk, List.length_drop]; omega
  rw [decode_secret_file_extn_size_rest _ (by simp only [rest_mk, List.length_drop]; omega)]
  simp only [hve]
  by_cases c4 : 1 ≤ ve ∧ ve ≤ 49
  swap
  · rw [if_neg c4]
  rw [if_pos c4]
  simp only [int_to_long_small ve (by omega)]
  by_cases c5 : 8 * strlen M + 32 + 8 * ve ≤ img.length - 54
  swap
  · apply match_failure_decode
    apply decode_secret_file_extn_short
    have hli : long_to_int ve = ve := by
      unfold long_to_int; exact Nat.mod_eq_of_lt (by omega)
    simp only [rest_mk, List.length_drop, hli]; omega
  by_cases c5b : d.fopen_wb (cstr d.secret_fname ++ cstr (extnBytes (strlen M) (img.drop 54)))
      = true
  swap
  · rw [decode_secret_file_extn_not_created _ (by simp only; omega)
      (by simp only [rest_mk, List.length_drop]; omega)
      (by simp only [hx]; exact c5b)]
  rw [decode_secret_file_extn_rest _ (by simp only; omega)
    (by simp only [rest_mk, List.length_drop]; omega)
    (by simp only [hx]; exact c5b)]
  simp only
  by_cases c6 : 8 * strlen M + 32 + 8 * ve + 32 ≤ img.length - 54
  swap
  · apply match_failure_decode
    apply decode_secret_file_size_short
    simp only [rest_mk, List.length_drop]; omega
  rw [decode_secret_file_size_rest _ (by simp only [rest_mk, List.length_drop]; omega)]
  simp only [hn]
  by_cases c7 : n < 2147483648
  swap
  · rw [if_neg c7]
  rw [if_pos c7]
  simp only [int_to_long_small n c7]
  by_cases c8 : 1 ≤ n
  swap
  · have hn0 : n = 0 := by omega
    subst hn0
    have h0 : long_val 0 ≤ 0 := by decide
    rw [decode_secret_file_data_not_positive _ (by exact h0)]
  apply decode_secret_file_data_short _ (by exact c7)
  simp only [rest_mk, List.length_drop]
  have hfin : ¬ (8 * strlen M + 32 + 8 * ve + 32 + 8 * n ≤ img.length - 54) :=
    fun hle => h ⟨hle, c2, c4.1, c4.2, c8, c7, c5b⟩
  omega

/-- What a successful run of `do_decoding` implies. -/
theorem do_decoding_success (M : List Nat) (d d1 : DecodeInfo)
    (h : do_decoding M d = (Status.e_success, d1)) :
    ∃ img, d.stego_image_file = some img
      ∧ 8 * strlen M + 32 + 8 * extnLen (strlen M) (img.drop 54) + 32
          + 8 * payloadLen (strlen M) (img.drop 54) ≤ (img.drop 54).length
      ∧ lsbBytes (strlen M) (img.drop 54) 0 = cstr M
      ∧ 1 ≤ extnLen (strlen M) (img.drop 54) ∧ extnLen (strlen M) (img.drop 54) ≤ 49
      ∧ 1 ≤ payloadLen (strlen M) (img.drop 54)
      ∧ payloadLen (strlen M) (img.drop 54) < 2147483648
      ∧ d1.fptr_secret = payloadBytes (strlen M) (img.drop 54)
      ∧ d1.secret_fname = cstr d.secret_fname ++ cstr (extnBytes (strlen M) (img.drop 54))
      ∧ d1.secret_created = true
      ∧ d.fopen_wb (cstr d.secret_fname ++ cstr (extnBytes (strlen M) (img.drop 54)))
        = true := by
  cases hd : d.stego_image_file with
  | none =>
    rw [do_decoding_no_file M d hd] at h
    simp at h
  | some img =>
    by_cases hc : 8 * strlen M + 32 + 8 * extnLen (strlen M) (img.drop 54) + 32
          + 8 * payloadLen (strlen M) (img.drop 54) ≤ (img.drop 54).length
        ∧ lsbBytes (strlen M) (img.drop 54) 0 = cstr M
        ∧ 1 ≤ extnLen (strlen M) (img.drop 54) ∧ extnLen (strlen M) (img.drop 54) ≤ 49
        ∧ 1 ≤ payloadLen (strlen M) (img.drop 54)
        ∧ payloadLen (strlen M) (img.drop 54) < 2147483648
        ∧ d.fopen_wb (cstr d.secret_fname ++ cstr (extnBytes (strlen M) (img.drop 54)))
          = true
    · obtain ⟨hlen, hmark, he1, he2, hp1, hp2, hopen⟩ := hc
      obtain ⟨d2, h2, hs, hn, hcr, _⟩ :=
        do_decoding_valid M d img hd hmark he1 he2 hp1 hp2 hlen hopen
      rw [h2] at h
      simp only [Prod.mk.injEq, true_and] at h
      subst h
      exact ⟨img, rfl, hlen, hmark, he1, he2, hp1, hp2, hs, hn, hcr, hopen⟩
    · have hf := do_decoding_invalid M d img hd hc
      rw [h] at hf
      simp at hf


/-! ## Lemmas on the bits the writer keeps -/

theorem isBytes_iff (l : List Nat) : isBytes l = true ↔ ∀ b ∈ l, b < 256 := by
  simp only [isBytes, List.all_eq_true, decide_eq_true_eq]

theorem isBytes_take (l : List Nat) (n : Nat) (h : isBytes l = true) :
    isBytes (l.take n) = true := by
  rw [isBytes_iff] at h ⊢
  exact fun b hb => h b (List.mem_of_mem_take hb)

theorem isBytes_drop (l : List Nat) (n : Nat) (h : isBytes l = true) :
    isBytes (l.drop n) = true := by
  rw [isBytes_iff] at h ⊢
  exact fun b hb => h b (List.mem_of_mem_drop hb)

theorem getD_lt_of_isBytes (l : List Nat) (j : Nat) (h : isBytes l = true) :
    l.getD j 0 < 256 := by
  rw [isBytes_iff] at h
  by_cases hj : j < l.length
  · rw [List.getD_eq_getElem _ _ hj]
    exact h _ (List.getElem_mem _)
  · rw [List.getD_eq_getElem?_getD, List.getElem?_eq_none (by omega)]
    decide

theorem map_getD_range (l : List Nat) : (List.range l.length).map (fun j => l.getD j 0) = l := by
  apply List.ext_getElem?
  intro j
  by_cases hj : j < l.length
  · simp [List.getElem?_range, hj, List.getD_eq_getElem?_getD, List.getElem?_eq_getElem hj]
  · simp [getElem?_range_of_not_lt hj, List.getElem?_eq_none (Nat.le_of_not_lt hj)]

theorem map_div_encode_byte (data : Nat) (c : List Nat) (hb : isBytes c = true) :
    (encode_byte_to_lsb data c).2.map (fun b => b / 2) = c.map (fun b => b / 2) := by
  rw [encode_byte_to_lsb_eq]
  simp only [List.map_map]
  conv_rhs => rw [← map_getD_range c, List.map_map]
  apply List.map_congr_left
  intro j _
  simp only [Function.comp, shiftRight_and_one]
  split
  · exact (setLsb_spec _ (getD_lt_of_isBytes c j hb) _ (Nat.mod_lt _ (by decide))).2.1
  · rfl

theorem map_div_encode_size (data : Nat) (c : List Nat) (hb : isBytes c = true) :
    (encode_size_to_lsb data c).2.map (fun b => b / 2) = c.map (fun b => b / 2) := by
  rw [encode_size_to_lsb_eq]
  simp only [List.map_map]
  conv_rhs => rw [← map_getD_range c, List.map_map]
  apply List.map_congr_left
  intro j _
  simp only [Function.comp, shiftRight_and_one]
  split
  · exact (setLsb_spec _ (getD_lt_of_isBytes c j hb) _ (Nat.mod_lt _ (by decide))).2.1
  · rfl

theorem map_div_embedBytes (ds : List Nat) :
    ∀ cs : List Nat, isBytes cs = true → 8 * ds.length ≤ cs.length →
      (embedBytes ds cs).map (fun b => b / 2) = (cs.take (8 * ds.length)).map (fun b => b / 2) := by
  induction ds with
  | nil => intro cs _ _; rfl
  | cons d ds ih =>
    intro cs hb h
    simp only [List.length_cons] at h
    have e : 8 * (d :: ds).length = 8 + 8 * ds.length := by simp only [List.length_cons]; omega
    rw [e, List.take_add]
    simp only [embedBytes, List.map_append]
    rw [map_div_encode_byte _ _ (isBytes_take cs 8 hb),
      ih (cs.drop 8) (isBytes_drop cs 8 hb) (by rw [List.length_drop]; omega)]

/-- A list cut at the boundaries of the five record fields. -/
theorem split_fields (px : List Nat) (a b c : Nat) :
    px = px.take a ++ (px.drop a).take 32 ++ (px.drop (a + 32)).take b
      ++ (px.drop (a + 32 + b)).take 32 ++ (px.drop (a + 32 + b + 32)).take c
      ++ px.drop (a + 32 + b + 32 + c) := by
  have h1 := List.take_append_drop a px
  have h2 := List.take_append_drop 32 (px.drop a)
  have h3 := List.take_append_drop b (px.drop (a + 32))
  have h4 := List.take_append_drop 32 (px.drop (a + 32 + b))
  have h5 := List.take_append_drop c (px.drop (a + 32 + b + 32))
  rw [List.drop_drop] at h2 h3 h4 h5
  simp only [List.append_assoc]
  rw [h5, h4, h3, h2, h1]

theorem map_div_embedRecord (M E P px : List Nat) (hb : isBytes px = true)
    (h : recordLength M.length E.length P.length ≤ px.length) :
    (embedRecord M E P px).map (fun b => b / 2) = px.map (fun b => b / 2) := by
  unfold recordLength at h
  conv_rhs => rw [split_fields px (8 * M.length) (8 * E.length) (8 * P.length)]
  unfold embedRecord recordLength embedSize
  simp only [List.map_append]
  rw [map_div_embedBytes M _ (isBytes_take _ _ hb) (by rw [List.length_take]; omega),
    map_div_embedBytes E _ (isBytes_take _ _ (isBytes_drop _ _ hb))
      (by rw [List.length_take, List.length_drop]; omega),
    map_div_embedBytes P _ (isBytes_take _ _ (isBytes_drop _ _ hb))
      (by rw [List.length_take, List.length_drop]; omega),
    map_div_encode_size _ _ (isBytes_take _ _ (isBytes_drop _ _ hb)),
    map_div_encode_size _ _ (isBytes_take _ _ (isBytes_drop _ _ hb))]
  simp only [List.take_take, Nat.min_self]

theorem map_div_stegoImage (M E P img : List Nat) (hb : isBytes img = true)
    (h : 54 + recordLength M.length E.length P.length ≤ img.length) :
    (stegoImage M E P img).map (fun b => b / 2) = img.map (fun b => b / 2) := by
  unfold stegoImage
  rw [List.map_append, map_div_embedRecord M E P _ (isBytes_drop _ _ hb)
    (by rw [List.length_drop]; omega), ← List.map_append, List.take_append_drop]

/-- The record region and the untouched remainder of the pixel region. -/
theorem embedRecord_eq_append (M E P px : List Nat)
    (h : recordLength M.length E.length P.length ≤ px.length) :
    ∃ X, X.length = recordLength M.length E.length P.length
      ∧ embedRecord M E P px = X ++ px.drop (recordLength M.length E.length P.length) := by
  refine ⟨embedBytes M (px.take (8 * M.length))
      ++ embedSize E.length ((px.drop (8 * M.length)).take 32)
      ++ embedBytes E ((px.drop (8 * M.length + 32)).take (8 * E.length))
      ++ embedSize P.length ((px.drop (8 * M.length + 32 + 8 * E.length)).take 32)
      ++ embedBytes P ((px.drop (8 * M.length + 32 + 8 * E.length + 32)).take (8 * P.length)),
    ?_, rfl⟩
  unfold recordLength at h ⊢
  simp only [List.length_append, length_embedSize, List.length_take, List.length_drop]
  rw [length_embedBytes M _ (by rw [List.length_take]; omega),
    length_embedBytes E _ (by rw [List.length_take, List.length_drop]; omega),
    length_embedBytes P _ (by rw [List.length_take, List.length_drop]; omega)]
  omega

theorem drop_stegoImage_record (M E P img : List Nat)
    (h : 54 + recordLength M.length E.length P.length ≤ img.length) :
    (stegoImage M E P img).drop (54 + recordLength M.length E.length P.length)
      = img.drop (54 + recordLength M.length E.length P.length) := by
  obtain ⟨X, hX, hr⟩ := embedRecord_eq_append M E P (img.drop 54)
    (by rw [List.length_drop]; omega)
  rw [← List.drop_drop, drop_stegoImage _ _ _ _ (by omega), hr, List.drop_left' hX,
    List.drop_drop]

theorem getD_of_drop_eq (l1 l2 : List Nat) (n j : Nat) (h : l1.drop n = l2.drop n)
    (hj : n ≤ j) : l1.getD j 0 = l2.getD j 0 := by
  have e : j = n + (j - n) := by omega
  rw [e, ← getD_drop, ← getD_drop, h]

theorem getD_div_of_map_eq (l1 l2 : List Nat) (j : Nat)
    (h : l1.map (fun b => b / 2) = l2.map (fun b => b / 2)) :
    l1.getD j 0 / 2 = l2.getD j 0 / 2 := by
  have h1 := congrArg (fun l => l.getD j 0) h
  simp only [List.getD_eq_getElem?_getD, List.getElem?_map] at h1 ⊢
  cases h1a : l1[j]? <;> cases h2a : l2[j]? <;> simp [h1a, h2a] at h1 ⊢ <;> exact h1


/-! ## Claims on what the writer changes and on the capacity check -/

/-- C11: for every successful `do_encoding` on a carrier of bytes and every byte
index `j` of the output, the upper 7 bits of `output[j]` equal the upper 7 bits
of `carrier[j]`; and for every `j` past the end of the embedded record
(`j >= 54 + record length`) `output[j]` equals `carrier[j]` exactly.  The record
length is stated twice: with the payload size that was embedded (the payload
length modulo `2^32`) and with the payload length itself. -/
theorem encode_changes_only_lsbs (M : List Nat) (e e1 : EncodeInfo) (img sec : List Nat)
    (hsrc : e.src_image_file = some img) (hsec : e.secret_file = some sec)
    (hb : isBytes img = true)
    (h : do_encoding M e = some (Status.e_success, e1)) :
    e1.fptr_stego_image.length = img.length
      ∧ (∀ j, e1.fptr_stego_image.getD j 0 / 2 = img.getD j 0 / 2)
      ∧ (∀ j, 54 + recordLength (strlen M) (strlen e.extn_secret_file)
            (sec.length % 4294967296) ≤ j →
          e1.fptr_stego_image.getD j 0 = img.getD j 0)
      ∧ (∀ j, 54 + (8 * strlen M + 32 + 8 * strlen e.extn_secret_file + 32 + 8 * sec.length)
            ≤ j →
          e1.fptr_stego_image.getD j 0 = img.getD j 0) := by
  obtain ⟨img1, sec1, cap, h1, h2, _, _, hlen, hout⟩ := do_encoding_success M e e1 h
  rw [hsrc] at h1
  rw [hsec] at h2
  simp only [Option.some.injEq] at h1 h2
  subst h1 h2
  have hlen2 : 54 + recordLength (cstr M).length (cstr e.extn_secret_file).length
      (sec.take (sec.length % 4294967296)).length ≤ img.length := by
    rw [length_take_mod]; exact hlen
  have hdrop := drop_stegoImage_record _ _ _ _ hlen2
  rw [length_take_mod] at hdrop
  have hmod : sec.length % 4294967296 ≤ sec.length := Nat.mod_le _ _
  rw [hout]
  refine ⟨length_stegoImage _ _ _ _ hlen2, ?_, ?_, ?_⟩
  · intro j
    exact getD_div_of_map_eq _ _ j (map_div_stegoImage _ _ _ _ hb hlen2)
  · intro j hj
    exact getD_of_drop_eq _ _ _ j hdrop hj
  · intro j hj
    apply getD_of_drop_eq _ _ _ j hdrop
    unfold recordLength strlen at *
    omega

/-- C13 (as amended): for every carrier of at least 26 bytes,
`get_image_size_for_bmp` returns `width * height * 3` reduced modulo `2^32`,
where `width` is the 4-byte little-endian integer at offset 18 and `height` the
one at offset 22; the result is `width * height * 3` itself whenever that is
below `2^32`, for instance 30000 for a 100 x 100 image. -/
theorem image_capacity_value (f : FILE) (h : 26 ≤ f.data.length) :
    (get_image_size_for_bmp f).1
        = some (bmp_width f.data * bmp_height f.data * 3 % 4294967296)
      ∧ (bmp_width f.data * bmp_height f.data * 3 < 4294967296 →
          (get_image_size_for_bmp f).1 = some (bmp_width f.data * bmp_height f.data * 3))
      ∧ (bmp_width f.data = 100 → bmp_height f.data = 100 →
          (get_image_size_for_bmp f).1 = some 30000) := by
  have h1 : (get_image_size_for_bmp f).1
      = some (bmp_width f.data * bmp_height f.data * 3 % 4294967296) := by
    rw [get_image_size_for_bmp_fst, bmp_capacity_eq _ h]
  refine ⟨h1, ?_, ?_⟩
  · intro hlt
    rw [h1, Nat.mod_eq_of_lt hlt]
  · intro hw hh
    rw [h1, hw, hh]

/-- A failing capacity check means a determinate capacity below the
requirement. -/
theorem check_capacity_failure (M : List Nat) (e : EncodeInfo) (img sec : List Nat)
    (hsrc : e.src_image_file = some img) (hsec : e.secret_file = some sec)
    (hcheck : (check_capacity M (open_files e).2).map Prod.fst = some Status.e_failure) :
    ∃ cap, bmp_capacity img = some cap
      ∧ cap < capacity_needed (strlen M) (strlen e.extn_secret_file)
          (sec.length % 4294967296) := by
  rw [open_files_ok e img sec hsrc hsec] at hcheck
  simp only at hcheck
  cases hcap : bmp_capacity img with
  | none =>
    have h1 := get_image_size_for_bmp_fst (⟨img, 0⟩ : FILE)
    simp only at h1
    rw [hcap] at h1
    unfold check_capacity at hcheck
    simp only at hcheck
    generalize get_image_size_for_bmp ⟨img, 0⟩ = r at h1 hcheck
    obtain ⟨c, g⟩ := r
    simp only at h1
    subst h1
    simp at hcheck
  | some cap =>
    obtain ⟨g, _, hcc⟩ := check_capacity_eq M
      { e with fptr_src_image := ⟨img, 0⟩, fptr_secret := ⟨sec, 0⟩,
               stego_image_created := true, fptr_stego_image := [] } cap hcap
    simp only at hcc
    rw [hcc] at hcheck
    refine ⟨cap, rfl, ?_⟩
    by_contra hn
    rw [if_neg hn] at hcheck
    simp at hcheck

/-- C14: for every carrier and payload for which `check_capacity` fails,
`do_encoding` returns failure and zero bytes have been written to the
destination image stream. -/
theorem capacity_failure_writes_nothing (M : List Nat) (e : EncodeInfo) (img sec : List Nat)
    (hsrc : e.src_image_file = some img) (hsec : e.secret_file = some sec)
    (hcheck : (check_capacity M (open_files e).2).map Prod.fst = some Status.e_failure) :
    ∃ e1, do_encoding M e = some (Status.e_failure, e1)
      ∧ e1.fptr_stego_image = [] ∧ e1.fptr_stego_image.length = 0 := by
  obtain ⟨cap, hcap, hlt⟩ := check_capacity_failure M e img sec hsrc hsec hcheck
  obtain ⟨e1, h1, h2, _⟩ := do_encoding_no_capacity M e img sec cap hsrc hsec hcap hlt
  exact ⟨e1, h1, h2, by rw [h2]; rfl⟩

/-- C15 (as amended): for every carrier and payload for which the capacity check
fails, `do_encoding` returns failure after `open_files` has created or truncated
the destination image file, and leaves it empty. -/
theorem capacity_failure_leaves_empty_file (M : List Nat) (e : EncodeInfo) (img sec : List Nat)
    (hsrc : e.src_image_file = some img) (hsec : e.secret_file = some sec)
    (hcheck : (check_capacity M (open_files e).2).map Prod.fst = some Status.e_failure) :
    (open_files e).2.stego_image_created = true
      ∧ ∃ e1, do_encoding M e = some (Status.e_failure, e1)
          ∧ e1.stego_image_created = true ∧ e1.fptr_stego_image = [] := by
  obtain ⟨cap, hcap, hlt⟩ := check_capacity_failure M e img sec hsrc hsec hcheck
  obtain ⟨e1, h1, h2, h3⟩ := do_encoding_no_capacity M e img sec cap hsrc hsec hcap hlt
  refine ⟨?_, e1, h1, h3, h2⟩
  rw [open_files_ok e img sec hsrc hsec]


/-! ## Claims on the reader -/

/-- C16: for every stego image, if the string decoded from the least significant
bits of the first `8 * length MAGIC_STRING` bytes after the 54-byte header is not
exactly `MAGIC_STRING` (or these bytes are not all there), then
`decode_magic_string` and `do_decoding` return failure; if it is exactly
`MAGIC_STRING`, `decode_magic_string` returns success.  The marker is a string of
fewer than 16 characters, as the 16-byte buffer of `decode_magic_string`
requires. -/
theorem marker_verification (M : List Nat) (d : DecodeInfo) (img : List Nat)
    (_hM : strlen M < 16) (hd : d.stego_image_file = some img) :
    (skip_bmp_header d).1 = Status.e_success
      ∧ (skip_bmp_header d).2.fptr_stego_image.rest = img.drop 54
      ∧ (¬ (8 * strlen M ≤ (img.drop 54).length ∧ lsbBytes (strlen M) (img.drop 54) 0 = cstr M) →
          (decode_magic_string M (skip_bmp_header d).2).1 = Status.e_failure
            ∧ (do_decoding M d).1 = Status.e_failure)
      ∧ (8 * strlen M ≤ (img.drop 54).length ∧ lsbBytes (strlen M) (img.drop 54) 0 = cstr M →
          (decode_magic_string M (skip_bmp_header d).2).1 = Status.e_success) := by
  have hskip : skip_bmp_header d
      = (Status.e_success, { d with fptr_stego_image := ⟨img, 54⟩ }) := by
    unfold skip_bmp_header
    rw [hd]
    rfl
  rw [hskip]
  refine ⟨rfl, rfl, ?_, ?_⟩
  · intro hn
    constructor
    · by_cases h1 : 8 * strlen M ≤ (img.drop 54).length
      · apply decode_magic_string_mismatch
        · exact h1
        · exact fun h2 => hn ⟨h1, h2⟩
      · apply decode_magic_string_short
        simp only [rest_mk]
        omega
    · apply do_decoding_invalid M d img hd
      intro hc
      exact hn ⟨by omega, hc.2.1⟩
  · intro hc
    rw [decode_magic_string_match M _ (by exact hc.1) (by exact hc.2)]

/-- C17: `decode_secret_file_extn_size` returns success if and only if 32 bytes
could be read and the 32-bit value decoded from their least significant bits lies
in 1..49; it fails for 0, for every value of 50 or more and for every value with
the top bit set.  On success the value is stored in `size_secret_file_extn`. -/
theorem extn_size_validation (d : DecodeInfo) :
    ((decode_secret_file_extn_size d).1 = Status.e_success ↔
        32 ≤ d.fptr_stego_image.rest.length
          ∧ 1 ≤ lsbField d.fptr_stego_image.rest 0 ∧ lsbField d.fptr_stego_image.rest 0 ≤ 49)
      ∧ (lsbField d.fptr_stego_image.rest 0 = 0 →
          (decode_secret_file_extn_size d).1 = Status.e_failure)
      ∧ (50 ≤ lsbField d.fptr_stego_image.rest 0 →
          (decode_secret_file_extn_size d).1 = Status.e_failure)
      ∧ (2147483648 ≤ lsbField d.fptr_stego_image.rest 0 →
          (decode_secret_file_extn_size d).1 = Status.e_failure)
      ∧ ((decode_secret_file_extn_size d).1 = Status.e_success →
          (decode_secret_file_extn_size d).2.size_secret_file_extn
            = lsbField d.fptr_stego_image.rest 0) := by
  by_cases h : 32 ≤ d.fptr_stego_image.rest.length
  · rw [decode_secret_file_extn_size_rest d h]
    simp only
    by_cases hr : 1 ≤ lsbField d.fptr_stego_image.rest 0
        ∧ lsbField d.fptr_stego_image.rest 0 ≤ 49
    · rw [if_pos hr]
      refine ⟨⟨fun _ => ⟨h, hr⟩, fun _ => rfl⟩, ?_, ?_, ?_, ?_⟩
      · intro h0; omega
      · intro h0; omega
      · intro h0; omega
      · intro _
        exact int_to_long_small _ (by omega)
    · rw [if_neg hr]
      refine ⟨⟨fun hc => absurd hc (by decide), fun hc => absurd hc.2 hr⟩, ?_, ?_, ?_, ?_⟩
      · intro _; rfl
      · intro _; rfl
      · intro _; rfl
      · intro hc; exact absurd hc (by decide)
  · have hf := decode_secret_file_extn_size_short d (by omega)
    rw [hf]
    refine ⟨⟨fun hc => absurd hc (by decide), fun hc => absurd hc.1 h⟩, ?_, ?_, ?_, ?_⟩
    · intro _; rfl
    · intro _; rfl
    · intro _; rfl
    · intro hc; exact absurd hc (by decide)

/-- C18: for every 32-byte field, `decode_secret_file_size` returns failure when
the decoded 32-bit value is negative under signed interpretation (top bit set),
and returns success with the decoded value when it is non-negative. -/
theorem payload_size_validation (d : DecodeInfo) (h : 32 ≤ d.fptr_stego_image.rest.length) :
    (2147483648 ≤ lsbField d.fptr_stego_image.rest 0 →
        (decode_secret_file_size d).1 = Status.e_failure
          ∧ long_val (decode_secret_file_size d).2.size_secret_file < 0)
      ∧ (lsbField d.fptr_stego_image.rest 0 < 2147483648 →
          decode_secret_file_size d = (Status.e_success,
            { d with
              fptr_stego_image := ⟨d.fptr_stego_image.data, d.fptr_stego_image.pos + 32⟩,
              size_secret_file := lsbField d.fptr_stego_image.rest 0 })
            ∧ long_val (decode_secret_file_size d).2.size_secret_file
              = (lsbField d.fptr_stego_image.rest 0 : Int)) := by
  rw [decode_secret_file_size_rest d h]
  simp only
  have hlt := lsbField_lt d.fptr_stego_image.rest 0
  constructor
  · intro hv
    rw [if_neg (by omega), long_val_int_to_long _ hlt, if_neg (by omega)]
    exact ⟨rfl, by omega⟩
  · intro hv
    rw [if_pos hv, int_to_long_small _ hv, long_val_small _ (by omega)]
    exact ⟨rfl, rfl⟩

/-- C19: for every stego image with a valid marker, a valid extension length and
extension and a payload length field `n > 0`, if fewer than `8 * n` bytes follow
the payload length field then `do_decoding` returns failure.  The conclusion
rests on the last hypothesis alone. -/
theorem truncated_container_rejected (M : List Nat) (d : DecodeInfo) (img : List Nat)
    (hd : d.stego_image_file = some img)
    (_hmark : lsbBytes (strlen M) (img.drop 54) 0 = cstr M)
    (_he1 : 1 ≤ extnLen (strlen M) (img.drop 54))
    (_he2 : extnLen (strlen M) (img.drop 54) ≤ 49)
    (_hfields : 8 * strlen M + 32 + 8 * extnLen (strlen M) (img.drop 54) + 32
      ≤ (img.drop 54).length)
    (_hn : 1 ≤ payloadLen (strlen M) (img.drop 54))
    (hshort : (img.drop 54).length
      < 8 * strlen M + 32 + 8 * extnLen (strlen M) (img.drop 54) + 32
        + 8 * payloadLen (strlen M) (img.drop 54)) :
    (do_decoding M d).1 = Status.e_failure := by
  apply do_decoding_invalid M d img hd
  intro hc
  omega

theorem secret_fname_decode_secret_file_size (d : DecodeInfo) :
    (decode_secret_file_size d).2.secret_fname = d.secret_fname := by
  unfold decode_secret_file_size
  generalize fread 32 d.fptr_stego_image = r
  obtain ⟨b, g⟩ := r
  simp only
  split
  · rfl
  · rw [decode_size_from_lsb_fst]
    simp only
    split <;> rfl

theorem secret_fname_decode_secret_file_data (d : DecodeInfo) :
    (decode_secret_file_data d).2.secret_fname = d.secret_fname := by
  unfold decode_secret_file_data
  split
  · rfl
  · generalize decode_secret_file_data_loop (long_val d.size_secret_file).toNat
      d.fptr_stego_image d.fptr_secret = r
    obtain ⟨st, g, out⟩ := r
    rfl

/-- C20 (as amended): for every stego image on which `decode_secret_file_extn`
succeeds with base output name `B` (after an extension length of 1 to 49), the
final output filename is `B` followed by the bytes decoded from the
`8 * extension-length` carrier bytes after the extension length field, up to the
first NUL among them (all of them when none is NUL); the output file is opened
under this name, and the later steps keep the name. -/
theorem output_filename (d d1 : DecodeInfo)
    (hs1 : 1 ≤ d.size_secret_file_extn) (hs2 : d.size_secret_file_extn ≤ 49)
    (h : decode_secret_file_extn d = (Status.e_success, d1)) :
    8 * d.size_secret_file_extn ≤ d.fptr_stego_image.rest.length
      ∧ d1.secret_fname = cstr d.secret_fname
          ++ cstr (lsbBytes d.size_secret_file_extn d.fptr_stego_image.rest 0)
      ∧ ((∀ b ∈ lsbBytes d.size_secret_file_extn d.fptr_stego_image.rest 0, b ≠ 0) →
          d1.secret_fname = cstr d.secret_fname
            ++ lsbBytes d.size_secret_file_extn d.fptr_stego_image.rest 0)
      ∧ d1.secret_created = true ∧ d1.fptr_secret = []
      ∧ (decode_secret_file_size d1).2.secret_fname = d1.secret_fname
      ∧ (∀ d2, (decode_secret_file_data d2).2.secret_fname = d2.secret_fname) := by
  have hli : long_to_int d.size_secret_file_extn = d.size_secret_file_extn := by
    unfold long_to_int; exact Nat.mod_eq_of_lt (by omega)
  have hlen : 8 * d.size_secret_file_extn ≤ d.fptr_stego_image.rest.length := by
    by_contra hn
    have hf := decode_secret_file_extn_short d (by rw [hli]; omega)
    rw [h] at hf
    simp at hf
  have hopen : d.fopen_wb (cstr d.secret_fname
      ++ cstr (lsbBytes d.size_secret_file_extn d.fptr_stego_image.rest 0)) = true := by
    by_contra hn
    rw [decode_secret_file_extn_not_created d (by omega) hlen hn] at h
    simp at h
  rw [decode_secret_file_extn_rest d (by omega) hlen hopen] at h
  simp only [Prod.mk.injEq, true_and] at h
  subst h
  refine ⟨hlen, rfl, ?_, rfl, rfl, secret_fname_decode_secret_file_size _,
    secret_fname_decode_secret_file_data⟩
  intro hnn
  simp only
  rw [cstr_of_no_nul _ hnn]


/-! ## Evaluations on the sample inputs -/

set_option maxRecDepth 100000 in
theorem encode_changes_only_lsbs_witness :
    (sampleEncoded [200, 65]).fptr_stego_image.length = sampleCarrier.length
      ∧ (∀ j, (sampleEncoded [200, 65]).fptr_stego_image.getD j 0 / 2
          = sampleCarrier.getD j 0 / 2)
      ∧ (∀ j, 54 + recordLength (strlen sampleMagic)
            (strlen (sampleEncodeInfo [200, 65]).extn_secret_file)
            ([200, 65].length % 4294967296) ≤ j →
          (sampleEncoded [200, 65]).fptr_stego_image.getD j 0 = sampleCarrier.getD j 0)
      ∧ (∀ j, 54 + (8 * strlen sampleMagic + 32
            + 8 * strlen (sampleEncodeInfo [200, 65]).extn_secret_file + 32
            + 8 * [200, 65].length) ≤ j →
          (sampleEncoded [200, 65]).fptr_stego_image.getD j 0 = sampleCarrier.getD j 0) :=
  encode_changes_only_lsbs sampleMagic (sampleEncodeInfo [200, 65]) (sampleEncoded [200, 65])
    sampleCarrier [200, 65] rfl rfl (by decide) (by decide)

set_option maxRecDepth 100000 in
/-- The sample run needs exactly the 192 bytes of capacity that the 8 x 8 carrier
has, and is accepted; one payload byte more is rejected. -/
theorem capacity_boundary_sample :
    (check_capacity sampleMagic (open_files (sampleEncodeInfo [200, 65])).2).map
        (fun r => (r.1, r.2.image_capacity)) = some (Status.e_success, 192)
      ∧ (strlen sampleMagic + 4 + strlen (sampleEncodeInfo [200, 65]).extn_secret_file + 4 + 2)
          * 8 + 64 = 192
      ∧ (check_capacity sampleMagic (open_files (sampleEncodeInfo [200, 65, 66])).2).map
        Prod.fst = some Status.e_failure := by
  decide

theorem image_capacity_value_witness :
    (get_image_size_for_bmp ⟨sampleHeader100, 0⟩).1
        = some (bmp_width (⟨sampleHeader100, 0⟩ : FILE).data
            * bmp_height (⟨sampleHeader100, 0⟩ : FILE).data * 3 % 4294967296)
      ∧ (bmp_width (⟨sampleHeader100, 0⟩ : FILE).data
            * bmp_height (⟨sampleHeader100, 0⟩ : FILE).data * 3 < 4294967296 →
          (get_image_size_for_bmp ⟨sampleHeader100, 0⟩).1
            = some (bmp_width (⟨sampleHeader100, 0⟩ : FILE).data
                * bmp_height (⟨sampleHeader100, 0⟩ : FILE).data * 3))
      ∧ (bmp_width (⟨sampleHeader100, 0⟩ : FILE).data = 100 →
          bmp_height (⟨sampleHeader100, 0⟩ : FILE).data = 100 →
          (get_image_size_for_bmp ⟨sampleHeader100, 0⟩).1 = some 30000) :=
  image_capacity_value ⟨sampleHeader100, 0⟩ (by decide)

/-- C13 (counterexample): for a header announcing 65536 x 65536 pixels
`get_image_size_for_bmp` returns 0, while `width * height * 3` is 12884901888. -/
theorem image_capacity_wraps :
    sampleHugeHeader.length = 54
      ∧ bmp_width sampleHugeHeader = 65536 ∧ bmp_height sampleHugeHeader = 65536
      ∧ (get_image_size_for_bmp ⟨sampleHugeHeader, 0⟩).1 = some 0
      ∧ (get_image_size_for_bmp ⟨sampleHugeHeader, 0⟩).1
        ≠ some (bmp_width sampleHugeHeader * bmp_height sampleHugeHeader * 3) := by
  decide

set_option maxRecDepth 100000 in
theorem capacity_failure_writes_nothing_witness :
    ∃ e1, do_encoding sampleMagic (sampleEncodeInfo (List.replicate 10 65))
        = some (Status.e_failure, e1)
      ∧ e1.fptr_stego_image = [] ∧ e1.fptr_stego_image.length = 0 :=
  capacity_failure_writes_nothing sampleMagic (sampleEncodeInfo (List.replicate 10 65))
    sampleCarrier (List.replicate 10 65) rfl rfl (by decide)

set_option maxRecDepth 100000 in
theorem capacity_failure_leaves_empty_file_witness :
    (open_files (sampleEncodeInfo (List.replicate 10 65))).2.stego_image_created = true
      ∧ ∃ e1, do_encoding sampleMagic (sampleEncodeInfo (List.replicate 10 65))
          = some (Status.e_failure, e1)
          ∧ e1.stego_image_created = true ∧ e1.fptr_stego_image = [] :=
  capacity_failure_leaves_empty_file sampleMagic (sampleEncodeInfo (List.replicate 10 65))
    sampleCarrier (List.replicate 10 65) rfl rfl (by decide)

set_option maxRecDepth 100000 in
/-- C15 (counterexample): with a payload of 10 bytes and the 8 x 8 sample carrier
the capacity check fails, and `do_encoding` returns failure with the destination
file created or truncated, although it was not before the call. -/
theorem capacity_failure_creates_destination :
    (sampleEncodeInfo (List.replicate 10 65)).stego_image_created = false
      ∧ (check_capacity sampleMagic (open_files (sampleEncodeInfo (List.replicate 10 65))).2).map
          Prod.fst = some Status.e_failure
      ∧ (do_encoding sampleMagic (sampleEncodeInfo (List.replicate 10 65))).map
          (fun r => (r.1, r.2.stego_image_created, r.2.fptr_stego_image))
        = some (Status.e_failure, true, []) := by
  decide

set_option maxRecDepth 100000 in
theorem marker_verification_witness :
    (skip_bmp_header (sampleDecodeInfo (sampleEncoded [200, 65]).fptr_stego_image)).1
        = Status.e_success
      ∧ (skip_bmp_header
          (sampleDecodeInfo (sampleEncoded [200, 65]).fptr_stego_image)).2.fptr_stego_image.rest
        = (sampleEncoded [200, 65]).fptr_stego_image.drop 54
      ∧ (¬ (8 * strlen sampleMagic ≤ ((sampleEncoded [200, 65]).fptr_stego_image.drop 54).length
            ∧ lsbBytes (strlen sampleMagic) ((sampleEncoded [200, 65]).fptr_stego_image.drop 54) 0
              = cstr sampleMagic) →
          (decode_magic_string sampleMagic (skip_bmp_header
              (sampleDecodeInfo (sampleEncoded [200, 65]).fptr_stego_image)).2).1
            = Status.e_failure
            ∧ (do_decoding sampleMagic
                (sampleDecodeInfo (sampleEncoded [200, 65]).fptr_stego_image)).1
              = Status.e_failure)
      ∧ (8 * strlen sampleMagic ≤ ((sampleEncoded [200, 65]).fptr_stego_image.drop 54).length
            ∧ lsbBytes (strlen sampleMagic) ((sampleEncoded [200, 65]).fptr_stego_image.drop 54) 0
              = cstr sampleMagic →
          (decode_magic_string sampleMagic (skip_bmp_header
              (sampleDecodeInfo (sampleEncoded [200, 65]).fptr_stego_image)).2).1
            = Status.e_success) :=
  marker_verification sampleMagic (sampleDecodeInfo (sampleEncoded [200, 65]).fptr_stego_image)
    (sampleEncoded [200, 65]).fptr_stego_image (by decide) rfl

set_option maxRecDepth 100000 in
/-- The marker of the sample stego image is accepted, and the untouched sample
carrier, which spells another string, is refused. -/
theorem marker_sample :
    lsbBytes (strlen sampleMagic) ((sampleEncoded [200, 65]).fptr_stego_image.drop 54) 0
        = cstr sampleMagic
      ∧ (decode_magic_string sampleMagic (skip_bmp_header
          (sampleDecodeInfo (sampleEncoded [200, 65]).fptr_stego_image)).2).1 = Status.e_success
      ∧ lsbBytes (strlen sampleMagic) (sampleCarrier.drop 54) 0 ≠ cstr sampleMagic
      ∧ (decode_magic_string sampleMagic (skip_bmp_header
          (sampleDecodeInfo sampleCarrier)).2).1 = Status.e_failure
      ∧ (do_decoding sampleMagic (sampleDecodeInfo sampleCarrier)).1 = Status.e_failure := by
  decide

theorem payload_size_validation_witness :
    (2147483648 ≤ lsbField sampleNulExtension.fptr_stego_image.rest 0 →
        (decode_secret_file_size sampleNulExtension).1 = Status.e_failure
          ∧ long_val (decode_secret_file_size sampleNulExtension).2.size_secret_file < 0)
      ∧ (lsbField sampleNulExtension.fptr_stego_image.rest 0 < 2147483648 →
          decode_secret_file_size sampleNulExtension = (Status.e_success,
            { sampleNulExtension with
              fptr_stego_image := ⟨sampleNulExtension.fptr_stego_image.data,
                sampleNulExtension.fptr_stego_image.pos + 32⟩,
              size_secret_file := lsbField sampleNulExtension.fptr_stego_image.rest 0 })
            ∧ long_val (decode_secret_file_size sampleNulExtension).2.size_secret_file
              = (lsbField sampleNulExtension.fptr_stego_image.rest 0 : Int)) :=
  payload_size_validation sampleNulExtension (by decide)

set_option maxRecDepth 100000 in
theorem truncated_container_rejected_witness :
    (do_decoding sampleMagic (sampleDecodeInfo sampleTruncatedStego)).1 = Status.e_failure :=
  truncated_container_rejected sampleMagic (sampleDecodeInfo sampleTruncatedStego)
    sampleTruncatedStego rfl (by decide) (by decide) (by decide) (by decide) (by decide)
    (by decide)

theorem output_filename_witness :
    8 * sampleNulExtension.size_secret_file_extn
        ≤ sampleNulExtension.fptr_stego_image.rest.length
      ∧ (decode_secret_file_extn sampleNulExtension).2.secret_fname
        = cstr sampleNulExtension.secret_fname
          ++ cstr (lsbBytes sampleNulExtension.size_secret_file_extn
              sampleNulExtension.fptr_stego_image.rest 0)
      ∧ ((∀ b ∈ lsbBytes sampleNulExtension.size_secret_file_extn
            sampleNulExtension.fptr_stego_image.rest 0, b ≠ 0) →
          (decode_secret_file_extn sampleNulExtension).2.secret_fname
            = cstr sampleNulExtension.secret_fname
              ++ lsbBytes sampleNulExtension.size_secret_file_extn
                  sampleNulExtension.fptr_stego_image.rest 0)
      ∧ (decode_secret_file_extn sampleNulExtension).2.secret_created = true
      ∧ (decode_secret_file_extn sampleNulExtension).2.fptr_secret = []
      ∧ (decode_secret_file_size (decode_secret_file_extn sampleNulExtension).2).2.secret_fname
        = (decode_secret_file_extn sampleNulExtension).2.secret_fname
      ∧ (∀ d2, (decode_secret_file_data d2).2.secret_fname = d2.secret_fname) :=
  output_filename sampleNulExtension (decode_secret_file_extn sampleNulExtension).2
    (by decide) (by decide) (Prod.ext (by decide) rfl)

set_option maxRecDepth 100000 in
/-- C20 (counterexample): on a stego image whose four extension bytes are 46, 0,
120, 116, `do_decoding` and its step `decode_secret_file_extn` succeed with the
base name "out", and the final output filename is "out." (the base followed by
the byte 46 alone), not the base followed by the four decoded bytes. -/
theorem nul_in_extension_cuts_filename :
    extnLen (strlen sampleMagic) (sampleNulStego.drop 54) = 4
      ∧ extnBytes (strlen sampleMagic) (sampleNulStego.drop 54) = [46, 0, 120, 116]
      ∧ (decode_secret_file_extn (decode_secret_file_extn_size (decode_magic_string sampleMagic
          (skip_bmp_header (sampleDecodeInfo sampleNulStego)).2).2).2).1 = Status.e_success
      ∧ (do_decoding sampleMagic (sampleDecodeInfo sampleNulStego)).1 = Status.e_success
      ∧ (sampleDecodeInfo sampleNulStego).secret_fname = [111, 117, 116]
      ∧ (do_decoding sampleMagic (sampleDecodeInfo sampleNulStego)).2.secret_fname
        = [111, 117, 116, 46]
      ∧ (do_decoding sampleMagic (sampleDecodeInfo sampleNulStego)).2.secret_fname
        ≠ [111, 117, 116] ++ [46, 0, 120, 116] := by
  decide


/-! ## The reader on a payload length of zero -/

/-- On an image with the marker, an extension length of 1 to 49, the extension
bytes and a payload length field equal to 0, when the output file can be created,
`decode_secret_file_size` accepts the length and `decode_secret_file_data` refuses
it: `do_decoding` stops there with the state that `decode_secret_file_size`
returned. -/
theorem do_decoding_zero_payload (M : List Nat) (d : DecodeInfo) (img : List Nat)
    (hd : d.stego_image_file = some img)
    (hmark : lsbBytes (strlen M) (img.drop 54) 0 = cstr M)
    (he1 : 1 ≤ extnLen (strlen M) (img.drop 54)) (he2 : extnLen (strlen M) (img.drop 54) ≤ 49)
    (hlen : 8 * strlen M + 32 + 8 * extnLen (strlen M) (img.drop 54) + 32
      ≤ (img.drop 54).length)
    (hzero : payloadLen (strlen M) (img.drop 54) = 0)
    (hopen : d.fopen_wb (cstr d.secret_fname ++ cstr (extnBytes (strlen M) (img.drop 54)))
      = true) :
    ∃ d4 d5, decode_secret_file_size d4 = (Status.e_success, d5)
      ∧ decode_secret_file_data d5 = (Status.e_failure, d5)
      ∧ do_decoding M d = (Status.e_failure, d5)
      ∧ d5.size_secret_file = 0
      ∧ d5.secret_created = true
      ∧ d5.fptr_secret = []
      ∧ d5.secret_fname = cstr d.secret_fname ++ cstr (extnBytes (strlen M) (img.drop 54)) := by
  rw [List.length_drop] at hlen
  have hve : lsbField (⟨img, 54 + 8 * strlen M⟩ : FILE).rest 0
      = extnLen (strlen M) (img.drop 54) := by
    simp only [rest_mk, extnLen, lsbField_drop, Nat.add_zero]
  generalize hvedef : extnLen (strlen M) (img.drop 54) = ve at *
  have hn : lsbField (⟨img, 54 + 8 * strlen M + 32 + 8 * ve⟩ : FILE).rest 0 = 0 := by
    have hp : lsbField (⟨img, 54 + 8 * strlen M + 32 + 8 * ve⟩ : FILE).rest 0
        = payloadLen (strlen M) (img.drop 54) := by
      simp only [rest_mk, payloadLen, lsbField_drop, Nat.add_zero, hvedef, Nat.add_assoc]
    rw [hp, hzero]
  have hx : lsbBytes ve (⟨img, 54 + 8 * strlen M + 32⟩ : FILE).rest 0
      = extnBytes (strlen M) (img.drop 54) := by
    simp only [rest_mk, extnBytes, lsbBytes_drop, Nat.add_zero, hvedef, Nat.add_assoc]
  have h0 : long_val 0 ≤ 0 := by decide
  have hi0 : int_to_long 0 = 0 := by decide
  unfold do_decoding skip_bmp_header
  rw [hd]
  simp only [fseek]
  rw [decode_magic_string_match M _ (by simp only [rest_mk, List.length_drop]; omega)
    (by exact hmark)]
  simp only
  rw [decode_secret_file_extn_size_rest _ (by simp only [rest_mk, List.length_drop]; omega)]
  simp only [hve, int_to_long_small ve (by omega)]
  rw [if_pos ⟨he1, he2⟩]
  simp only
  rw [decode_secret_file_extn_rest _ (by simp only; omega)
    (by simp only [rest_mk, List.length_drop]; omega)
    (by simp only [hx]; exact hopen)]
  simp only [hx]
  have hsize := decode_secret_file_size_rest
    { d with
      stego_image_file := some img,
      fptr_stego_image := ⟨img, 54 + 8 * strlen M + 32 + 8 * ve⟩,
      size_secret_file_extn := ve,
      extn_secret_file := extnBytes (strlen M) (img.drop 54)
        ++ 0 :: (List.replicate MAX_FILE_SUFFIX_ 0).drop (ve + 1),
      secret_fname := cstr d.secret_fname ++ cstr (extnBytes (strlen M) (img.drop 54)),
      secret_created := true, fptr_secret := [] }
    (by simp only [rest_mk, List.length_drop]; omega)
  simp only [hn, hi0] at hsize
  rw [if_pos (by decide)] at hsize
  rw [hsize]
  simp only
  have hdata := decode_secret_file_data_not_positive
    { d with
      stego_image_file := some img,
      fptr_stego_image := ⟨img, 54 + 8 * strlen M + 32 + 8 * ve + 32⟩,
      size_secret_file_extn := ve,
      extn_secret_file := extnBytes (strlen M) (img.drop 54)
        ++ 0 :: (List.replicate MAX_FILE_SUFFIX_ 0).drop (ve + 1),
      secret_fname := cstr d.secret_fname ++ cstr (extnBytes (strlen M) (img.drop 54)),
      secret_created := true, fptr_secret := [], size_secret_file := 0 }
    (by exact h0)
  exact ⟨_, _, hsize, hdata, hdata, rfl, rfl, rfl, rfl⟩

/-- On an image with the marker, an extension length of 1 to 49 and the extension
bytes, when the output file cannot be created, `do_decoding` fails in
`decode_secret_file_extn`: the name has been built, no file has been created and
nothing has been written. -/
theorem do_decoding_not_created (M : List Nat) (d : DecodeInfo) (img : List Nat)
    (hd : d.stego_image_file = some img)
    (hmark : lsbBytes (strlen M) (img.drop 54) 0 = cstr M)
    (he1 : 1 ≤ extnLen (strlen M) (img.drop 54)) (he2 : extnLen (strlen M) (img.drop 54) ≤ 49)
    (hlen : 8 * strlen M + 32 + 8 * extnLen (strlen M) (img.drop 54) ≤ (img.drop 54).length)
    (hopen : ¬ d.fopen_wb (cstr d.secret_fname ++ cstr (extnBytes (strlen M) (img.drop 54)))
      = true) :
    ∃ d3, do_decoding M d = (Status.e_failure, d3)
      ∧ d3.secret_created = d.secret_created
      ∧ d3.fptr_secret = d.fptr_secret
      ∧ d3.secret_fname = cstr d.secret_fname ++ cstr (extnBytes (strlen M) (img.drop 54)) := by
  rw [List.length_drop] at hlen
  have hve : lsbField (⟨img, 54 + 8 * strlen M⟩ : FILE).rest 0
      = extnLen (strlen M) (img.drop 54) := by
    simp only [rest_mk, extnLen, lsbField_drop, Nat.add_zero]
  generalize hvedef : extnLen (strlen M) (img.drop 54) = ve at *
  have hx : lsbBytes ve (⟨img, 54 + 8 * strlen M + 32⟩ : FILE).rest 0
      = extnBytes (strlen M) (img.drop 54) := by
    simp only [rest_mk, extnBytes, lsbBytes_drop, Nat.add_zero, hvedef, Nat.add_assoc]
  unfold do_decoding skip_bmp_header
  rw [hd]
  simp only [fseek]
  rw [decode_magic_string_match M _ (by simp only [rest_mk, List.length_drop]; omega)
    (by exact hmark)]
  simp only
  rw [decode_secret_file_extn_size_rest _ (by simp only [rest_mk, List.length_drop]; omega)]
  simp only [hve, int_to_long_small ve (by omega)]
  rw [if_pos ⟨he1, he2⟩]
  simp only
  rw [decode_secret_file_extn_not_created _ (by simp only; omega)
    (by simp only [rest_mk, List.length_drop]; omega)
    (by simp only [hx]; exact hopen)]
  simp only [hx]
  exact ⟨_, rfl, rfl, rfl, rfl⟩

/-! ## Claims on the payload length of zero -/

/-- C21 (as amended): for every stego image with a valid marker, a valid extension
length and extension, and a payload length field equal to 0, `do_decoding`
returns failure without a payload iteration.  When the output file, named by the
base name followed by the extension, can be created, `decode_secret_file_size`
accepts the length (it rejects negative lengths only), `decode_secret_file_data`
refuses it, and the output file is left created and empty; when the file cannot
be created, `do_decoding` has failed before, no file is created and nothing is
written. -/
theorem zero_length_payload_rejected (M : List Nat) (d : DecodeInfo) (img : List Nat)
    (hd : d.stego_image_file = some img)
    (hmark : lsbBytes (strlen M) (img.drop 54) 0 = cstr M)
    (he1 : 1 ≤ extnLen (strlen M) (img.drop 54)) (he2 : extnLen (strlen M) (img.drop 54) ≤ 49)
    (hlen : 8 * strlen M + 32 + 8 * extnLen (strlen M) (img.drop 54) + 32
      ≤ (img.drop 54).length)
    (hzero : payloadLen (strlen M) (img.drop 54) = 0) :
    (do_decoding M d).1 = Status.e_failure
      ∧ (d.fopen_wb (cstr d.secret_fname ++ cstr (extnBytes (strlen M) (img.drop 54))) = true →
          (∃ d4, decode_secret_file_size d4 = (Status.e_success, (do_decoding M d).2))
            ∧ decode_secret_file_data (do_decoding M d).2
              = (Status.e_failure, (do_decoding M d).2)
            ∧ (do_decoding M d).2.size_secret_file = 0
            ∧ (do_decoding M d).2.secret_created = true
            ∧ (do_decoding M d).2.fptr_secret = []
            ∧ (do_decoding M d).2.secret_fname
              = cstr d.secret_fname ++ cstr (extnBytes (strlen M) (img.drop 54)))
      ∧ (¬ d.fopen_wb (cstr d.secret_fname ++ cstr (extnBytes (strlen M) (img.drop 54))) = true →
          (do_decoding M d).2.secret_created = d.secret_created
            ∧ (do_decoding M d).2.fptr_secret = d.fptr_secret) := by
  refine ⟨?_, ?_, ?_⟩
  · apply do_decoding_invalid M d img hd
    intro hc
    have h1 := hc.2.2.2.2.1
    omega
  · intro hopen
    obtain ⟨d4, d5, h1, h2, h3, h4, h5, h6, h7⟩ :=
      do_decoding_zero_payload M d img hd hmark he1 he2 hlen hzero hopen
    rw [h3]
    exact ⟨⟨d4, h1⟩, h2, h4, h5, h6, h7⟩
  · intro hopen
    obtain ⟨d3, h3, h4, h5, _⟩ :=
      do_decoding_not_created M d img hd hmark he1 he2 (by omega) hopen
    rw [h3]
    exact ⟨h4, h5⟩

set_option maxRecDepth 100000 in
theorem zero_length_payload_rejected_witness :
    (do_decoding sampleMagic (sampleDecodeInfo sampleZeroStego)).1 = Status.e_failure
      ∧ ((sampleDecodeInfo sampleZeroStego).fopen_wb
            (cstr (sampleDecodeInfo sampleZeroStego).secret_fname
              ++ cstr (extnBytes (strlen sampleMagic) (sampleZeroStego.drop 54))) = true →
          (∃ d4, decode_secret_file_size d4
              = (Status.e_success, (do_decoding sampleMagic (sampleDecodeInfo sampleZeroStego)).2))
            ∧ decode_secret_file_data (do_decoding sampleMagic (sampleDecodeInfo sampleZeroStego)).2
              = (Status.e_failure, (do_decoding sampleMagic (sampleDecodeInfo sampleZeroStego)).2)
            ∧ (do_decoding sampleMagic (sampleDecodeInfo sampleZeroStego)).2.size_secret_file = 0
            ∧ (do_decoding sampleMagic (sampleDecodeInfo sampleZeroStego)).2.secret_created = true
            ∧ (do_decoding sampleMagic (sampleDecodeInfo sampleZeroStego)).2.fptr_secret = []
            ∧ (do_decoding sampleMagic (sampleDecodeInfo sampleZeroStego)).2.secret_fname
              = cstr (sampleDecodeInfo sampleZeroStego).secret_fname
                ++ cstr (extnBytes (strlen sampleMagic) (sampleZeroStego.drop 54)))
      ∧ (¬ (sampleDecodeInfo sampleZeroStego).fopen_wb
            (cstr (sampleDecodeInfo sampleZeroStego).secret_fname
              ++ cstr (extnBytes (strlen sampleMagic) (sampleZeroStego.drop 54))) = true →
          (do_decoding sampleMagic (sampleDecodeInfo sampleZeroStego)).2.secret_created
              = (sampleDecodeInfo sampleZeroStego).secret_created
            ∧ (do_decoding sampleMagic (sampleDecodeInfo sampleZeroStego)).2.fptr_secret
              = (sampleDecodeInfo sampleZeroStego).fptr_secret) :=
  zero_length_payload_rejected sampleMagic (sampleDecodeInfo sampleZeroStego) sampleZeroStego
    rfl (by decide) (by decide) (by decide) (by decide) (by decide)

set_option maxRecDepth 100000 in
/-- C21 (counterexample): on a stego image with the marker "#*", the extension
length 4, the extension ".txt" and the payload length 0, every step up to
`decode_secret_file_size` succeeds and `do_decoding` returns failure, having
created the output file "out.txt". -/
theorem zero_length_payload_is_refused :
    lsbBytes (strlen sampleMagic) (sampleZeroStego.drop 54) 0 = cstr sampleMagic
      ∧ extnLen (strlen sampleMagic) (sampleZeroStego.drop 54) = 4
      ∧ extnBytes (strlen sampleMagic) (sampleZeroStego.drop 54) = [46, 116, 120, 116]
      ∧ payloadLen (strlen sampleMagic) (sampleZeroStego.drop 54) = 0
      ∧ (decode_secret_file_size (decode_secret_file_extn (decode_secret_file_extn_size
          (decode_magic_string sampleMagic
            (skip_bmp_header (sampleDecodeInfo sampleZeroStego)).2).2).2).2).1 = Status.e_success
      ∧ (do_decoding sampleMagic (sampleDecodeInfo sampleZeroStego)).1 = Status.e_failure
      ∧ (do_decoding sampleMagic (sampleDecodeInfo sampleZeroStego)).2.secret_created = true
      ∧ (do_decoding sampleMagic (sampleDecodeInfo sampleZeroStego)).2.secret_fname
        = [111, 117, 116, 46, 116, 120, 116]
      ∧ (do_decoding sampleMagic (sampleDecodeInfo sampleZeroStego)).2.fptr_secret = [] := by
  decide


/-! ## The extension length field of a stego image -/

theorem getD_map_mod_two (l : List Nat) (j : Nat) :
    (l.map (fun b => b % 2)).getD j 0 = l.getD j 0 % 2 := by
  simp only [List.getD_eq_getElem?_getD, List.getElem?_map]
  cases l[j]? <;> rfl

/-- The extension length field that the reader finds in a stego image is the
length of the embedded extension modulo `2^32`. -/
theorem extnLen_stegoImage (M E P img : List Nat)
    (h : 54 + recordLength M.length E.length P.length ≤ img.length) :
    extnLen M.length ((stegoImage M E P img).drop 54) = E.length % 4294967296 := by
  rw [drop_stegoImage _ _ _ _ (by omega)]
  have hl := lsb_embedRecord M E P (img.drop 54) (by rw [List.length_drop]; omega)
  have hL : 8 * M.length + 32 ≤ recordLength M.length E.length P.length := by
    unfold recordLength; omega
  have hbits : ((recordBits M E P).drop (8 * M.length)).take 32 = bitsMSB 32 E.length := by
    unfold recordBits
    simp only [List.append_assoc]
    rw [List.drop_left' (length_flatMap_bitsMSB M), List.take_left' (length_bitsMSB 32 E.length)]
  unfold extnLen lsbField
  have e32 : E.length % 4294967296 = E.length / 2 ^ (32 - 32) % 2 ^ 32 := by norm_num
  rw [e32, ← msbValue_bits E.length 32 32 (Nat.le_refl 32)]
  apply msbValue_congr
  intro i hi
  simp only [lsbBits]
  have h1 : (embedRecord M E P (img.drop 54)).getD (8 * M.length + i) 0 % 2
      = (recordBits M E P).getD (8 * M.length + i) 0 := by
    rw [← hl, getD_map_mod_two, getD_take _ _ _ (by omega)]
  have h2 : (recordBits M E P).getD (8 * M.length + i) 0 = (bitsMSB 32 E.length).getD i 0 := by
    rw [← hbits, getD_take _ _ _ hi, getD_drop]
  rw [h1, h2]
  simp only [bitsMSB, List.getD_eq_getElem?_getD, List.getElem?_map, List.getElem?_range hi,
    Option.map_some', Option.getD_some]

/-! ## Claims on the agreement of writer and reader -/

/-- C22 (divergence): for every successful `do_encoding` the extension length
field embedded in the output is the length of the extension string modulo
`2^32`, whatever that length is; the writer does not compare it with the range
1..49 of the reader.  When it lies outside this range, in particular for every
extension of 50 to `2^32 - 1` characters, `do_decoding` fails on the image that
the writer produced. -/
theorem extension_length_not_bounded (M : List Nat) (e e1 : EncodeInfo)
    (h : do_encoding M e = some (Status.e_success, e1)) :
    extnLen (strlen M) (e1.fptr_stego_image.drop 54)
        = strlen e.extn_secret_file % 4294967296
      ∧ (¬ (1 ≤ strlen e.extn_secret_file % 4294967296
            ∧ strlen e.extn_secret_file % 4294967296 ≤ 49) →
          ∀ d : DecodeInfo, d.stego_image_file = some e1.fptr_stego_image →
            (do_decoding M d).1 = Status.e_failure)
      ∧ (50 ≤ strlen e.extn_secret_file → strlen e.extn_secret_file < 4294967296 →
          extnLen (strlen M) (e1.fptr_stego_image.drop 54) = strlen e.extn_secret_file
            ∧ ∀ d : DecodeInfo, d.stego_image_file = some e1.fptr_stego_image →
                (do_decoding M d).1 = Status.e_failure) := by
  obtain ⟨img, sec, cap, _, _, _, _, hlen, hout⟩ := do_encoding_success M e e1 h
  have hfield : extnLen (strlen M) (e1.fptr_stego_image.drop 54)
      = strlen e.extn_secret_file % 4294967296 := by
    rw [hout]
    have hp : (sec.take (sec.length % 4294967296)).length = sec.length % 4294967296 := by
      rw [List.length_take]
      exact Nat.min_eq_left (Nat.mod_le _ _)
    exact extnLen_stegoImage (cstr M) (cstr e.extn_secret_file)
      (sec.take (sec.length % 4294967296)) img (by rw [hp]; exact hlen)
  have hrej : ¬ (1 ≤ strlen e.extn_secret_file % 4294967296
        ∧ strlen e.extn_secret_file % 4294967296 ≤ 49) →
      ∀ d : DecodeInfo, d.stego_image_file = some e1.fptr_stego_image →
        (do_decoding M d).1 = Status.e_failure := by
    intro hn d hd
    apply do_decoding_invalid M d _ hd
    intro hc
    rw [hfield] at hc
    exact hn ⟨hc.2.2.1, hc.2.2.2.1⟩
  refine ⟨hfield, hrej, ?_⟩
  intro h50 hlt
  have hm : strlen e.extn_secret_file % 4294967296 = strlen e.extn_secret_file :=
    Nat.mod_eq_of_lt hlt
  refine ⟨by rw [hfield, hm], hrej ?_⟩
  rw [hm]
  omega

set_option maxRecDepth 100000 in
theorem extension_length_not_bounded_witness :
    strlen sampleLongExtension.extn_secret_file = 50
      ∧ do_encoding sampleMagic sampleLongExtension = some (Status.e_success, sampleLongEncoded)
      ∧ extnLen (strlen sampleMagic) (sampleLongEncoded.fptr_stego_image.drop 54)
        = strlen sampleLongExtension.extn_secret_file % 4294967296
      ∧ (¬ (1 ≤ strlen sampleLongExtension.extn_secret_file % 4294967296
            ∧ strlen sampleLongExtension.extn_secret_file % 4294967296 ≤ 49) →
          ∀ d : DecodeInfo, d.stego_image_file = some sampleLongEncoded.fptr_stego_image →
            (do_decoding sampleMagic d).1 = Status.e_failure)
      ∧ (50 ≤ strlen sampleLongExtension.extn_secret_file →
          strlen sampleLongExtension.extn_secret_file < 4294967296 →
          extnLen (strlen sampleMagic) (sampleLongEncoded.fptr_stego_image.drop 54)
              = strlen sampleLongExtension.extn_secret_file
            ∧ ∀ d : DecodeInfo, d.stego_image_file = some sampleLongEncoded.fptr_stego_image →
                (do_decoding sampleMagic d).1 = Status.e_failure) :=
  ⟨by decide, by decide,
    extension_length_not_bounded sampleMagic sampleLongExtension sampleLongEncoded (by decide)⟩


/-! ## The capacity check and the bytes the writer reads -/

/-- A successful capacity check means a determinate capacity that is not below
the requirement, and a state holding this capacity and the payload size. -/
theorem check_capacity_success (M : List Nat) (e e2 : EncodeInfo) (img sec : List Nat)
    (hsrc : e.src_image_file = some img) (hsec : e.secret_file = some sec)
    (hcheck : check_capacity M (open_files e).2 = some (Status.e_success, e2)) :
    bmp_capacity img = some e2.image_capacity
      ∧ ¬ e2.image_capacity < capacity_needed (strlen M) (strlen e.extn_secret_file)
          (sec.length % 4294967296)
      ∧ e2.size_secret_file = sec.length % 4294967296
      ∧ e2.extn_secret_file = e.extn_secret_file := by
  rw [open_files_ok e img sec hsrc hsec] at hcheck
  simp only at hcheck
  cases hcap : bmp_capacity img with
  | none =>
    have h1 := get_image_size_for_bmp_fst (⟨img, 0⟩ : FILE)
    simp only at h1
    rw [hcap] at h1
    unfold check_capacity at hcheck
    simp only at hcheck
    generalize get_image_size_for_bmp ⟨img, 0⟩ = r at h1 hcheck
    obtain ⟨c, g⟩ := r
    simp only at h1
    subst h1
    simp at hcheck
  | some cap =>
    obtain ⟨g, _, hcc⟩ := check_capacity_eq M
      { e with fptr_src_image := ⟨img, 0⟩, fptr_secret := ⟨sec, 0⟩,
               stego_image_created := true, fptr_stego_image := [] } cap hcap
    simp only at hcc
    rw [hcc] at hcheck
    by_cases hn : cap < capacity_needed (strlen M) (strlen e.extn_secret_file)
        (sec.length % 4294967296)
    · rw [if_pos hn] at hcheck
      simp at hcheck
    · rw [if_neg hn] at hcheck
      simp only [Option.some.injEq, Prod.mk.injEq, true_and] at hcheck
      subst hcheck
      exact ⟨rfl, hn, rfl, rfl⟩

/-! ## Claims on the sufficiency of the capacity check -/

/-- C23: whenever `check_capacity` succeeds, the number of carrier bytes the
record consumes, `8 * length marker + 32 + 8 * length extension + 32 + 8 *
payload_size`, is at most `image_capacity - 64`; hence if the carrier file holds
at least `54 + image_capacity` bytes, every carrier byte that the embedding reads
lies inside the file and `do_encoding` returns success.  The two strings are
shorter than `2^60` bytes together, so that the requirement does not wrap in
`size_t`. -/
theorem capacity_check_sufficient (M : List Nat) (e e2 : EncodeInfo) (img sec : List Nat)
    (hsrc : e.src_image_file = some img) (hsec : e.secret_file = some sec)
    (hs : strlen M + strlen e.extn_secret_file < 1152921504606846976)
    (hcheck : check_capacity M (open_files e).2 = some (Status.e_success, e2)) :
    64 ≤ e2.image_capacity
      ∧ 8 * strlen M + 32 + 8 * strlen e2.extn_secret_file + 32 + 8 * e2.size_secret_file
          ≤ e2.image_capacity - 64
      ∧ (54 + e2.image_capacity ≤ img.length →
          54 + (8 * strlen M + 32 + 8 * strlen e2.extn_secret_file + 32 + 8 * e2.size_secret_file)
              ≤ img.length
            ∧ ∃ e1, do_encoding M e = some (Status.e_success, e1)
                ∧ e1.fptr_stego_image.length = img.length) := by
  obtain ⟨hcap, hfit, hsize, hext⟩ := check_capacity_success M e e2 img sec hsrc hsec hcheck
  have hlt : sec.length % 4294967296 < 4294967296 := Nat.mod_lt _ (by decide)
  have hneed : capacity_needed (strlen M) (strlen e.extn_secret_file) (sec.length % 4294967296)
      = (strlen M + 4 + strlen e.extn_secret_file + 4 + sec.length % 4294967296) * 8 + 64 := by
    unfold capacity_needed
    exact Nat.mod_eq_of_lt (by omega)
  rw [hneed] at hfit
  rw [hsize, hext]
  refine ⟨by omega, by omega, ?_⟩
  intro hfile
  have hrec : 54 + recordLength (strlen M) (strlen e.extn_secret_file)
      (sec.length % 4294967296) ≤ img.length := by
    unfold recordLength; omega
  refine ⟨by unfold recordLength at hrec; omega, ?_⟩
  obtain ⟨e1, h1, hout, _⟩ := do_encoding_ok M e img sec e2.image_capacity hsrc hsec hcap
    (by rw [hneed]; exact hfit) hrec
  refine ⟨e1, h1, ?_⟩
  rw [hout]
  apply length_stegoImage
  have hp : (sec.take (sec.length % 4294967296)).length = sec.length % 4294967296 := by
    rw [List.length_take]
    exact Nat.min_eq_left (Nat.mod_le _ _)
  rw [hp]
  exact hrec

set_option maxRecDepth 100000 in
theorem capacity_check_sufficient_witness :
    64 ≤ sampleChecked.image_capacity
      ∧ 8 * strlen sampleMagic + 32 + 8 * strlen sampleChecked.extn_secret_file + 32
            + 8 * sampleChecked.size_secret_file
          ≤ sampleChecked.image_capacity - 64
      ∧ (54 + sampleChecked.image_capacity ≤ sampleCarrier.length →
          54 + (8 * strlen sampleMagic + 32 + 8 * strlen sampleChecked.extn_secret_file + 32
              + 8 * sampleChecked.size_secret_file) ≤ sampleCarrier.length
            ∧ ∃ e1, do_encoding sampleMagic (sampleEncodeInfo [200, 65])
                  = some (Status.e_success, e1)
                ∧ e1.fptr_stego_image.length = sampleCarrier.length) :=
  capacity_check_sufficient sampleMagic (sampleEncodeInfo [200, 65]) sampleChecked
    sampleCarrier [200, 65] rfl rfl (by decide) (by decide)


/-! ## The length of the array that `decode_data_from_image` fills -/

theorem decode_data_from_image_loop_length (n : Nat) :
    ∀ (f : FILE) (out : List Nat),
      ((decode_data_from_image_loop n f out).1 = Status.e_success →
          (decode_data_from_image_loop n f out).2.1.length = out.length + n)
        ∧ (decode_data_from_image_loop n f out).2.1.length ≤ out.length + n := by
  induction n with
  | zero =>
    intro f out
    simp [decode_data_from_image_loop]
  | succ n ih =>
    intro f out
    unfold decode_data_from_image_loop
    generalize fread 8 f = r
    obtain ⟨b, f1⟩ := r
    simp only
    by_cases hb : b.length = 8
    · simp only [hb, ne_eq, not_true_eq_false, if_false]
      rw [decode_byte_from_lsb_fst]
      simp only
      have := ih f1 (out ++ [(decode_byte_from_lsb b).2])
      simp only [List.length_append, List.length_singleton] at this
      constructor
      · intro hs
        rw [this.1 hs]
        omega
      · have := this.2
        omega
    · simp only [ne_eq, hb, not_false_eq_true, if_true]
      constructor
      · intro hs
        exact absurd hs (by decide)
      · omega

/-- Function `decode_data_from_image` keeps the length of the array `output` when
`size` is below that length: no element past the end of the array is stored. -/
theorem decode_data_from_image_length (output : List Nat) (size : Nat) (f : FILE)
    (h : size < output.length) :
    (decode_data_from_image output size f).2.1.length = output.length := by
  unfold decode_data_from_image
  have hl := decode_data_from_image_loop_length size f []
  generalize decode_data_from_image_loop size f [] = r at hl
  obtain ⟨st, out, g⟩ := r
  simp only [List.length_nil, Nat.zero_add] at hl
  cases st with
  | e_failure =>
    simp only [List.length_append, List.length_drop]
    have := hl.2
    omega
  | e_success =>
    simp only [List.length_append, List.length_cons, List.length_drop]
    have := hl.1 rfl
    omega

/-! ## Claims on the extension buffer -/

/-- C25: whenever `decode_secret_file_extn_size` has succeeded, the stored size is
between 1 and 49 and is passed unchanged as the `int` argument of
`decode_data_from_image`, so every index `0 .. size_secret_file_extn` (the last
being the terminator) that `decode_data_from_image` and `decode_secret_file_extn`
write into `extn_secret_file` is strictly less than `MAX_FILE_SUFFIX_ = 50`; the
array keeps its 50 elements whether `decode_secret_file_extn` succeeds or
fails. -/
theorem extn_buffer_bound (d d1 : DecodeInfo)
    (h : decode_secret_file_extn_size d = (Status.e_success, d1)) :
    1 ≤ d1.size_secret_file_extn ∧ d1.size_secret_file_extn < MAX_FILE_SUFFIX_
      ∧ MAX_FILE_SUFFIX_ = 50
      ∧ long_to_int d1.size_secret_file_extn = d1.size_secret_file_extn
      ∧ (∀ i, i ≤ d1.size_secret_file_extn → i < MAX_FILE_SUFFIX_)
      ∧ (decode_secret_file_extn d1).2.extn_secret_file.length = MAX_FILE_SUFFIX_ := by
  have hrange : 1 ≤ d1.size_secret_file_extn ∧ d1.size_secret_file_extn ≤ 49 := by
    by_cases h32 : 32 ≤ d.fptr_stego_image.rest.length
    · rw [decode_secret_file_extn_size_rest d h32] at h
      by_cases hr : 1 ≤ lsbField d.fptr_stego_image.rest 0
          ∧ lsbField d.fptr_stego_image.rest 0 ≤ 49
      · rw [if_pos hr] at h
        simp only [Prod.mk.injEq, true_and] at h
        subst h
        simp only
        rw [int_to_long_small _ (by omega)]
        exact hr
      · rw [if_neg hr] at h
        simp at h
    · have hf := decode_secret_file_extn_size_short d (by omega)
      rw [h] at hf
      simp at hf
  have hli : long_to_int d1.size_secret_file_extn = d1.size_secret_file_extn := by
    unfold long_to_int
    exact Nat.mod_eq_of_lt (by omega)
  have h50 : MAX_FILE_SUFFIX_ = 50 := rfl
  refine ⟨hrange.1, by rw [h50]; omega, h50, hli, ?_, ?_⟩
  · intro i hi
    rw [h50]
    omega
  · unfold decode_secret_file_extn
    have hl := decode_data_from_image_length (List.replicate MAX_FILE_SUFFIX_ 0)
      (long_to_int d1.size_secret_file_extn) d1.fptr_stego_image
      (by rw [hli, List.length_replicate, h50]; omega)
    generalize decode_data_from_image (List.replicate MAX_FILE_SUFFIX_ 0)
      (long_to_int d1.size_secret_file_extn) d1.fptr_stego_image = r at hl
    obtain ⟨st, extn, g⟩ := r
    simp only [List.length_replicate] at hl
    cases st with
    | e_failure => exact hl
    | e_success =>
      simp only
      split
      · simp only [List.length_set]
        exact hl
      · simp only [List.length_set]
        exact hl

set_option maxRecDepth 100000 in
theorem extn_buffer_bound_witness :
    1 ≤ (decode_secret_file_extn_size sampleAfterMarker).2.size_secret_file_extn
      ∧ (decode_secret_file_extn_size sampleAfterMarker).2.size_secret_file_extn
          < MAX_FILE_SUFFIX_
      ∧ MAX_FILE_SUFFIX_ = 50
      ∧ long_to_int (decode_secret_file_extn_size sampleAfterMarker).2.size_secret_file_extn
        = (decode_secret_file_extn_size sampleAfterMarker).2.size_secret_file_extn
      ∧ (∀ i, i ≤ (decode_secret_file_extn_size sampleAfterMarker).2.size_secret_file_extn →
          i < MAX_FILE_SUFFIX_)
      ∧ (decode_secret_file_extn
          (decode_secret_file_extn_size sampleAfterMarker).2).2.extn_secret_file.length
        = MAX_FILE_SUFFIX_ :=
  extn_buffer_bound sampleAfterMarker (decode_secret_file_extn_size sampleAfterMarker).2
    (Prod.ext (by decide) rfl)


/-! ## The reader on two images with the same least significant bits -/

theorem getD_mod_of_map_eq (l1 l2 : List Nat) (j : Nat)
    (h : l1.map (fun b => b % 2) = l2.map (fun b => b % 2)) :
    l1.getD j 0 % 2 = l2.getD j 0 % 2 := by
  rw [← getD_map_mod_two, ← getD_map_mod_two, h]

theorem decode_byte_from_lsb_congr (c1 c2 : List Nat)
    (h : c1.map (fun b => b % 2) = c2.map (fun b => b % 2)) :
    decode_byte_from_lsb c1 = decode_byte_from_lsb c2 := by
  rw [decode_byte_from_lsb_eq, decode_byte_from_lsb_eq]
  congr 1
  apply msbValue_congr
  intro i _
  exact getD_mod_of_map_eq c1 c2 i h

theorem decode_size_from_lsb_congr (c1 c2 : List Nat)
    (h : c1.map (fun b => b % 2) = c2.map (fun b => b % 2)) :
    decode_size_from_lsb c1 = decode_size_from_lsb c2 := by
  rw [decode_size_from_lsb_eq, decode_size_from_lsb_eq]
  congr 2
  apply msbValue_congr
  intro i _
  exact getD_mod_of_map_eq c1 c2 i h

/-- Reading from two streams that agree in position and least significant bits
gives blocks of the same length with the same least significant bits, and leaves
the streams in agreement. -/
theorem fread_lsbEq (n : Nat) (f g : FILE) (h : lsbEq f g) :
    (fread n f).1.map (fun b => b % 2) = (fread n g).1.map (fun b => b % 2)
      ∧ (fread n f).1.length = (fread n g).1.length
      ∧ lsbEq (fread n f).2 (fread n g).2 := by
  obtain ⟨hp, hr⟩ := h
  have hm : (f.rest.take n).map (fun b => b % 2) = (g.rest.take n).map (fun b => b % 2) := by
    rw [List.map_take, List.map_take, hr]
  have hlen : (f.rest.take n).length = (g.rest.take n).length := by
    have := congrArg List.length hm
    simpa only [List.length_map] using this
  rw [fread_eq, fread_eq]
  refine ⟨hm, hlen, ?_, ?_⟩
  · simp only [hp, hlen]
  · rw [rest_advance, rest_advance, hlen, List.map_drop, List.map_drop, hr]

theorem decode_data_from_image_loop_lsbEq (n : Nat) :
    ∀ (f g : FILE) (out : List Nat), lsbEq f g →
      (decode_data_from_image_loop n f out).1 = (decode_data_from_image_loop n g out).1
        ∧ (decode_data_from_image_loop n f out).2.1 = (decode_data_from_image_loop n g out).2.1
        ∧ lsbEq (decode_data_from_image_loop n f out).2.2
            (decode_data_from_image_loop n g out).2.2 := by
  induction n with
  | zero =>
    intro f g out h
    exact ⟨rfl, rfl, h⟩
  | succ n ih =>
    intro f g out h
    obtain ⟨hm, hlen, hs⟩ := fread_lsbEq 8 f g h
    unfold decode_data_from_image_loop
    generalize fread 8 f = r1 at hm hlen hs
    generalize fread 8 g = r2 at hm hlen hs
    obtain ⟨b1, f1⟩ := r1
    obtain ⟨b2, g1⟩ := r2
    simp only at hm hlen hs ⊢
    by_cases hb : b1.length = 8
    · have hb2 : b2.length = 8 := by rw [← hlen]; exact hb
      simp only [hb, hb2, ne_eq, not_true_eq_false, if_false]
      rw [decode_byte_from_lsb_congr b1 b2 hm, decode_byte_from_lsb_fst b2]
      simp only
      exact ih f1 g1 _ hs
    · have hb2 : ¬ b2.length = 8 := by rw [← hlen]; exact hb
      simp only [ne_eq, hb, hb2, not_false_eq_true, if_true]
      refine ⟨?_, ?_, ?_⟩ <;> first | rfl | assumption | trivial

theorem decode_data_from_image_lsbEq (output : List Nat) (size : Nat) (f g : FILE)
    (h : lsbEq f g) :
    (decode_data_from_image output size f).1 = (decode_data_from_image output size g).1
      ∧ (decode_data_from_image output size f).2.1 = (decode_data_from_image output size g).2.1
      ∧ lsbEq (decode_data_from_image output size f).2.2
          (decode_data_from_image output size g).2.2 := by
  obtain ⟨h1, h2, h3⟩ := decode_data_from_image_loop_lsbEq size f g [] h
  unfold decode_data_from_image
  generalize decode_data_from_image_loop size f [] = r1 at h1 h2 h3
  generalize decode_data_from_image_loop size g [] = r2 at h1 h2 h3
  obtain ⟨st1, out1, f1⟩ := r1
  obtain ⟨st2, out2, g1⟩ := r2
  simp only at h1 h2 h3
  subst h1 h2
  cases st1 with
  | e_failure => refine ⟨?_, ?_, ?_⟩ <;> first | rfl | assumption
  | e_success => refine ⟨?_, ?_, ?_⟩ <;> first | rfl | assumption

theorem decode_secret_file_data_loop_lsbEq (n : Nat) :
    ∀ (f g : FILE) (secret : List Nat), lsbEq f g →
      (decode_secret_file_data_loop n f secret).1 = (decode_secret_file_data_loop n g secret).1
        ∧ lsbEq (decode_secret_file_data_loop n f secret).2.1
            (decode_secret_file_data_loop n g secret).2.1
        ∧ (decode_secret_file_data_loop n f secret).2.2
          = (decode_secret_file_data_loop n g secret).2.2 := by
  induction n with
  | zero =>
    intro f g out h
    exact ⟨rfl, h, rfl⟩
  | succ n ih =>
    intro f g out h
    obtain ⟨hm, hlen, hs⟩ := fread_lsbEq 8 f g h
    unfold decode_secret_file_data_loop
    generalize fread 8 f = r1 at hm hlen hs
    generalize fread 8 g = r2 at hm hlen hs
    obtain ⟨b1, f1⟩ := r1
    obtain ⟨b2, g1⟩ := r2
    simp only at hm hlen hs ⊢
    by_cases hb : b1.length = 8
    · have hb2 : b2.length = 8 := by rw [← hlen]; exact hb
      simp only [hb, hb2, ne_eq, not_true_eq_false, if_false]
      rw [decode_byte_from_lsb_congr b1 b2 hm, decode_byte_from_lsb_fst b2]
      simp only
      exact ih f1 g1 _ hs
    · have hb2 : ¬ b2.length = 8 := by rw [← hlen]; exact hb
      simp only [ne_eq, hb, hb2, not_false_eq_true, if_true]
      refine ⟨?_, ?_, ?_⟩ <;> first | rfl | assumption | trivial

theorem decode_magic_string_same (M : List Nat) (d1 d2 : DecodeInfo) (h : sameDecoding d1 d2) :
    (decode_magic_string M d1).1 = (decode_magic_string M d2).1
      ∧ sameDecoding (decode_magic_string M d1).2 (decode_magic_string M d2).2 := by
  obtain ⟨hf, h1, h2, h3, h4, h5, h6, h7⟩ := h
  obtain ⟨k1, k2, k3⟩ := decode_data_from_image_lsbEq (List.replicate 16 0) (strlen M)
    d1.fptr_stego_image d2.fptr_stego_image hf
  unfold decode_magic_string
  generalize decode_data_from_image (List.replicate 16 0) (strlen M) d1.fptr_stego_image = r1
    at k1 k2 k3
  generalize decode_data_from_image (List.replicate 16 0) (strlen M) d2.fptr_stego_image = r2
    at k1 k2 k3
  obtain ⟨st1, out1, f1⟩ := r1
  obtain ⟨st2, out2, g1⟩ := r2
  simp only at k1 k2 k3
  subst k1 k2
  cases st1 with
  | e_failure => refine ⟨?_, ?_, ?_, ?_, ?_, ?_, ?_, ?_, ?_⟩ <;> first | rfl | assumption
  | e_success =>
    simp only
    by_cases hc : cstr out1 = cstr M
    · simp only [hc, ne_eq, not_true_eq_false, if_false]
      refine ⟨?_, ?_, ?_, ?_, ?_, ?_, ?_, ?_, ?_⟩ <;> first | rfl | assumption | trivial
    · simp only [ne_eq, hc, not_false_eq_true, if_true]
      refine ⟨?_, ?_, ?_, ?_, ?_, ?_, ?_, ?_, ?_⟩ <;> first | rfl | assumption | trivial

theorem decode_secret_file_extn_size_same (d1 d2 : DecodeInfo) (h : sameDecoding d1 d2) :
    (decode_secret_file_extn_size d1).1 = (decode_secret_file_extn_size d2).1
      ∧ sameDecoding (decode_secret_file_extn_size d1).2 (decode_secret_file_extn_size d2).2 := by
  obtain ⟨hf, h1, h2, h3, h4, h5, h6, h7⟩ := h
  obtain ⟨hm, hlen, hs⟩ := fread_lsbEq 32 d1.fptr_stego_image d2.fptr_stego_image hf
  unfold decode_secret_file_extn_size
  generalize fread 32 d1.fptr_stego_image = r1 at hm hlen hs
  generalize fread 32 d2.fptr_stego_image = r2 at hm hlen hs
  obtain ⟨b1, f1⟩ := r1
  obtain ⟨b2, g1⟩ := r2
  simp only at hm hlen hs ⊢
  by_cases hb : b1.length = 32
  · have hb2 : b2.length = 32 := by rw [← hlen]; exact hb
    simp only [hb, hb2, ne_eq, not_true_eq_false, if_false]
    rw [decode_size_from_lsb_congr b1 b2 hm, decode_size_from_lsb_fst b2]
    simp only
    split
    · refine ⟨?_, ?_, ?_, ?_, ?_, ?_, ?_, ?_, ?_⟩ <;> first | rfl | assumption
    · refine ⟨?_, ?_, ?_, ?_, ?_, ?_, ?_, ?_, ?_⟩ <;> first | rfl | assumption
  · have hb2 : ¬ b2.length = 32 := by rw [← hlen]; exact hb
    simp only [ne_eq, hb, hb2, not_false_eq_true, if_true]
    refine ⟨?_, ?_, ?_, ?_, ?_, ?_, ?_, ?_, ?_⟩ <;> first | rfl | assumption | trivial

theorem decode_secret_file_extn_same (d1 d2 : DecodeInfo) (h : sameDecoding d1 d2) :
    (decode_secret_file_extn d1).1 = (decode_secret_file_extn d2).1
      ∧ sameDecoding (decode_secret_file_extn d1).2 (decode_secret_file_extn d2).2 := by
  obtain ⟨hf, h1, h2, h3, h4, h5, h6, h7⟩ := h
  obtain ⟨k1, k2, k3⟩ := decode_data_from_image_lsbEq (List.replicate MAX_FILE_SUFFIX_ 0)
    (long_to_int d1.size_secret_file_extn) d1.fptr_stego_image d2.fptr_stego_image hf
  unfold decode_secret_file_extn
  rw [← h5, ← h1, ← h7]
  generalize decode_data_from_image (List.replicate MAX_FILE_SUFFIX_ 0)
    (long_to_int d1.size_secret_file_extn) d1.fptr_stego_image = r1 at k1 k2 k3
  generalize decode_data_from_image (List.replicate MAX_FILE_SUFFIX_ 0)
    (long_to_int d1.size_secret_file_extn) d2.fptr_stego_image = r2 at k1 k2 k3
  obtain ⟨st1, out1, f1⟩ := r1
  obtain ⟨st2, out2, g1⟩ := r2
  simp only at k1 k2 k3
  subst k1 k2
  cases st1 with
  | e_failure => refine ⟨?_, ?_, ?_, ?_, ?_, ?_, ?_, ?_, ?_⟩ <;> first | rfl | assumption
  | e_success =>
    simp only
    by_cases ho : d1.fopen_wb (strcat d1.secret_fname (out1.set d1.size_secret_file_extn 0))
        = true
    · rw [if_pos ho, if_pos ho]
      refine ⟨?_, ?_, ?_, ?_, ?_, ?_, ?_, ?_, ?_⟩ <;> first | rfl | assumption
    · rw [if_neg ho, if_neg ho]
      refine ⟨?_, ?_, ?_, ?_, ?_, ?_, ?_, ?_, ?_⟩ <;> first | rfl | assumption

theorem decode_secret_file_size_same (d1 d2 : DecodeInfo) (h : sameDecoding d1 d2) :
    (decode_secret_file_size d1).1 = (decode_secret_file_size d2).1
      ∧ sameDecoding (decode_secret_file_size d1).2 (decode_secret_file_size d2).2 := by
  obtain ⟨hf, h1, h2, h3, h4, h5, h6, h7⟩ := h
  obtain ⟨hm, hlen, hs⟩ := fread_lsbEq 32 d1.fptr_stego_image d2.fptr_stego_image hf
  unfold decode_secret_file_size
  generalize fread 32 d1.fptr_stego_image = r1 at hm hlen hs
  generalize fread 32 d2.fptr_stego_image = r2 at hm hlen hs
  obtain ⟨b1, f1⟩ := r1
  obtain ⟨b2, g1⟩ := r2
  simp only at hm hlen hs ⊢
  by_cases hb : b1.length = 32
  · have hb2 : b2.length = 32 := by rw [← hlen]; exact hb
    simp only [hb, hb2, ne_eq, not_true_eq_false, if_false]
    rw [decode_size_from_lsb_congr b1 b2 hm, decode_size_from_lsb_fst b2]
    simp only
    split
    · refine ⟨?_, ?_, ?_, ?_, ?_, ?_, ?_, ?_, ?_⟩ <;> first | rfl | assumption
    · refine ⟨?_, ?_, ?_, ?_, ?_, ?_, ?_, ?_, ?_⟩ <;> first | rfl | assumption
  · have hb2 : ¬ b2.length = 32 := by rw [← hlen]; exact hb
    simp only [ne_eq, hb, hb2, not_false_eq_true, if_true]
    refine ⟨?_, ?_, ?_, ?_, ?_, ?_, ?_, ?_, ?_⟩ <;> first | rfl | assumption | trivial

theorem decode_secret_file_data_same (d1 d2 : DecodeInfo) (h : sameDecoding d1 d2) :
    (decode_secret_file_data d1).1 = (decode_secret_file_data d2).1
      ∧ sameDecoding (decode_secret_file_data d1).2 (decode_secret_file_data d2).2 := by
  obtain ⟨hf, h1, h2, h3, h4, h5, h6, h7⟩ := h
  obtain ⟨k1, k2, k3⟩ := decode_secret_file_data_loop_lsbEq
    (long_val d1.size_secret_file).toNat d1.fptr_stego_image d2.fptr_stego_image
    d1.fptr_secret hf
  unfold decode_secret_file_data
  rw [← h6, ← h3]
  by_cases hz : long_val d1.size_secret_file ≤ 0
  · rw [if_pos hz, if_pos hz]
    refine ⟨?_, ?_, ?_, ?_, ?_, ?_, ?_, ?_, ?_⟩ <;> first | rfl | assumption
  · rw [if_neg hz, if_neg hz]
    generalize decode_secret_file_data_loop (long_val d1.size_secret_file).toNat
      d1.fptr_stego_image d1.fptr_secret = r1 at k1 k2 k3
    generalize decode_secret_file_data_loop (long_val d1.size_secret_file).toNat
      d2.fptr_stego_image d1.fptr_secret = r2 at k1 k2 k3
    obtain ⟨st1, f1, out1⟩ := r1
    obtain ⟨st2, g1, out2⟩ := r2
    simp only at k1 k2 k3
    subst k1 k3
    refine ⟨?_, ?_, ?_, ?_, ?_, ?_, ?_, ?_, ?_⟩ <;> first | rfl | assumption

/-- Sequencing as in `do_decoding`: a step run on two results in agreement, where
a failure ends the run, gives results in agreement. -/
theorem match_same (r1 r2 : Status × DecodeInfo) (k : DecodeInfo → Status × DecodeInfo)
    (h : r1.1 = r2.1 ∧ sameDecoding r1.2 r2.2)
    (hk : ∀ a b, sameDecoding a b → (k a).1 = (k b).1 ∧ sameDecoding (k a).2 (k b).2) :
    (match r1 with
      | (Status.e_failure, d2) => (Status.e_failure, d2)
      | (Status.e_success, d2) => k d2).1
      = (match r2 with
          | (Status.e_failure, d2) => (Status.e_failure, d2)
          | (Status.e_success, d2) => k d2).1
    ∧ sameDecoding
        (match r1 with
          | (Status.e_failure, d2) => (Status.e_failure, d2)
          | (Status.e_success, d2) => k d2).2
        (match r2 with
          | (Status.e_failure, d2) => (Status.e_failure, d2)
          | (Status.e_success, d2) => k d2).2 := by
  obtain ⟨st1, a⟩ := r1
  obtain ⟨st2, b⟩ := r2
  obtain ⟨h1, h2⟩ := h
  simp only at h1 h2
  subst h1
  cases st1 with
  | e_failure => exact ⟨rfl, h2⟩
  | e_success => exact hk a b h2

/-- Two images of the same length whose bytes from offset 54 on agree in their
least significant bits have pixel regions with the same list of least
significant bits. -/
theorem map_mod_two_drop_eq (img1 img2 : List Nat) (hlen : img1.length = img2.length)
    (hlsb : ∀ j, 54 ≤ j → img1.getD j 0 % 2 = img2.getD j 0 % 2) :
    (img1.drop 54).map (fun b => b % 2) = (img2.drop 54).map (fun b => b % 2) := by
  apply List.ext_getElem?
  intro n
  have hj := hlsb (54 + n) (by omega)
  simp only [List.getD_eq_getElem?_getD] at hj
  simp only [List.getElem?_map, List.getElem?_drop]
  by_cases hn : 54 + n < img1.length
  · have hn2 : 54 + n < img2.length := by omega
    rw [List.getElem?_eq_getElem hn, List.getElem?_eq_getElem hn2] at hj ⊢
    simp only [Option.getD_some] at hj
    simp only [Option.map_some', hj]
  · rw [List.getElem?_eq_none (by omega), List.getElem?_eq_none (by omega)]

/-- The whole reader on two states in agreement whose images have the same least
significant bits from offset 54 on. -/
theorem do_decoding_same (M : List Nat) (d1 d2 : DecodeInfo) (img1 img2 : List Nat)
    (hd1 : d1.stego_image_file = some img1) (hd2 : d2.stego_image_file = some img2)
    (hsame : d1.secret_fname = d2.secret_fname ∧ d1.secret_created = d2.secret_created
      ∧ d1.fptr_secret = d2.fptr_secret ∧ d1.extn_secret_file = d2.extn_secret_file
      ∧ d1.size_secret_file_extn = d2.size_secret_file_extn
      ∧ d1.size_secret_file = d2.size_secret_file
      ∧ d1.fopen_wb = d2.fopen_wb)
    (hmap : (img1.drop 54).map (fun b => b % 2) = (img2.drop 54).map (fun b => b % 2)) :
    (do_decoding M d1).1 = (do_decoding M d2).1
      ∧ sameDecoding (do_decoding M d1).2 (do_decoding M d2).2 := by
  unfold do_decoding skip_bmp_header
  rw [hd1, hd2]
  simp only [fseek]
  apply match_same
  · apply decode_magic_string_same
    exact ⟨⟨rfl, hmap⟩, hsame⟩
  intro a1 b1 s1
  apply match_same _ _ _ (decode_secret_file_extn_size_same a1 b1 s1)
  intro a2 b2 s2
  apply match_same _ _ _ (decode_secret_file_extn_same a2 b2 s2)
  intro a3 b3 s3
  apply match_same _ _ _ (decode_secret_file_size_same a3 b3 s3)
  intro a4 b4 s4
  exact decode_secret_file_data_same a4 b4 s4

/-- Pixel regions with the same list of least significant bits agree in the least
significant bit of every byte from offset 54 on. -/
theorem getD_mod_of_drop_map_eq (img1 img2 : List Nat)
    (h : (img1.drop 54).map (fun b => b % 2) = (img2.drop 54).map (fun b => b % 2)) :
    ∀ j, 54 ≤ j → img1.getD j 0 % 2 = img2.getD j 0 % 2 := by
  intro j hj
  have e : j = 54 + (j - 54) := by omega
  rw [e, ← getD_drop, ← getD_drop]
  exact getD_mod_of_map_eq _ _ _ h

/-! ## Claims on what the reader depends on -/

/-- C24: for any two stego images of equal length whose bytes from offset 54
onward agree in their least significant bits (the first 54 bytes and the upper 7
bits of every later byte may differ arbitrarily), `do_decoding` started from the
same state, hence with the same base name, returns the same status, the same
output filename and the same output bytes, on success and on every failing
path. -/
theorem decode_depends_on_lsbs_only (M : List Nat) (d : DecodeInfo) (img1 img2 : List Nat)
    (hlen : img1.length = img2.length)
    (hlsb : ∀ j, 54 ≤ j → img1.getD j 0 % 2 = img2.getD j 0 % 2) :
    (do_decoding M { d with stego_image_file := some img1 }).1
        = (do_decoding M { d with stego_image_file := some img2 }).1
      ∧ (do_decoding M { d with stego_image_file := some img1 }).2.secret_fname
        = (do_decoding M { d with stego_image_file := some img2 }).2.secret_fname
      ∧ (do_decoding M { d with stego_image_file := some img1 }).2.secret_created
        = (do_decoding M { d with stego_image_file := some img2 }).2.secret_created
      ∧ (do_decoding M { d with stego_image_file := some img1 }).2.fptr_secret
        = (do_decoding M { d with stego_image_file := some img2 }).2.fptr_secret := by
  obtain ⟨h1, _, h2, h3, h4, _⟩ := do_decoding_same M
    { d with stego_image_file := some img1 } { d with stego_image_file := some img2 }
    img1 img2 rfl rfl ⟨rfl, rfl, rfl, rfl, rfl, rfl, rfl⟩
    (map_mod_two_drop_eq img1 img2 hlen hlsb)
  exact ⟨h1, h2, h3, h4⟩

set_option maxRecDepth 100000 in
theorem decode_depends_on_lsbs_only_witness :
    (sampleEncoded [200, 65]).fptr_stego_image.take 54 ≠ sampleLsbTwin.take 54
      ∧ (do_decoding sampleMagic { sampleDecodeInfo [] with
          stego_image_file := some sampleLsbTwin }).2.fptr_secret = [200, 65]
      ∧ (do_decoding sampleMagic { sampleDecodeInfo [] with
            stego_image_file := some (sampleEncoded [200, 65]).fptr_stego_image }).1
          = (do_decoding sampleMagic { sampleDecodeInfo [] with
              stego_image_file := some sampleLsbTwin }).1
        ∧ (do_decoding sampleMagic { sampleDecodeInfo [] with
            stego_image_file := some (sampleEncoded [200, 65]).fptr_stego_image }).2.secret_fname
          = (do_decoding sampleMagic { sampleDecodeInfo [] with
              stego_image_file := some sampleLsbTwin }).2.secret_fname
        ∧ (do_decoding sampleMagic { sampleDecodeInfo [] with
            stego_image_file := some (sampleEncoded [200, 65]).fptr_stego_image }).2.secret_created
          = (do_decoding sampleMagic { sampleDecodeInfo [] with
              stego_image_file := some sampleLsbTwin }).2.secret_created
        ∧ (do_decoding sampleMagic { sampleDecodeInfo [] with
            stego_image_file := some (sampleEncoded [200, 65]).fptr_stego_image }).2.fptr_secret
          = (do_decoding sampleMagic { sampleDecodeInfo [] with
              stego_image_file := some sampleLsbTwin }).2.fptr_secret :=
  ⟨by decide, by decide,
    decode_depends_on_lsbs_only sampleMagic (sampleDecodeInfo [])
      (sampleEncoded [200, 65]).fptr_stego_image sampleLsbTwin (by decide)
      (getD_mod_of_drop_map_eq _ _ (by decide))⟩


end Stego
